import Mathlib

/-!
# The `enforceMethods` analyzer of `example.go`

A shallow embedding of `PluginExample.run` and its helpers
(`getReceiverName`, `isValidValidateSignature`,
`isValidResourceMappingsSignature`), followed by theorems about them.

Modelling conventions.

* The parts of `go/ast`, `go/types` and `go/analysis` that `run` reads are
  given as Lean types that keep the Go field names (`Type_` stands for the Go
  field `Type`).  A Go interface value (`ast.Node`, `ast.Spec`, `ast.Expr`,
  `types.Type`) is a sum type, a type assertion is a pattern match, and a
  pointer that may be nil is an `Option`.
* A syntax tree is a tree of `ast.Node`s.  A node carries the fields the
  callbacks read (`NodeKind`) and, as `children`, the sub-nodes that are not
  already described by those fields, in the order `ast.Walk` meets them: the
  body of a function declaration, the value expressions of a `var`/`const`
  spec, the declarations of a file, the statements of a block.
* The fields of a node hold type expressions (`ast.Expr`) in the shape the
  callbacks read.  `ast.Walk` descends into type expressions as well, and an
  expression inside a type (the length of an array type) can hold a function
  literal, whose body can hold declarations.  Such an expression is written
  `Expr.Other` in the field, and the node of the expression, with its
  sub-nodes, is listed among the `children` of the node that carries the
  field, at the place where `ast.Walk` meets it: for a function declaration
  the children are the expression nodes of the receiver, of the parameter
  list and of the result list, in this order, and then the body.  The
  concrete inputs leave out the expression nodes below which no declaration
  occurs (identifiers, literals, calls without a function literal): no
  callback acts on them.
* The local map `structMap` is an association list with distinct keys; the
  order in which `range structMap` enumerates it is not fixed by Go, so `run`
  takes the enumeration as a parameter (`RangeOrder`).
* A run-time panic is a `Fault`; `run` returns `Except Fault _`.
-/

namespace Linters

/-- Source position (`token.Pos`): an integer offset into the file set. -/
abbrev token.Pos := Nat

/-- Run-time panics that `run` can raise. -/
inductive Fault where
  /-- Selecting a field through a nil pointer ("invalid memory address or nil pointer dereference"). -/
  | nilPointerDereference
  deriving DecidableEq, Repr

namespace ast

mutual
/-- Type expressions (`ast.Expr`): the node kinds the checker tells apart, and
`Other` for every remaining kind (named by `kind`, e.g. `"MapType"`).  An
expression of a remaining kind that has sub-nodes of its own (a call with a
function literal as argument) is also a child of the node that carries it. -/
inductive Expr where
  | Ident (NamePos : token.Pos) (Name : String)
  | SelectorExpr (X : Expr) (Sel : String)
  | StarExpr (X : Expr)
  | ArrayType (Len : Option Expr) (Elt : Expr)
  | StructType (Fields : List Field)
  | InterfaceType (Methods : List Field)
  | Other (kind : String)
/-- One entry of a field list (`ast.Field`): the declared names and the type. -/
inductive Field where
  | mk (Names : List String) (Type_ : Expr)
end

/-- The Go field `Field.Type`. -/
def Field.Type_ : Field → Expr
  | .mk _ t => t

/-- The Go field `Field.Names`. -/
def Field.Names : Field → List String
  | .mk ns _ => ns

/-- The Go struct `ast.FieldList`, reduced to its `List` field. -/
abbrev FieldList := List Field

/-- The Go struct `ast.FuncType`: `Params` is never nil, `Results` is nil when the
function declares no result. -/
structure FuncType where
  Params : FieldList
  Results : Option FieldList

/-- The Go struct `ast.FuncDecl` without its body (the body is among the
children of the node, after the expression nodes that the receiver, the
parameter list and the result list hold): `Recv` is nil for a plain function,
`Name` is `funcDecl.Name.Name`. -/
structure FuncDecl where
  Recv : Option FieldList
  Name : String
  Type_ : FuncType

/-- The Go interface `ast.Spec`.  For a `TypeSpec`, `NamePos` and `Name` are the
position and text of `typeSpec.Name` (so `typeSpec.Pos()` is `NamePos`), and
`Assign` tells an alias declaration `type A = T`. -/
inductive Spec where
  | ImportSpec (Path : String)
  | ValueSpec (Names : List String) (Type_ : Option Expr)
  | TypeSpec (NamePos : token.Pos) (Name : String) (Assign : Bool) (Type_ : Expr)

/-- What a callback can read of a node after its type assertion. -/
inductive NodeKind where
  | GenDecl (Specs : List Spec)
  | FuncDecl (funcDecl : FuncDecl)
  | Other (kind : String)

/-- The Go interface `ast.Node`: a node and its sub-nodes. -/
inductive Node where
  | mk (kind : NodeKind) (children : List Node)

/-- The kind of a node. -/
def Node.kind : Node → NodeKind
  | .mk k _ => k

/-- The sub-nodes of a node. -/
def Node.children : Node → List Node
  | .mk _ cs => cs

mutual
/-- The library function `ast.Inspect(node, f)`: call `f(node)`; if it returns true, inspect
each child in order and then call `f(nil)`.  The callback works on a state `σ`
and may panic. -/
def Inspect {σ : Type} (f : Option Node → σ → Except Fault (σ × Bool)) : Node → σ → Except Fault σ
  | .mk k cs, s =>
    match f (some (.mk k cs)) s with
    | .error e => .error e
    | .ok (s1, false) => .ok s1
    | .ok (s1, true) =>
      match InspectList f cs s1 with
      | .error e => .error e
      | .ok s2 =>
        match f none s2 with
        | .error e => .error e
        | .ok (s3, _) => .ok s3
/-- Inspect the nodes of a list one after the other. -/
def InspectList {σ : Type} (f : Option Node → σ → Except Fault (σ × Bool)) : List Node → σ → Except Fault σ
  | [], s => .ok s
  | c :: cs, s =>
    match Inspect f c s with
    | .error e => .error e
    | .ok s1 => InspectList f cs s1
end

mutual
/-- The nodes of a tree in depth-first order, the node before its children. -/
def Node.preorder : Node → List Node
  | .mk k cs => .mk k cs :: preorderList cs
/-- The nodes of a list of trees in depth-first order. -/
def preorderList : List Node → List Node
  | [] => []
  | c :: cs => c.preorder ++ preorderList cs
end

end ast

namespace types

/-- The Go interface `types.Type`: a named type (`*types.Named`, with the name of its
object), a pointer type, or any other type. -/
inductive Type_ where
  | Named (Name : String)
  | Pointer (Elem : Type_)
  | Other (kind : String)
  deriving DecidableEq, Repr

/-- The Go struct `types.Info`, reduced to its method `TypeOf`: the type of an
expression, or nil (`none`) when the expression is not recorded. -/
structure Info where
  TypeOf : ast.Expr → Option Type_

end types

namespace analysis

/-- The Go struct `analysis.Diagnostic`, fields `Pos` and `Message`. -/
structure Diagnostic where
  Pos : token.Pos
  Message : String
  deriving DecidableEq, Repr

/-- The Go struct `analysis.Pass`: the syntax trees of the files (each the root node of
one file) and the type information. -/
structure Pass where
  Files : List ast.Node
  TypesInfo : types.Info

end analysis

/-- The Go struct `TokenInfo`. -/
structure TokenInfo where
  pos : token.Pos
  hasValidate : Bool
  hasResourceMappings : Bool
  deriving DecidableEq, Repr

/-- The local `structMap` of `run`, a Go `map[string]TokenInfo`. -/
abbrev StructMap := List (String × TokenInfo)

/-- Map read `v, ok := m[key]`. -/
def StructMap.get : StructMap → String → Option TokenInfo
  | [], _ => none
  | (k, v) :: rest, key => if k = key then some v else StructMap.get rest key

/-- Map write `m[key] = value`: replaces the entry of an existing key, adds an entry otherwise. -/
def StructMap.set : StructMap → String → TokenInfo → StructMap
  | [], key, value => [(key, value)]
  | (k, v) :: rest, key, value =>
    if k = key then (key, value) :: rest else (k, v) :: StructMap.set rest key value

/-- The keys of the map. -/
def StructMap.keys (m : StructMap) : List String := m.map Prod.fst

/-- An enumeration order for `for key, value := range structMap`. -/
abbrev RangeOrder := StructMap → List (String × TokenInfo)

/-- Go guarantees that `range` yields every entry of the map exactly once, in some order. -/
def RangeOrder.Valid (range : RangeOrder) : Prop := ∀ m : StructMap, (range m).Perm m

/-- The function `isValidValidateSignature`. -/
def isValidValidateSignature (results : List ast.Field) : Bool :=
  if results.length != 1 then false
  else
    match results.head? with
    | some r0 =>
      match r0.Type_ with
      | .Ident _ Name => Name == "error"
      | _ => false
    | none => false

/-- The function `isValidResourceMappingsSignature`. -/
def isValidResourceMappingsSignature (results : List ast.Field) : Bool :=
  if results.length != 1 then false
  else
    match results.head? with
    | some r0 =>
      match r0.Type_ with
      | .ArrayType _ Elt =>
        match Elt with
        | .SelectorExpr _ Sel => Sel == "ResourceMapping"
        | _ => false
      | _ => false
    | none => false

/-- The function `getReceiverName`. -/
def getReceiverName (typesInfo : types.Info) (funcDecl : ast.FuncDecl) : String :=
  match funcDecl.Recv with
  | none => ""
  | some [] => ""
  | some (r0 :: _) =>
    match typesInfo.TypeOf r0.Type_ with
    | some (.Named Name) => Name
    | _ => ""

/-- Reading `fieldList.List` through a `*ast.FieldList`: panics on a nil pointer. -/
def FieldList_List (fieldList : Option ast.FieldList) : Except Fault (List ast.Field) :=
  match fieldList with
  | none => .error .nilPointerDereference
  | some l => .ok l

/-- The loop body of `inspectStruct` for one spec. -/
def inspectSpec (structMap : StructMap) (spec : ast.Spec) : StructMap :=
  match spec with
  | .TypeSpec NamePos Name _ (.StructType _) =>
    structMap.set Name ⟨NamePos, false, false⟩
  | _ => structMap

/-- The closure `inspectStruct` of `run`, with `structMap` as its state. -/
def inspectStruct (node : Option ast.Node) (structMap : StructMap) :
    Except Fault (StructMap × Bool) :=
  match node with
  | some (.mk (.GenDecl Specs) _) => .ok (Specs.foldl inspectSpec structMap, true)
  | _ => .ok (structMap, true)

/-- The condition `name == want && valid(funcDecl.Type.Results.List)`: the right operand is
evaluated, and can panic, only when the names are equal. -/
def nameAndSignature (funcDecl : ast.FuncDecl) (want : String)
    (valid : List ast.Field → Bool) : Except Fault Bool :=
  if funcDecl.Name = want then
    match FieldList_List funcDecl.Type_.Results with
    | .error e => .error e
    | .ok l => .ok (valid l)
  else .ok false

/-- The closure `inspectFunc` of `run`, with `structMap` as its state. -/
def inspectFunc (typesInfo : types.Info) (node : Option ast.Node) (structMap : StructMap) :
    Except Fault (StructMap × Bool) :=
  match node with
  | some (.mk (.FuncDecl funcDecl) _) =>
    let receiverName := getReceiverName typesInfo funcDecl
    if receiverName = "" then .ok (structMap, true)
    else
      match structMap.get receiverName with
      | some tokenInfo =>
        match nameAndSignature funcDecl "Validate" isValidValidateSignature with
        | .error e => .error e
        | .ok true =>
          .ok (structMap.set receiverName { tokenInfo with hasValidate := true }, true)
        | .ok false =>
          match nameAndSignature funcDecl "GetResourceMappings"
              isValidResourceMappingsSignature with
          | .error e => .error e
          | .ok true =>
            .ok (structMap.set receiverName { tokenInfo with hasResourceMappings := true }, true)
          | .ok false => .ok (structMap, true)
      | none => .ok (structMap, true)
  | _ => .ok (structMap, true)

/-- Message of the first `pass.Reportf` call for the struct `key`. -/
def validateMessage (key : String) : String :=
  "struct " ++ key ++ " does not implement method 'Validate() error'"

/-- Message of the second `pass.Reportf` call for the struct `key`. -/
def resourceMappingsMessage (key : String) : String :=
  "struct " ++ key ++ " does not implement method 'GetResourceMappings() []types.ResourceMapping'"

/-- The variables the reporting loop can touch: the map and the diagnostics reported so far. -/
structure RunState where
  structMap : StructMap
  Diagnostics : List analysis.Diagnostic

/-- The call `pass.Reportf(pos, ...)`: appends one diagnostic. -/
def Reportf (s : RunState) (pos : token.Pos) (message : String) : RunState :=
  { s with Diagnostics := s.Diagnostics ++ [⟨pos, message⟩] }

/-- The body of the reporting loop for one entry `key, value`. -/
def reportEntry (s : RunState) (entry : String × TokenInfo) : RunState :=
  let key := entry.1
  let value := entry.2
  let s1 := if !value.hasValidate then Reportf s value.pos (validateMessage key) else s
  if !value.hasResourceMappings then Reportf s1 value.pos (resourceMappingsMessage key) else s1

/-- The first loop of `run`: `ast.Inspect(f, inspectStruct)` for every file. -/
def collectPass : List ast.Node → StructMap → Except Fault StructMap
  | [], structMap => .ok structMap
  | f :: fs, structMap =>
    match ast.Inspect inspectStruct f structMap with
    | .error e => .error e
    | .ok m => collectPass fs m

/-- The second loop of `run`: `ast.Inspect(f, inspectFunc)` for every file. -/
def scanPass (typesInfo : types.Info) : List ast.Node → StructMap → Except Fault StructMap
  | [], structMap => .ok structMap
  | f :: fs, structMap =>
    match ast.Inspect (inspectFunc typesInfo) f structMap with
    | .error e => .error e
    | .ok m => scanPass typesInfo fs m

/-- What a completed call of `run` leaves: the final map, the reported diagnostics and the
two returned values (`nil, nil`). -/
structure RunResult where
  structMap : StructMap
  Diagnostics : List analysis.Diagnostic
  result : Option Unit
  err : Option String

/-- The method `PluginExample.run`. -/
def run (pass : analysis.Pass) (range : RangeOrder) : Except Fault RunResult :=
  match collectPass pass.Files [] with
  | .error e => .error e
  | .ok collected =>
    match scanPass pass.TypesInfo pass.Files collected with
    | .error e => .error e
    | .ok scanned =>
      let s := (range scanned).foldl reportEntry ⟨scanned, []⟩
      .ok ⟨s.structMap, s.Diagnostics, none, none⟩

/-- The diagnostics a call of `run` reports.  `pass.Reportf` is only called in the last
loop, so a call that panics has reported nothing. -/
def emitted (r : Except Fault RunResult) : List analysis.Diagnostic :=
  match r with
  | .ok res => res.Diagnostics
  | .error _ => []

/-- The diagnostics that name the struct `S`. -/
def diagnosticsFor (S : String) (ds : List analysis.Diagnostic) : List analysis.Diagnostic :=
  ds.filter (fun d => d.Message = validateMessage S ∨ d.Message = resourceMappingsMessage S)

open ast

/-! ## Definitions used to state and prove the properties: the nodes a traversal meets,
what the collection and scanning passes do to the map node by node, the predicates of the
statements, and the concrete inputs. -/

/-- Apply a callback to the nodes of a list in order, without looking at the returned flag. -/
def visitAll {σ : Type} (f : Option Node → σ → Except Fault (σ × Bool)) :
    List Node → σ → Except Fault σ
  | [], s => .ok s
  | n :: ns, s =>
    match f (some n) s with
    | .error e => .error e
    | .ok (s1, _) => visitAll f ns s1

/-- Every node of the files of a pass, in the order `ast.Inspect` meets them. -/
def allNodes (files : List Node) : List Node := preorderList files


/-- The struct type declared by a spec, as (name, position): a `TypeSpec` whose `Type` is a
`*ast.StructType`. -/
def structDeclOfSpec : Spec → List (String × token.Pos)
  | .TypeSpec NamePos Name _ (.StructType _) => [(Name, NamePos)]
  | _ => []

/-- The struct types declared by a node: those of the specs of a `GenDecl`. -/
def structDeclsOfNode (n : Node) : List (String × token.Pos) :=
  match n.kind with
  | .GenDecl Specs => Specs.flatMap structDeclOfSpec
  | _ => []

/-- The struct types declared by the nodes of a list, in order. -/
def structDecls (ns : List Node) : List (String × token.Pos) := ns.flatMap structDeclsOfNode

/-- The map write of `inspectStruct` for one declared struct type. -/
def declare (m : StructMap) (d : String × token.Pos) : StructMap :=
  m.set d.1 ⟨d.2, false, false⟩

/-- The node is a method declaration that makes the scanner set `hasValidate` of `S`. -/
def providesValidate (typesInfo : types.Info) (S : String) (n : Node) : Bool :=
  match n.kind with
  | .FuncDecl d =>
    decide (S ≠ "") && decide (getReceiverName typesInfo d = S) && decide (d.Name = "Validate") &&
      (match d.Type_.Results with
       | some rs => isValidValidateSignature rs
       | none => false)
  | _ => false

/-- The node is a method declaration that makes the scanner set `hasResourceMappings` of `S`. -/
def providesResourceMappings (typesInfo : types.Info) (S : String) (n : Node) : Bool :=
  match n.kind with
  | .FuncDecl d =>
    decide (S ≠ "") && decide (getReceiverName typesInfo d = S) &&
      decide (d.Name = "GetResourceMappings") &&
      (match d.Type_.Results with
       | some rs => isValidResourceMappingsSignature rs
       | none => false)
  | _ => false

/-- The node makes `inspectFunc` panic when the map has the given keys: a method declaration
named `Validate` or `GetResourceMappings` without result list whose receiver resolves to a key. -/
def faultsAt (typesInfo : types.Info) (keys : List String) (n : Node) : Bool :=
  match n.kind with
  | .FuncDecl d =>
    decide (getReceiverName typesInfo d ≠ "") && decide (getReceiverName typesInfo d ∈ keys) &&
      (decide (d.Name = "Validate") || decide (d.Name = "GetResourceMappings")) &&
      d.Type_.Results.isNone
  | _ => false

/-- The record of `S` after the scanner has met the nodes `ns`. -/
def mark (typesInfo : types.Info) (ns : List Node) (S : String) (v : TokenInfo) : TokenInfo :=
  ⟨v.pos, v.hasValidate || ns.any (providesValidate typesInfo S),
    v.hasResourceMappings || ns.any (providesResourceMappings typesInfo S)⟩

/-- The diagnostics the reporting loop emits for one entry. -/
def entryDiagnostics (e : String × TokenInfo) : List analysis.Diagnostic :=
  (if e.2.hasValidate then [] else [⟨e.2.pos, validateMessage e.1⟩]) ++
    (if e.2.hasResourceMappings then [] else [⟨e.2.pos, resourceMappingsMessage e.1⟩])


/-- The map after the collection pass over the given files. -/
def collected (files : List Node) : StructMap := (structDecls (allNodes files)).foldl declare []


/-- The receiver of the declaration resolves to the named type `S`: the declaration has a
receiver and the type information gives the type of its first receiver field as the named
type called `S`. -/
def ResolvesTo (typesInfo : types.Info) (d : FuncDecl) (S : String) : Prop :=
  ∃ r0 rest, d.Recv = some (r0 :: rest) ∧ typesInfo.TypeOf r0.Type_ = some (.Named S)

/-- The input contains a method declaration named `name` whose receiver resolves to the named
type `S` and whose result list satisfies `valid`. -/
def HasMethod (pass : analysis.Pass) (S name : String) (valid : List ast.Field → Bool) : Prop :=
  ∃ d cs rs, Node.mk (.FuncDecl d) cs ∈ allNodes pass.Files ∧ d.Name = name ∧
    ResolvesTo pass.TypesInfo d S ∧ d.Type_.Results = some rs ∧ valid rs = true

/-- The struct `S` has both capabilities, correctly signatured.  (`S ≠ ""`: a Go identifier
is never empty.) -/
def Conforms (pass : analysis.Pass) (S : String) : Prop :=
  S ≠ "" ∧ HasMethod pass S "Validate" isValidValidateSignature ∧
    HasMethod pass S "GetResourceMappings" isValidResourceMappingsSignature

/-- A method declaration `func (recvName recvType) name(params) results { body }`, the
receiver type written at position `recvPos`; receiver, parameters and results hold no
expression with sub-nodes of its own. -/
def method (recvName : String) (recvPos : token.Pos) (recvType : String) (name : String)
    (params : FieldList) (results : Option FieldList) (body : List Node) : Node :=
  .mk (.FuncDecl ⟨some [.mk [recvName] (.Ident recvPos recvType)], name, ⟨params, results⟩⟩)
    [.mk (.Other "BlockStmt") body]

/-- A declaration `type name struct { fields }`, the name written at position `pos`. -/
def structDecl (pos : token.Pos) (name : String) (fields : List ast.Field) : Node :=
  .mk (.GenDecl [.TypeSpec pos name false (.StructType fields)]) []

/-- Type information of a package whose declared (named) types are `named`: a type name
resolves to its named type, any other identifier to a basic type, `*T` to a pointer type. -/
def packageTypes (named : List String) : types.Info :=
  ⟨fun e => match e with
    | .Ident _ n => if n ∈ named then some (.Named n) else some (.Other "Basic")
    | .StarExpr (.Ident _ n) =>
      if n ∈ named then some (.Pointer (.Named n)) else some (.Pointer (.Other "Basic"))
    | _ => none⟩

/-- The test-data file `testdata/src/testlintdata/todo/example.go`; positions are byte
offsets plus one. -/
def exampleFile : Node :=
  .mk (.Other "File")
    [ .mk (.GenDecl [.ImportSpec "github.com/golangci/example-plugin-module-linter/types"]) [],
      .mk (.GenDecl [.TypeSpec 89 "Validator" false
          (.InterfaceType [.mk ["Validate"] (.Other "FuncType")])]) [],
      method "c" 140 "CreateEtcdCluster" "Validate" [] (some [.mk [] (.Ident 170 "error")])
        [.mk (.Other "ReturnStmt") []],
      structDecl 198 "CreateEtcdCluster"
        [.mk ["ResourceID"] (.Ident 237 "string"), .mk ["Name"] (.Ident 256 "string"),
          .mk ["Val"] (.Ident 275 "int64")],
      method "c" 292 "CreateEtcdCluster" "GetResourceMappings" []
        (some [.mk [] (.ArrayType none (.SelectorExpr (.Ident 335 "types") "ResourceMapping"))])
        [.mk (.Other "ReturnStmt") []],
      method "c" 478 "CreateEtcdCluster" "AnotherFunc" [] (some [.mk [] (.Ident 511 "int")])
        [.mk (.Other "ReturnStmt") []],
      structDecl 535 "TruncateTableRequest" [],
      method "t" 576 "TruncateTableRequest" "Validate" [] (some [.mk [] (.Ident 609 "error")])
        [.mk (.Other "ReturnStmt") []],
      structDecl 637 "MigrateDatabaseRequest" [],
      structDecl 677 "ResetPasswordRequest" [],
      method "t" 718 "MigrateDatabaseRequest" "Validate" [] (some [.mk [] (.Ident 753 "error")])
        [.mk (.Other "ReturnStmt") []],
      method "t" 784 "ResetPasswordRequest" "Validate" [] (some [.mk [] (.Ident 817 "error")])
        [.mk (.Other "ReturnStmt") []] ]

/-- The pass over the test-data file. -/
def examplePass : analysis.Pass :=
  ⟨[exampleFile], packageTypes ["Validator", "CreateEtcdCluster", "TruncateTableRequest",
    "MigrateDatabaseRequest", "ResetPasswordRequest", "error"]⟩

/-- The first thirty lines of the test-data file: `Validator`, and `CreateEtcdCluster` with
its three methods. -/
def conformingPass : analysis.Pass :=
  ⟨[.mk (.Other "File")
      [ .mk (.GenDecl [.TypeSpec 89 "Validator" false
          (.InterfaceType [.mk ["Validate"] (.Other "FuncType")])]) [],
        method "c" 140 "CreateEtcdCluster" "Validate" [] (some [.mk [] (.Ident 170 "error")])
          [.mk (.Other "ReturnStmt") []],
        structDecl 198 "CreateEtcdCluster"
          [.mk ["ResourceID"] (.Ident 237 "string"), .mk ["Name"] (.Ident 256 "string"),
            .mk ["Val"] (.Ident 275 "int64")],
        method "c" 292 "CreateEtcdCluster" "GetResourceMappings" []
          (some [.mk [] (.ArrayType none (.SelectorExpr (.Ident 335 "types") "ResourceMapping"))])
          [.mk (.Other "ReturnStmt") []],
        method "c" 478 "CreateEtcdCluster" "AnotherFunc" [] (some [.mk [] (.Ident 511 "int")])
          [.mk (.Other "ReturnStmt") []] ]],
    packageTypes ["Validator", "CreateEtcdCluster", "error"]⟩


/-- The input
`package p; type S struct{}; type T struct{}; func (t T) Validate() {}`:
`S` has no method, the method `Validate` of `T` declares no result. -/
def resultlessValidatePass : analysis.Pass :=
  ⟨[.mk (.Other "File")
      [structDecl 17 "S" [], structDecl 34 "T" [], method "t" 54 "T" "Validate" [] none []]],
    packageTypes ["S", "T"]⟩

/-- The input
`package p; type S struct{}; func (s S) Validate() error { return nil }; type T struct{};
func (t T) GetResourceMappings() {}`:
the only method of `S` is a conforming `Validate`, the method `GetResourceMappings` of `T`
declares no result. -/
def resultlessMappingsPass : analysis.Pass :=
  ⟨[.mk (.Other "File")
      [ structDecl 17 "S" [],
        method "s" 37 "S" "Validate" [] (some [.mk [] (.Ident 51 "error")])
          [.mk (.Other "ReturnStmt") []],
        structDecl 78 "T" [],
        method "t" 98 "T" "GetResourceMappings" [] none [] ]],
    packageTypes ["S", "T", "error"]⟩


/-- The input
`package p; type S struct{}; func (s S) Validate() bool { return true }`:
the only method of `S` is a `Validate` that returns `bool`. -/
def boolValidatePass : analysis.Pass :=
  ⟨[.mk (.Other "File")
      [ structDecl 17 "S" [],
        method "s" 37 "S" "Validate" [] (some [.mk [] (.Ident 51 "bool")])
          [.mk (.Other "ReturnStmt") []] ]],
    packageTypes ["S", "error"]⟩


/-- The input
`package p; type S struct{}; func (s S) Validate(x int) error { return nil }`. -/
def paramValidatePass : analysis.Pass :=
  ⟨[.mk (.Other "File")
      [ structDecl 17 "S" [],
        method "s" 37 "S" "Validate" [.mk ["x"] (.Ident 51 "int")]
          (some [.mk [] (.Ident 56 "error")]) [.mk (.Other "ReturnStmt") []] ]],
    packageTypes ["S", "error"]⟩

/-- The input
`package p; type S struct{}; func (s S) Validate(     ) error { return nil }`, the input
`paramValidatePass` with the parameter blanked out. -/
def noParamValidatePass : analysis.Pass :=
  ⟨[.mk (.Other "File")
      [ structDecl 17 "S" [],
        method "s" 37 "S" "Validate" []
          (some [.mk [] (.Ident 56 "error")]) [.mk (.Other "ReturnStmt") []] ]],
    packageTypes ["S", "error"]⟩


/-- The node `n` occurs in the tree `t`: it is `t` itself or occurs in one of its children,
at any depth. -/
inductive Within : Node → Node → Prop where
  | self (n : Node) : Within n n
  | child (n c : Node) (k : NodeKind) (cs : List Node) : c ∈ cs → Within n c → Within n (.mk k cs)

/-- Some type declaration of the files, at any depth, declares the name `N` at position `p`
with a struct type as its declared type: a `GenDecl` node with a spec
`TypeSpec{Name: N, Type: *ast.StructType}`. -/
def DeclaresStruct (files : List Node) (N : String) (p : token.Pos) : Prop :=
  ∃ f ∈ files, ∃ n, Within n f ∧ ∃ Specs, n.kind = .GenDecl Specs ∧
    ∃ a fs, Spec.TypeSpec p N a (.StructType fs) ∈ Specs

/-- The input `package p; type A struct{}; type B struct{}`: two structs without methods. -/
def twoStructsPass : analysis.Pass :=
  ⟨[.mk (.Other "File") [structDecl 17 "A" [], structDecl 34 "B" []]], packageTypes ["A", "B"]⟩

/-- The input
`package p; type T struct { In struct{ A int } }; var v struct{ B int }; type A = T;
type I interface{}; type Id int64`; the type of the alias `A` is an alias type, not a named
type. -/
def shapesPass : analysis.Pass :=
  ⟨[.mk (.Other "File")
      [ structDecl 17 "T" [.mk ["In"] (.StructType [.mk ["A"] (.Ident 41 "int")])],
        .mk (.GenDecl [.ValueSpec ["v"] (some (.StructType [.mk ["B"] (.Ident 66 "int")]))]) [],
        .mk (.GenDecl [.TypeSpec 78 "A" true (.Ident 82 "T")]) [],
        .mk (.GenDecl [.TypeSpec 90 "I" false (.InterfaceType [])]) [],
        .mk (.GenDecl [.TypeSpec 110 "Id" false (.Ident 113 "int64")]) [] ]],
    ⟨fun e => match e with
      | .Ident _ "A" => some (.Other "Alias")
      | e => (packageTypes ["T", "I", "Id"]).TypeOf e⟩⟩

/-- The file `testdata/src/testlintdata/todo/types/resource.go`. -/
def resourceFile : Node :=
  .mk (.Other "File")
    [ .mk (.GenDecl [.TypeSpec 21 "Id" false (.Ident 24 "int64")]) [],
      .mk (.GenDecl [.TypeSpec 36 "ResourceType" false (.Ident 49 "string")]) [],
      structDecl 62 "ResourceMapping"
        [.mk ["ResourceId"] (.Ident 101 "Id"), .mk ["ResourceType"] (.Ident 149 "ResourceType")] ]

/-- The input `package p; func f() { type Local struct{} }`: a struct type declared by a
type declaration statement inside a function body. -/
def localStructPass : analysis.Pass :=
  ⟨[.mk (.Other "File")
      [ .mk (.FuncDecl ⟨none, "f", ⟨[], none⟩⟩)
          [.mk (.Other "BlockStmt") [.mk (.Other "DeclStmt") [structDecl 28 "Local" []]]] ]],
    packageTypes []⟩

/-! ## Definitions for the scanner's frame, re-observation, removal and reordering of
declarations, and further concrete inputs. -/

/-- The method declarations among the nodes whose receiver name, as `getReceiverName` gives
it, is `S`, in order. -/
def methodsOf (typesInfo : types.Info) (S : String) (ns : List Node) : List FuncDecl :=
  ns.filterMap fun n =>
    match n.kind with
    | .FuncDecl d => if getReceiverName typesInfo d = S then some d else none
    | _ => none

/-- The two inputs hold the same nodes, each as many times, in any order: what the callbacks
read of the nodes of one is a permutation of what they read of the nodes of the other. -/
def SameDeclarations (files1 files2 : List Node) : Prop :=
  ((allNodes files1).map Node.kind).Perm ((allNodes files2).map Node.kind)

/-- The node and its sub-nodes declare no struct type and hold no function declaration
below the node itself. -/
def InertBody (body : List Node) : Prop :=
  ∀ x ∈ preorderList body, structDeclsOfNode x = [] ∧ ∀ d, x.kind ≠ .FuncDecl d


/-- The input
`package p; type S struct{}; type Id int64; func (i Id) Validate() error { return nil };
func helper() error { return nil }`:
a method on a named non-struct type, and a plain function. -/
def otherReceiverPass : analysis.Pass :=
  ⟨[.mk (.Other "File")
      [ structDecl 17 "S" [],
        .mk (.GenDecl [.TypeSpec 34 "Id" false (.Ident 37 "int64")]) [],
        method "i" 52 "Id" "Validate" [] (some [.mk [] (.Ident 67 "error")])
          [.mk (.Other "ReturnStmt") []],
        .mk (.FuncDecl ⟨none, "helper", ⟨[], some [.mk [] (.Ident 103 "error")]⟩⟩)
          [.mk (.Other "BlockStmt") [.mk (.Other "ReturnStmt") []]] ]],
    packageTypes ["S", "Id", "error"]⟩


/-- The scanner observes the same thing in two method declarations: the same receiver name,
the same method name, a result list in both or in neither, and the same answer of each
signature matcher. -/
def SameObservation (typesInfo : types.Info) (d1 d2 : FuncDecl) : Prop :=
  getReceiverName typesInfo d1 = getReceiverName typesInfo d2 ∧ d1.Name = d2.Name ∧
  d1.Type_.Results.map isValidValidateSignature =
    d2.Type_.Results.map isValidValidateSignature ∧
  d1.Type_.Results.map isValidResourceMappingsSignature =
    d2.Type_.Results.map isValidResourceMappingsSignature

/-- The input
`package p; type S struct{}; func (s S) Validate() error { return nil };
func (s S) Validate() error { return nil }`: the conforming method is written twice. -/
def twiceValidatePass : analysis.Pass :=
  ⟨[.mk (.Other "File")
      ([structDecl 17 "S" []] ++
        method "s" 37 "S" "Validate" [] (some [.mk [] (.Ident 51 "error")])
          [.mk (.Other "ReturnStmt") []] :: [] ++
        method "s" 81 "S" "Validate" [] (some [.mk [] (.Ident 95 "error")])
          [.mk (.Other "ReturnStmt") []] :: [])],
    packageTypes ["S", "error"]⟩

/-- The input `twiceValidatePass` without the second declaration of the method. -/
def onceValidatePass : analysis.Pass :=
  ⟨[.mk (.Other "File")
      ([structDecl 17 "S" []] ++
        method "s" 37 "S" "Validate" [] (some [.mk [] (.Ident 51 "error")])
          [.mk (.Other "ReturnStmt") []] :: [] ++ [])],
    packageTypes ["S", "error"]⟩


/-- The input
`package p; type S struct{}; type T struct{}; func (s S) AnotherFunc() int { return 3 };
func (t T) Validate() error { return nil }`. -/
def anotherFuncPass : analysis.Pass :=
  ⟨[.mk (.Other "File")
      [ structDecl 17 "S" [], structDecl 34 "T" [],
        method "s" 54 "S" "AnotherFunc" [] (some [.mk [] (.Ident 71 "int")])
          [.mk (.Other "ReturnStmt") []],
        method "t" 97 "T" "Validate" [] (some [.mk [] (.Ident 111 "error")])
          [.mk (.Other "ReturnStmt") []] ]],
    packageTypes ["S", "T", "error"]⟩

/-- The input `anotherFuncPass` without the method of `T`. -/
def anotherFuncOnlyPass : analysis.Pass :=
  ⟨[.mk (.Other "File")
      [ structDecl 17 "S" [], structDecl 34 "T" [],
        method "s" 54 "S" "AnotherFunc" [] (some [.mk [] (.Ident 71 "int")])
          [.mk (.Other "ReturnStmt") []] ]],
    packageTypes ["S", "T", "error"]⟩


/-- The input `package p; type S struct{}`. -/
def structOnlyPass : analysis.Pass :=
  ⟨[.mk (.Other "File") ([structDecl 17 "S" []] ++ [])], packageTypes ["S", "error"]⟩

/-- The input
`package p; type S struct{}; func (s S) Validate() bool { type tmp struct{}; return true }`:
a `Validate` with a rejected result list whose body declares a struct type. -/
def rejectedWithLocalPass : analysis.Pass :=
  ⟨[.mk (.Other "File")
      ([structDecl 17 "S" []] ++
        [method "s" 37 "S" "Validate" [] (some [.mk [] (.Ident 51 "bool")])
          [.mk (.Other "DeclStmt") [structDecl 63 "tmp" []], .mk (.Other "ReturnStmt") []]] ++
        [])],
    packageTypes ["S", "error"]⟩

/-- The input `package p; type S struct{}; func (s S) GetResourceMappings() {}`: the method
declares no result. -/
def resultlessOwnMappingsPass : analysis.Pass :=
  ⟨[.mk (.Other "File")
      ([structDecl 17 "S" []] ++ [method "s" 37 "S" "GetResourceMappings" [] none []] ++ [])],
    packageTypes ["S", "error"]⟩

/-- The input `package p; type S struct{}; func (s S) Validate() {}`: the method declares
no result. -/
def resultlessOwnValidatePass : analysis.Pass :=
  ⟨[.mk (.Other "File") [structDecl 17 "S" [], method "s" 37 "S" "Validate" [] none []]],
    packageTypes ["S", "error"]⟩

/-- The input
`package p; type S struct{}; func (s S) Validate() (a, b error) { return nil, nil }`: one
result field that declares two names. -/
def twoResultsPass : analysis.Pass :=
  ⟨[.mk (.Other "File")
      [ structDecl 17 "S" [],
        method "s" 37 "S" "Validate" [] (some [.mk ["a", "b"] (.Ident 57 "error")])
          [.mk (.Other "ReturnStmt") []] ]],
    packageTypes ["S", "error"]⟩

/-- The input
`package p; type S struct{}; func (s *S) Validate() error { return nil };
func (s *S) GetResourceMappings() []types.ResourceMapping { return nil }`: both methods are
declared on the pointer receiver `*S`. -/
def pointerReceiverPass : analysis.Pass :=
  ⟨[.mk (.Other "File")
      [ structDecl 17 "S" [],
        .mk (.FuncDecl ⟨some [.mk ["s"] (.StarExpr (.Ident 38 "S"))], "Validate",
            ⟨[], some [.mk [] (.Ident 52 "error")]⟩⟩)
          [.mk (.Other "BlockStmt") [.mk (.Other "ReturnStmt") []]],
        .mk (.FuncDecl ⟨some [.mk ["s"] (.StarExpr (.Ident 83 "S"))], "GetResourceMappings",
            ⟨[], some [.mk []
              (.ArrayType none (.SelectorExpr (.Ident 110 "types") "ResourceMapping"))]⟩⟩)
          [.mk (.Other "BlockStmt") [.mk (.Other "ReturnStmt") []]] ]],
    packageTypes ["S", "error"]⟩


/-- The input `package p; func (s S) Validate() error { return nil }; type S struct{}`: the
method is written before the type declaration of its receiver. -/
def methodFirstPass : analysis.Pass :=
  ⟨[.mk (.Other "File")
      [ method "s" 20 "S" "Validate" [] (some [.mk [] (.Ident 34 "error")])
          [.mk (.Other "ReturnStmt") []],
        structDecl 61 "S" [] ]],
    packageTypes ["S", "error"]⟩

/-- The declarations of `methodFirstPass` in the other order (positions kept). -/
def structFirstPass : analysis.Pass :=
  ⟨[.mk (.Other "File")
      [ structDecl 61 "S" [],
        method "s" 20 "S" "Validate" [] (some [.mk [] (.Ident 34 "error")])
          [.mk (.Other "ReturnStmt") []] ]],
    packageTypes ["S", "error"]⟩

/-! ## Definitions for inputs that differ in parameter lists. -/

/-- Two declarations are the same but for a parameter list: they are the same node, or they
are two function declarations with the same receiver, the same name and the same result list
whose children differ only in the expression nodes of the parameter lists (`pn1` and `pn2`),
and these declare nothing (`InertBody`). -/
def SameButParams (n1 n2 : Node) : Prop :=
  n1 = n2 ∨
  ∃ (Recv : Option FieldList) (Name : String) (Params1 Params2 : FieldList)
    (Results : Option FieldList) (pre pn1 pn2 post : List Node),
    InertBody pn1 ∧ InertBody pn2 ∧
    n1 = .mk (.FuncDecl ⟨Recv, Name, ⟨Params1, Results⟩⟩) (pre ++ pn1 ++ post) ∧
    n2 = .mk (.FuncDecl ⟨Recv, Name, ⟨Params2, Results⟩⟩) (pre ++ pn2 ++ post)

/-- The same file but for parameter lists: the same file node, with as many declarations,
pairwise the same but for a parameter list. -/
def SameFileButParams (f1 f2 : Node) : Prop :=
  ∃ (k : NodeKind) (ds1 ds2 : List Node), f1 = .mk k ds1 ∧ f2 = .mk k ds2 ∧
    List.Forall₂ SameButParams ds1 ds2

/-- Two inputs differ only in the parameter lists of function declarations, and no parameter
list holds a declaration: as many files, pairwise the same but for parameter lists. -/
def DifferOnlyInParams (files1 files2 : List Node) : Prop :=
  List.Forall₂ SameFileButParams files1 files2

/-- The input
`package p; import "unsafe"; type S struct{};
func (s S) Validate(x [unsafe.Sizeof(func() { ... })]int) error { return nil }`, written on
one line, where `literalBody` are the statements of the function literal in the length of the
array type of the parameter, written on 15 bytes.  The call `unsafe.Sizeof(...)` is the
expression node that the parameter list holds. -/
def literalParamPass (literalBody : List Node) : analysis.Pass :=
  ⟨[.mk (.Other "File")
      [ .mk (.GenDecl [.ImportSpec "unsafe"]) [],
        structDecl 34 "S" [],
        .mk (.FuncDecl ⟨some [.mk ["s"] (.Ident 54 "S")], "Validate",
            ⟨[.mk ["x"] (.ArrayType (some (.Other "CallExpr")) (.Ident 111 "int"))],
              some [.mk [] (.Ident 116 "error")]⟩⟩)
          ([] ++
            [.mk (.Other "CallExpr") [.mk (.Other "FuncLit") [.mk (.Other "BlockStmt")
              literalBody]]] ++
            [.mk (.Other "BlockStmt") [.mk (.Other "ReturnStmt") []]]) ]],
    packageTypes ["S", "error"]⟩

/-- The input
`package p; import "unsafe"; type S struct{};
func (s S) Validate(x [unsafe.Sizeof(func() { type L struct{} })]int) error { return nil }`:
the parameter list holds a function literal whose body declares the struct type `L`. -/
def paramDeclaresPass : analysis.Pass :=
  literalParamPass [.mk (.Other "DeclStmt") [structDecl 97 "L" []]]

/-- The input `paramDeclaresPass` with the body of the function literal blanked out:
`func (s S) Validate(x [unsafe.Sizeof(func() {                 })]int) error { return nil }`. -/
def paramEmptyLiteralPass : analysis.Pass := literalParamPass []

/-- The input `paramDeclaresPass` with the function literal replaced by `0` and blanks:
`func (s S) Validate(x [unsafe.Sizeof(0                         )]int) error { return nil }`;
the parameter list holds no expression node below which a declaration could occur. -/
def paramNoLiteralPass : analysis.Pass :=
  ⟨[.mk (.Other "File")
      [ .mk (.GenDecl [.ImportSpec "unsafe"]) [],
        structDecl 34 "S" [],
        .mk (.FuncDecl ⟨some [.mk ["s"] (.Ident 54 "S")], "Validate",
            ⟨[.mk ["x"] (.ArrayType (some (.Other "CallExpr")) (.Ident 111 "int"))],
              some [.mk [] (.Ident 116 "error")]⟩⟩)
          ([] ++ [] ++ [.mk (.Other "BlockStmt") [.mk (.Other "ReturnStmt") []]]) ]],
    packageTypes ["S", "error"]⟩

/-! ## The two message templates are injective in the key and never coincide. -/

theorem validateMessage_inj {a b : String} (h : validateMessage a = validateMessage b) : a = b := by
  unfold validateMessage at h
  have h1 := congrArg String.data h
  simp only [String.data_append] at h1
  have h2 := List.append_cancel_right h1
  have h3 := List.append_cancel_left h2
  exact String.ext h3

theorem resourceMappingsMessage_inj {a b : String}
    (h : resourceMappingsMessage a = resourceMappingsMessage b) : a = b := by
  unfold resourceMappingsMessage at h
  have h1 := congrArg String.data h
  simp only [String.data_append] at h1
  have h2 := List.append_cancel_right h1
  have h3 := List.append_cancel_left h2
  exact String.ext h3

theorem validateMessage_ne_resourceMappingsMessage (a b : String) :
    validateMessage a ≠ resourceMappingsMessage b := by
  intro h
  unfold validateMessage resourceMappingsMessage at h
  have h1 := congrArg (fun s => s.data.reverse) h
  simp only [String.data_append, List.reverse_append] at h1
  obtain ⟨c, t, hA⟩ : ∃ c t, (" does not implement method 'Validate() error'").data.reverse
      = c :: 'r' :: t := ⟨_, _, rfl⟩
  obtain ⟨c2, t2, hB⟩ : ∃ c t, (" does not implement method 'GetResourceMappings() []types.ResourceMapping'").data.reverse
      = c :: 'g' :: t := ⟨_, _, rfl⟩
  rw [hA, hB] at h1
  simp only [List.cons_append, List.cons.injEq] at h1
  exact absurd h1.2.1 (by decide)

/-! ## `ast.Inspect` with a callback that always returns true visits the nodes in preorder. -/

theorem visitAll_append {σ : Type} (f : Option Node → σ → Except Fault (σ × Bool))
    (xs ys : List Node) (s : σ) :
    visitAll f (xs ++ ys) s =
      match visitAll f xs s with
      | .error e => .error e
      | .ok s1 => visitAll f ys s1 := by
  induction xs generalizing s with
  | nil => rfl
  | cons x xs ih =>
    simp only [List.cons_append, visitAll]
    cases hx : f (some x) s with
    | error e => rfl
    | ok p => obtain ⟨s1, b⟩ := p; exact ih s1

mutual
theorem Inspect_eq_visitAll {σ : Type} (f : Option Node → σ → Except Fault (σ × Bool))
    (hnil : ∀ s, f none s = .ok (s, true))
    (htrue : ∀ n s s1 b, f (some n) s = .ok (s1, b) → b = true) :
    ∀ (n : Node) (s : σ), Inspect f n s = visitAll f n.preorder s
  | .mk k cs, s => by
    rw [Inspect, Node.preorder, visitAll]
    cases hx : f (some (.mk k cs)) s with
    | error e => rfl
    | ok p =>
      obtain ⟨s1, b⟩ := p
      have hb := htrue _ _ _ _ hx
      subst hb
      simp only []
      rw [InspectList_eq_visitAll f hnil htrue cs s1]
      cases hy : visitAll f (preorderList cs) s1 with
      | error e => rfl
      | ok s2 => simp only [hnil]
theorem InspectList_eq_visitAll {σ : Type} (f : Option Node → σ → Except Fault (σ × Bool))
    (hnil : ∀ s, f none s = .ok (s, true))
    (htrue : ∀ n s s1 b, f (some n) s = .ok (s1, b) → b = true) :
    ∀ (ns : List Node) (s : σ), InspectList f ns s = visitAll f (preorderList ns) s
  | [], s => by rw [InspectList, preorderList, visitAll]
  | c :: cs, s => by
    rw [InspectList, preorderList, visitAll_append, Inspect_eq_visitAll f hnil htrue c s]
    cases hy : visitAll f c.preorder s with
    | error e => rfl
    | ok s1 => exact InspectList_eq_visitAll f hnil htrue cs s1
end

theorem inspectStruct_nil (m : StructMap) : inspectStruct none m = .ok (m, true) := rfl

theorem inspectStruct_true (n : Node) (m m1 : StructMap) (b : Bool)
    (h : inspectStruct (some n) m = .ok (m1, b)) : b = true := by
  obtain ⟨k, cs⟩ := n
  cases k <;> simp [inspectStruct] at h <;> exact h.2

theorem inspectFunc_nil (ti : types.Info) (m : StructMap) :
    inspectFunc ti none m = .ok (m, true) := rfl

theorem collectPass_eq_visitAll (files : List Node) (m : StructMap) :
    collectPass files m = visitAll inspectStruct (allNodes files) m := by
  unfold allNodes
  induction files generalizing m with
  | nil => rfl
  | cons f fs ih =>
    rw [collectPass, preorderList, visitAll_append,
      Inspect_eq_visitAll inspectStruct inspectStruct_nil inspectStruct_true]
    cases visitAll inspectStruct f.preorder m with
    | error e => rfl
    | ok s1 => exact ih s1

/-! ## Reads and writes of the map. -/

theorem StructMap.get_set_self (m : StructMap) (k : String) (v : TokenInfo) :
    (m.set k v).get k = some v := by
  induction m with
  | nil => simp [StructMap.set, StructMap.get]
  | cons e rest ih =>
    obtain ⟨k1, v1⟩ := e
    by_cases h : k1 = k
    · simp [StructMap.set, StructMap.get, h]
    · simp [StructMap.set, StructMap.get, h, ih]

theorem StructMap.get_set_ne (m : StructMap) (k k2 : String) (v : TokenInfo) (hne : k2 ≠ k) :
    (m.set k v).get k2 = m.get k2 := by
  induction m with
  | nil => simp [StructMap.set, StructMap.get, Ne.symm hne]
  | cons e rest ih =>
    obtain ⟨k1, v1⟩ := e
    by_cases h : k1 = k
    · subst h
      simp [StructMap.set, StructMap.get, Ne.symm hne]
    · simp [StructMap.set, StructMap.get, h, ih]

theorem StructMap.get_eq_none_iff (m : StructMap) (k : String) :
    m.get k = none ↔ k ∉ m.keys := by
  induction m with
  | nil => simp [StructMap.get, StructMap.keys]
  | cons e rest ih =>
    obtain ⟨k1, v1⟩ := e
    by_cases h : k1 = k
    · simp [StructMap.get, StructMap.keys, h]
    · simp only [StructMap.get, h, if_false, ih]
      simp [StructMap.keys, Ne.symm h]

theorem StructMap.get_isSome_iff (m : StructMap) (k : String) :
    (∃ v, m.get k = some v) ↔ k ∈ m.keys := by
  have h := StructMap.get_eq_none_iff m k
  cases hg : m.get k with
  | none => simp [hg] at h; simp [h]
  | some v => simp [hg] at h; simp [h]

theorem StructMap.keys_set_of_mem (m : StructMap) (k : String) (v : TokenInfo)
    (hk : k ∈ m.keys) : (m.set k v).keys = m.keys := by
  induction m with
  | nil => simp [StructMap.keys] at hk
  | cons e rest ih =>
    obtain ⟨k1, v1⟩ := e
    by_cases h : k1 = k
    · simp [StructMap.set, StructMap.keys, h]
    · have hk2 : k ∈ StructMap.keys rest := by
        simp [StructMap.keys] at hk
        rcases hk with hk | hk
        · exact absurd hk.symm h
        · simpa [StructMap.keys] using hk
      have := ih hk2
      simp only [StructMap.keys] at this
      simp [StructMap.set, StructMap.keys, h, this]

theorem StructMap.keys_set_of_not_mem (m : StructMap) (k : String) (v : TokenInfo)
    (hk : k ∉ m.keys) : (m.set k v).keys = m.keys ++ [k] := by
  induction m with
  | nil => simp [StructMap.keys, StructMap.set]
  | cons e rest ih =>
    obtain ⟨k1, v1⟩ := e
    have h : k1 ≠ k := by
      intro h; apply hk; simp [StructMap.keys, h]
    have hk2 : k ∉ StructMap.keys rest := by
      intro h2; apply hk; simp only [StructMap.keys] at h2; simp [StructMap.keys, h2]
    have := ih hk2
    simp only [StructMap.keys] at this
    simp [StructMap.set, StructMap.keys, h, this]

theorem StructMap.mem_keys_set (m : StructMap) (k k2 : String) (v : TokenInfo) :
    k2 ∈ (m.set k v).keys ↔ k2 = k ∨ k2 ∈ m.keys := by
  by_cases hk : k ∈ m.keys
  · rw [StructMap.keys_set_of_mem m k v hk]
    constructor
    · exact Or.inr
    · rintro (h | h)
      · exact h ▸ hk
      · exact h
  · rw [StructMap.keys_set_of_not_mem m k v hk]
    simp [or_comm]

theorem StructMap.nodup_keys_set (m : StructMap) (k : String) (v : TokenInfo)
    (hm : m.keys.Nodup) : (m.set k v).keys.Nodup := by
  by_cases hk : k ∈ m.keys
  · rw [StructMap.keys_set_of_mem m k v hk]; exact hm
  · rw [StructMap.keys_set_of_not_mem m k v hk]
    rw [List.nodup_append]
    refine ⟨hm, List.nodup_singleton k, ?_⟩
    intro a ha hb
    simp at hb
    exact hk (hb ▸ ha)

theorem StructMap.get_eq_some_iff_mem (m : StructMap) (hm : m.keys.Nodup) (k : String)
    (v : TokenInfo) : m.get k = some v ↔ (k, v) ∈ m := by
  induction m with
  | nil => simp [StructMap.get]
  | cons e rest ih =>
    obtain ⟨k1, v1⟩ := e
    simp only [StructMap.keys, List.map_cons, List.nodup_cons] at hm
    have ih2 := ih hm.2
    by_cases h : k1 = k
    · subst h
      simp only [StructMap.get, if_true, Option.some.injEq, List.mem_cons, Prod.mk.injEq, true_and]
      constructor
      · intro h; exact Or.inl h.symm
      · rintro (h | h)
        · exact h.symm
        · exact absurd (List.mem_map_of_mem Prod.fst h) hm.1
    · simp only [StructMap.get, h, if_false, ih2, List.mem_cons, Prod.mk.injEq]
      constructor
      · exact Or.inr
      · rintro (h2 | h2)
        · exact absurd h2.1.symm h
        · exact h2

theorem StructMap.get_perm (l m : StructMap) (hp : l.Perm m) (hm : m.keys.Nodup) (k : String) :
    StructMap.get l k = m.get k := by
  have hl : StructMap.keys l |>.Nodup := (hp.map Prod.fst).nodup_iff.mpr hm
  cases hg : m.get k with
  | none =>
    rw [StructMap.get_eq_none_iff] at hg ⊢
    intro h; exact hg ((hp.map Prod.fst).mem_iff.mp h)
  | some v =>
    rw [StructMap.get_eq_some_iff_mem m hm] at hg
    rw [StructMap.get_eq_some_iff_mem l hl]
    exact hp.mem_iff.mpr hg

/-! ## The collection pass. -/

theorem inspectSpec_eq (m : StructMap) (spec : Spec) :
    inspectSpec m spec = (structDeclOfSpec spec).foldl declare m := by
  cases spec with
  | ImportSpec p => rfl
  | ValueSpec ns t => rfl
  | TypeSpec p n a t => cases t <;> rfl

theorem foldl_inspectSpec_eq (Specs : List Spec) (m : StructMap) :
    Specs.foldl inspectSpec m = (Specs.flatMap structDeclOfSpec).foldl declare m := by
  induction Specs generalizing m with
  | nil => rfl
  | cons s ss ih =>
    simp only [List.foldl_cons, List.flatMap_cons, List.foldl_append, inspectSpec_eq, ih]

theorem inspectStruct_eq (n : Node) (m : StructMap) :
    inspectStruct (some n) m = .ok ((structDeclsOfNode n).foldl declare m, true) := by
  obtain ⟨k, cs⟩ := n
  cases k with
  | GenDecl Specs => simp [inspectStruct, structDeclsOfNode, Node.kind, foldl_inspectSpec_eq]
  | FuncDecl d => rfl
  | Other s => rfl

theorem visitAll_inspectStruct (ns : List Node) (m : StructMap) :
    visitAll inspectStruct ns m = .ok ((structDecls ns).foldl declare m) := by
  induction ns generalizing m with
  | nil => rfl
  | cons n ns ih =>
    simp only [visitAll, inspectStruct_eq, structDecls, List.flatMap_cons, List.foldl_append]
    exact ih _

theorem collectPass_eq (files : List Node) :
    collectPass files [] = .ok ((structDecls (allNodes files)).foldl declare []) := by
  rw [collectPass_eq_visitAll, visitAll_inspectStruct]

theorem mem_keys_foldl_declare (ds : List (String × token.Pos)) (m : StructMap) (k : String) :
    k ∈ (ds.foldl declare m).keys ↔ k ∈ m.keys ∨ k ∈ ds.map Prod.fst := by
  induction ds generalizing m with
  | nil => simp
  | cons d ds ih =>
    simp only [List.foldl_cons, ih, declare, StructMap.mem_keys_set, List.map_cons, List.mem_cons]
    tauto

theorem nodup_keys_foldl_declare (ds : List (String × token.Pos)) (m : StructMap)
    (hm : m.keys.Nodup) : (ds.foldl declare m).keys.Nodup := by
  induction ds generalizing m with
  | nil => exact hm
  | cons d ds ih => exact ih _ (StructMap.nodup_keys_set m _ _ hm)

theorem get_foldl_declare_of_not_mem (ds : List (String × token.Pos)) (m : StructMap)
    (k : String) (hk : k ∉ ds.map Prod.fst) : (ds.foldl declare m).get k = m.get k := by
  induction ds generalizing m with
  | nil => rfl
  | cons d ds ih =>
    simp only [List.map_cons, List.mem_cons, not_or] at hk
    rw [List.foldl_cons, ih _ hk.2, declare, StructMap.get_set_ne _ _ _ _ hk.1]

theorem get_foldl_declare_last (pre post : List (String × token.Pos)) (m : StructMap)
    (k : String) (p : token.Pos) (hk : k ∉ post.map Prod.fst) :
    ((pre ++ (k, p) :: post).foldl declare m).get k = some ⟨p, false, false⟩ := by
  rw [List.foldl_append, List.foldl_cons, get_foldl_declare_of_not_mem _ _ _ hk, declare,
    StructMap.get_set_self]

theorem exists_last_of_mem (ds : List (String × token.Pos)) (k : String)
    (hk : k ∈ ds.map Prod.fst) :
    ∃ pre p post, ds = pre ++ (k, p) :: post ∧ k ∉ post.map Prod.fst := by
  induction ds with
  | nil => simp at hk
  | cons d ds ih =>
    by_cases h : k ∈ ds.map Prod.fst
    · obtain ⟨pre, p, post, he, hn⟩ := ih h
      exact ⟨d :: pre, p, post, by rw [he]; rfl, hn⟩
    · simp only [List.map_cons, List.mem_cons] at hk
      rcases hk with hk | hk
      · refine ⟨[], d.2, ds, ?_, h⟩
        obtain ⟨d1, d2⟩ := d
        simp at hk
        simp [hk]
      · exact absurd hk h

theorem flags_foldl_declare (ds : List (String × token.Pos)) (m : StructMap)
    (hm : ∀ k v, m.get k = some v → v.hasValidate = false ∧ v.hasResourceMappings = false)
    (k : String) (v : TokenInfo) (h : (ds.foldl declare m).get k = some v) :
    v.hasValidate = false ∧ v.hasResourceMappings = false := by
  induction ds generalizing m with
  | nil => exact hm k v h
  | cons d ds ih =>
    refine ih (declare m d) ?_ h
    intro k2 v2 h2
    by_cases hk : k2 = d.1
    · subst hk
      rw [declare, StructMap.get_set_self] at h2
      cases h2
      exact ⟨rfl, rfl⟩
    · rw [declare, StructMap.get_set_ne _ _ _ _ hk] at h2
      exact hm k2 v2 h2

/-! ## One step of the scanning pass. -/

theorem mark_nil (ti : types.Info) (S : String) (v : TokenInfo) : mark ti [] S v = v := by
  cases v; simp [mark]

theorem mark_cons (ti : types.Info) (n : Node) (ns : List Node) (S : String) (v : TokenInfo) :
    mark ti (n :: ns) S v = mark ti ns S (mark ti [n] S v) := by
  simp [mark, Bool.or_assoc]

theorem map_mark_of_not_provides (ti : types.Info) (n : Node) (S : String) (o : Option TokenInfo)
    (h1 : providesValidate ti S n = false) (h2 : providesResourceMappings ti S n = false) :
    o.map (mark ti [n] S) = o := by
  cases o with
  | none => rfl
  | some v => cases v; simp [mark, h1, h2]

/-- What one call of `inspectFunc` does to the map, when it does not panic. -/
theorem inspectFunc_ok (ti : types.Info) (n : Node) (m m1 : StructMap) (b : Bool)
    (h : inspectFunc ti (some n) m = .ok (m1, b)) :
    b = true ∧ m1.keys = m.keys ∧ ∀ S, m1.get S = (m.get S).map (mark ti [n] S) := by
  obtain ⟨k, cs⟩ := n
  cases k with
  | GenDecl Specs =>
    simp only [inspectFunc, Except.ok.injEq, Prod.mk.injEq] at h
    obtain ⟨rfl, rfl⟩ := h
    exact ⟨rfl, rfl, fun S => (map_mark_of_not_provides ti (.mk (.GenDecl Specs) cs) S _ rfl rfl).symm⟩
  | Other s =>
    simp only [inspectFunc, Except.ok.injEq, Prod.mk.injEq] at h
    obtain ⟨rfl, rfl⟩ := h
    exact ⟨rfl, rfl, fun S => (map_mark_of_not_provides ti (.mk (.Other s) cs) S _ rfl rfl).symm⟩
  | FuncDecl d =>
    simp only [inspectFunc] at h
    by_cases hR : getReceiverName ti d = ""
    · simp only [hR, if_true, Except.ok.injEq, Prod.mk.injEq] at h
      obtain ⟨rfl, rfl⟩ := h
      refine ⟨rfl, rfl, fun S => (map_mark_of_not_provides ti _ S _ ?_ ?_).symm⟩
      · by_cases hS : S = ""
        · simp [providesValidate, Node.kind, hS]
        · have hS2 : ¬ ("" = S) := fun h => hS h.symm
          simp [providesValidate, Node.kind, hR, hS2]
      · by_cases hS : S = ""
        · simp [providesResourceMappings, Node.kind, hS]
        · have hS2 : ¬ ("" = S) := fun h => hS h.symm
          simp [providesResourceMappings, Node.kind, hR, hS2]
    · simp only [hR, if_false] at h
      cases hg : m.get (getReceiverName ti d) with
      | none =>
        simp only [hg, Except.ok.injEq, Prod.mk.injEq] at h
        obtain ⟨rfl, rfl⟩ := h
        refine ⟨rfl, rfl, fun S => ?_⟩
        by_cases hS : getReceiverName ti d = S
        · subst hS; rw [hg]; rfl
        · refine (map_mark_of_not_provides ti _ S _ ?_ ?_).symm
          · simp [providesValidate, Node.kind, hS]
          · simp [providesResourceMappings, Node.kind, hS]
      | some t =>
        have hmem : getReceiverName ti d ∈ m.keys :=
          (StructMap.get_isSome_iff m _).mp ⟨t, hg⟩
        simp only [hg] at h
        by_cases hV : d.Name = "Validate"
        · have hnG : d.Name ≠ "GetResourceMappings" := by rw [hV]; decide
          cases hres : d.Type_.Results with
          | none => simp [nameAndSignature, hV, hres, FieldList_List] at h
          | some rs =>
            cases hval : isValidValidateSignature rs with
            | true =>
              simp only [nameAndSignature, hV, if_true, hres, FieldList_List, hval,
                Except.ok.injEq, Prod.mk.injEq] at h
              obtain ⟨rfl, rfl⟩ := h
              refine ⟨rfl, StructMap.keys_set_of_mem _ _ _ hmem, fun S => ?_⟩
              by_cases hS : S = getReceiverName ti d
              · subst hS
                rw [StructMap.get_set_self, hg]
                simp [mark, providesValidate, providesResourceMappings, Node.kind, hR, hV, hres,
                  hval]
              · rw [StructMap.get_set_ne _ _ _ _ hS]
                refine (map_mark_of_not_provides ti _ S _ ?_ ?_).symm
                · simp [providesValidate, Node.kind, Ne.symm hS]
                · simp [providesResourceMappings, Node.kind, Ne.symm hS]
            | false =>
              simp only [nameAndSignature, hV, if_true, hres, FieldList_List, hval] at h
              simp only [show ¬ ("Validate" = "GetResourceMappings") by decide, if_false,
                Except.ok.injEq, Prod.mk.injEq] at h
              obtain ⟨rfl, rfl⟩ := h
              refine ⟨rfl, rfl, fun S => (map_mark_of_not_provides ti _ S _ ?_ ?_).symm⟩
              · simp [providesValidate, Node.kind, hres, hval]
              · simp [providesResourceMappings, Node.kind, hV]
        · simp only [nameAndSignature, hV, if_false] at h
          by_cases hG : d.Name = "GetResourceMappings"
          · cases hres : d.Type_.Results with
            | none => simp [hG, hres, FieldList_List] at h
            | some rs =>
              cases hval : isValidResourceMappingsSignature rs with
              | true =>
                simp only [hG, if_true, hres, FieldList_List, hval,
                  Except.ok.injEq, Prod.mk.injEq] at h
                obtain ⟨rfl, rfl⟩ := h
                refine ⟨rfl, StructMap.keys_set_of_mem _ _ _ hmem, fun S => ?_⟩
                by_cases hS : S = getReceiverName ti d
                · subst hS
                  rw [StructMap.get_set_self, hg]
                  simp [mark, providesValidate, providesResourceMappings, Node.kind, hR, hV, hG,
                    hres, hval]
                · rw [StructMap.get_set_ne _ _ _ _ hS]
                  refine (map_mark_of_not_provides ti _ S _ ?_ ?_).symm
                  · simp [providesValidate, Node.kind, Ne.symm hS]
                  · simp [providesResourceMappings, Node.kind, Ne.symm hS]
              | false =>
                simp only [hG, if_true, hres, FieldList_List, hval,
                  Except.ok.injEq, Prod.mk.injEq] at h
                obtain ⟨rfl, rfl⟩ := h
                refine ⟨rfl, rfl, fun S => (map_mark_of_not_provides ti _ S _ ?_ ?_).symm⟩
                · simp [providesValidate, Node.kind, hV]
                · simp [providesResourceMappings, Node.kind, hres, hval]
          · simp only [hG, if_false, Except.ok.injEq, Prod.mk.injEq] at h
            obtain ⟨rfl, rfl⟩ := h
            refine ⟨rfl, rfl, fun S => (map_mark_of_not_provides ti _ S _ ?_ ?_).symm⟩
            · simp [providesValidate, Node.kind, hV]
            · simp [providesResourceMappings, Node.kind, hG]

/-! ## The scanning pass and the reporting loop. -/

theorem inspectFunc_true (ti : types.Info) (n : Node) (m m1 : StructMap) (b : Bool)
    (h : inspectFunc ti (some n) m = .ok (m1, b)) : b = true :=
  (inspectFunc_ok ti n m m1 b h).1

theorem scanPass_eq_visitAll (ti : types.Info) (files : List Node) (m : StructMap) :
    scanPass ti files m = visitAll (inspectFunc ti) (allNodes files) m := by
  unfold allNodes
  induction files generalizing m with
  | nil => rfl
  | cons f fs ih =>
    rw [scanPass, preorderList, visitAll_append,
      Inspect_eq_visitAll (inspectFunc ti) (inspectFunc_nil ti) (inspectFunc_true ti)]
    cases visitAll (inspectFunc ti) f.preorder m with
    | error e => rfl
    | ok s1 => exact ih s1

/-- What the scanning pass does to the map, when it does not panic. -/
theorem visitAll_inspectFunc_ok (ti : types.Info) (ns : List Node) (m m1 : StructMap)
    (h : visitAll (inspectFunc ti) ns m = .ok m1) :
    m1.keys = m.keys ∧ ∀ S, m1.get S = (m.get S).map (mark ti ns S) := by
  induction ns generalizing m with
  | nil =>
    simp only [visitAll, Except.ok.injEq] at h
    subst h
    refine ⟨rfl, fun S => ?_⟩
    cases m.get S with
    | none => rfl
    | some v => simp [mark_nil]
  | cons n ns ih =>
    rw [visitAll] at h
    cases hx : inspectFunc ti (some n) m with
    | error e => rw [hx] at h; cases h
    | ok p =>
      obtain ⟨m2, b⟩ := p
      rw [hx] at h
      obtain ⟨_, hk, hg⟩ := inspectFunc_ok ti n m m2 b hx
      obtain ⟨hk2, hg2⟩ := ih m2 h
      refine ⟨hk2.trans hk, fun S => ?_⟩
      rw [hg2 S, hg S]
      cases m.get S with
      | none => rfl
      | some v =>
        simp only [Option.map_some']
        rw [mark_cons ti n ns S v]

/-- One call of `inspectFunc` panics exactly on the nodes described by `faultsAt`. -/
theorem inspectFunc_error_iff (ti : types.Info) (n : Node) (m : StructMap) :
    inspectFunc ti (some n) m = .error .nilPointerDereference ↔ faultsAt ti m.keys n = true := by
  obtain ⟨k, cs⟩ := n
  cases k with
  | GenDecl Specs => simp [inspectFunc, faultsAt, Node.kind]
  | Other s => simp [inspectFunc, faultsAt, Node.kind]
  | FuncDecl d =>
    simp only [inspectFunc, faultsAt, Node.kind]
    by_cases hR : getReceiverName ti d = ""
    · simp [hR]
    · simp only [hR, if_false]
      cases hg : m.get (getReceiverName ti d) with
      | none =>
        have : getReceiverName ti d ∉ m.keys := (StructMap.get_eq_none_iff m _).mp hg
        simp [this]
      | some t =>
        have hmem : getReceiverName ti d ∈ m.keys :=
          (StructMap.get_isSome_iff m _).mp ⟨t, hg⟩
        by_cases hV : d.Name = "Validate"
        · cases hres : d.Type_.Results with
          | none => simp [nameAndSignature, hV, hres, FieldList_List, hmem, hR]
          | some rs =>
            cases hval : isValidValidateSignature rs <;>
              simp [nameAndSignature, hV, hres, FieldList_List, hval]
        · by_cases hG : d.Name = "GetResourceMappings"
          · cases hres : d.Type_.Results with
            | none => simp [nameAndSignature, hV, hG, hres, FieldList_List, hmem, hR]
            | some rs =>
              cases hval : isValidResourceMappingsSignature rs <;>
                simp [nameAndSignature, hV, hG, hres, FieldList_List, hval]
          · simp [nameAndSignature, hV, hG]

theorem fault_eq (e : Fault) : e = .nilPointerDereference := by cases e; rfl

/-- The scanning pass panics exactly when it meets a node described by `faultsAt`. -/
theorem visitAll_inspectFunc_error_iff (ti : types.Info) (ns : List Node) (m : StructMap) :
    visitAll (inspectFunc ti) ns m = .error .nilPointerDereference ↔
      ns.any (faultsAt ti m.keys) = true := by
  induction ns generalizing m with
  | nil => simp [visitAll]
  | cons n ns ih =>
    rw [visitAll, List.any_cons, Bool.or_eq_true, ← inspectFunc_error_iff]
    cases hx : inspectFunc ti (some n) m with
    | error e => simp [fault_eq e]
    | ok p =>
      obtain ⟨m2, b⟩ := p
      obtain ⟨_, hk, _⟩ := inspectFunc_ok ti n m m2 b hx
      simp only [false_or, reduceCtorEq]
      rw [ih m2, hk]

theorem visitAll_inspectFunc_total (ti : types.Info) (ns : List Node) (m : StructMap)
    (h : ns.any (faultsAt ti m.keys) = false) :
    ∃ m1, visitAll (inspectFunc ti) ns m = .ok m1 := by
  cases hx : visitAll (inspectFunc ti) ns m with
  | ok m1 => exact ⟨m1, rfl⟩
  | error e =>
    rw [fault_eq e, visitAll_inspectFunc_error_iff] at hx
    rw [hx] at h; cases h

theorem foldl_reportEntry (l : List (String × TokenInfo)) (s : RunState) :
    l.foldl reportEntry s = ⟨s.structMap, s.Diagnostics ++ l.flatMap entryDiagnostics⟩ := by
  induction l generalizing s with
  | nil => simp
  | cons e l ih =>
    rw [List.foldl_cons, ih]
    obtain ⟨k, v⟩ := e
    cases hv : v.hasValidate <;> cases hr : v.hasResourceMappings <;>
      simp [reportEntry, Reportf, entryDiagnostics, hv, hr]

/-! ## The result of `run`. -/

theorem diagnosticsFor_append (S : String) (xs ys : List analysis.Diagnostic) :
    diagnosticsFor S (xs ++ ys) = diagnosticsFor S xs ++ diagnosticsFor S ys := by
  simp [diagnosticsFor]

theorem diagnosticsFor_entry_self (S : String) (v : TokenInfo) :
    diagnosticsFor S (entryDiagnostics (S, v)) = entryDiagnostics (S, v) := by
  cases hv : v.hasValidate <;> cases hr : v.hasResourceMappings <;>
    simp [diagnosticsFor, entryDiagnostics, hv, hr]

theorem diagnosticsFor_entry_ne (S k : String) (v : TokenInfo) (h : k ≠ S) :
    diagnosticsFor S (entryDiagnostics (k, v)) = [] := by
  have h1 : validateMessage k ≠ validateMessage S := fun e => h (validateMessage_inj e)
  have h2 : resourceMappingsMessage k ≠ resourceMappingsMessage S :=
    fun e => h (resourceMappingsMessage_inj e)
  have h3 : validateMessage k ≠ resourceMappingsMessage S :=
    validateMessage_ne_resourceMappingsMessage k S
  have h4 : resourceMappingsMessage k ≠ validateMessage S :=
    fun e => validateMessage_ne_resourceMappingsMessage S k e.symm
  cases hv : v.hasValidate <;> cases hr : v.hasResourceMappings <;>
    simp [diagnosticsFor, entryDiagnostics, hv, hr, h1, h2, h3, h4]

/-- The diagnostics naming `S` among those of a list of entries with distinct keys are the
diagnostics of the entry of `S`. -/
theorem diagnosticsFor_flatMap (S : String) (l : StructMap) (hl : l.keys.Nodup) :
    diagnosticsFor S (l.flatMap entryDiagnostics) =
      match l.get S with
      | some v => entryDiagnostics (S, v)
      | none => [] := by
  induction l with
  | nil => rfl
  | cons e rest ih =>
    obtain ⟨k, v⟩ := e
    simp only [StructMap.keys, List.map_cons, List.nodup_cons] at hl
    have ih2 := ih hl.2
    rw [List.flatMap_cons, diagnosticsFor_append, ih2]
    by_cases hk : k = S
    · subst hk
      have hn : StructMap.get rest k = none := (StructMap.get_eq_none_iff rest k).mpr hl.1
      simp [StructMap.get, hn, diagnosticsFor_entry_self]
    · simp [StructMap.get, hk, diagnosticsFor_entry_ne S k v hk]

theorem run_eq (pass : analysis.Pass) (range : RangeOrder) :
    run pass range =
      match visitAll (inspectFunc pass.TypesInfo) (allNodes pass.Files) (collected pass.Files) with
      | .error e => .error e
      | .ok scanned => .ok ⟨scanned, (range scanned).flatMap entryDiagnostics, none, none⟩ := by
  rw [run, collectPass_eq]
  simp only [scanPass_eq_visitAll, collected]
  cases visitAll (inspectFunc pass.TypesInfo) (allNodes pass.Files)
      ((structDecls (allNodes pass.Files)).foldl declare []) with
  | error e => rfl
  | ok scanned => simp [foldl_reportEntry]

theorem nodup_keys_collected (files : List Node) : (collected files).keys.Nodup :=
  nodup_keys_foldl_declare _ [] (by simp [StructMap.keys])

/-- The diagnostics naming `S` that a completed run emits, from the scanned map. -/
theorem diagnosticsFor_emitted (pass : analysis.Pass) (range : RangeOrder) (hr : range.Valid)
    (scanned : StructMap)
    (hs : visitAll (inspectFunc pass.TypesInfo) (allNodes pass.Files) (collected pass.Files)
      = .ok scanned) (S : String) :
    diagnosticsFor S (emitted (run pass range)) =
      match (collected pass.Files).get S with
      | some v => entryDiagnostics (S, mark pass.TypesInfo (allNodes pass.Files) S v)
      | none => [] := by
  obtain ⟨hk, hg⟩ := visitAll_inspectFunc_ok _ _ _ _ hs
  have hnd : scanned.keys.Nodup := hk ▸ nodup_keys_collected pass.Files
  have hp := hr scanned
  have hnd2 : StructMap.keys (range scanned) |>.Nodup := (hp.map Prod.fst).nodup_iff.mpr hnd
  rw [run_eq, hs]
  simp only [emitted]
  rw [diagnosticsFor_flatMap S _ hnd2, StructMap.get_perm _ _ hp hnd, hg S]
  cases (collected pass.Files).get S with
  | none => rfl
  | some v => rfl

/-- The diagnostics emitted under two enumeration orders are permutations of each other. -/
theorem emitted_perm (pass : analysis.Pass) (range1 range2 : RangeOrder)
    (h1 : range1.Valid) (h2 : range2.Valid) :
    (emitted (run pass range1)).Perm (emitted (run pass range2)) := by
  rw [run_eq, run_eq]
  cases visitAll (inspectFunc pass.TypesInfo) (allNodes pass.Files)
      (collected pass.Files) with
  | error e => exact List.Perm.refl _
  | ok scanned =>
    simp only [emitted]
    exact ((h1 scanned).flatMap_right entryDiagnostics).trans
      ((h2 scanned).flatMap_right entryDiagnostics).symm

theorem emitted_of_error (pass : analysis.Pass) (range : RangeOrder) (e : Fault)
    (hs : visitAll (inspectFunc pass.TypesInfo) (allNodes pass.Files) (collected pass.Files)
      = .error e) : emitted (run pass range) = [] := by
  rw [run_eq, hs]; rfl

/-! ## Nodes at any depth. -/

theorem within_mk_iff (n : Node) (k : NodeKind) (cs : List Node) :
    Within n (.mk k cs) ↔ n = .mk k cs ∨ ∃ c ∈ cs, Within n c := by
  constructor
  · intro h
    cases h with
    | self => exact Or.inl rfl
    | child c _ _ hc hw => exact Or.inr ⟨c, hc, hw⟩
  · rintro (h | ⟨c, hc, hw⟩)
    · rw [h]; exact Within.self _
    · exact Within.child n c k cs hc hw

mutual
theorem mem_preorder_iff_within (n : Node) : ∀ t : Node, n ∈ t.preorder ↔ Within n t
  | .mk k cs => by
    rw [Node.preorder, List.mem_cons, within_mk_iff, mem_preorderList_within n cs]
theorem mem_preorderList_within (n : Node) : ∀ ns : List Node,
    n ∈ preorderList ns ↔ ∃ c ∈ ns, Within n c
  | [] => by simp [preorderList]
  | c :: cs => by
    rw [preorderList, List.mem_append, mem_preorder_iff_within n c,
      mem_preorderList_within n cs]
    simp
end

theorem mem_allNodes_iff (files : List Node) (n : Node) :
    n ∈ allNodes files ↔ ∃ f ∈ files, Within n f :=
  mem_preorderList_within n files

theorem mem_structDeclOfSpec_iff (spec : Spec) (N : String) (p : token.Pos) :
    (N, p) ∈ structDeclOfSpec spec ↔ ∃ a fs, spec = Spec.TypeSpec p N a (.StructType fs) := by
  cases spec with
  | ImportSpec path => simp [structDeclOfSpec]
  | ValueSpec ns t => simp [structDeclOfSpec]
  | TypeSpec q M a t =>
    cases t <;> simp [structDeclOfSpec]
    constructor
    · rintro ⟨rfl, rfl⟩; exact ⟨rfl, rfl⟩
    · rintro ⟨rfl, rfl⟩; exact ⟨rfl, rfl⟩

theorem mem_structDecls_iff (files : List Node) (N : String) (p : token.Pos) :
    (N, p) ∈ structDecls (allNodes files) ↔ DeclaresStruct files N p := by
  simp only [structDecls, List.mem_flatMap, mem_allNodes_iff, DeclaresStruct]
  constructor
  · rintro ⟨n, ⟨f, hf, hw⟩, hd⟩
    refine ⟨f, hf, n, hw, ?_⟩
    obtain ⟨k, cs⟩ := n
    cases k with
    | GenDecl Specs =>
      simp only [structDeclsOfNode, Node.kind, List.mem_flatMap] at hd
      obtain ⟨spec, hs, hm⟩ := hd
      obtain ⟨a, fs, rfl⟩ := (mem_structDeclOfSpec_iff spec N p).mp hm
      exact ⟨Specs, rfl, a, fs, hs⟩
    | FuncDecl d => simp [structDeclsOfNode, Node.kind] at hd
    | Other s => simp [structDeclsOfNode, Node.kind] at hd
  · rintro ⟨f, hf, n, hw, Specs, hk, a, fs, hs⟩
    refine ⟨n, ⟨f, hf, hw⟩, ?_⟩
    simp only [structDeclsOfNode, hk, List.mem_flatMap]
    exact ⟨_, hs, (mem_structDeclOfSpec_iff _ N p).mpr ⟨a, fs, rfl⟩⟩

/-! ## Structs with both capabilities. -/

theorem getReceiverName_of_resolvesTo (ti : types.Info) (d : FuncDecl) (S : String)
    (h : ResolvesTo ti d S) : getReceiverName ti d = S := by
  obtain ⟨r0, rest, hr, ht⟩ := h
  simp [getReceiverName, hr, ht]

theorem any_providesValidate_of_hasMethod (pass : analysis.Pass) (S : String) (hS : S ≠ "")
    (h : HasMethod pass S "Validate" isValidValidateSignature) :
    (allNodes pass.Files).any (providesValidate pass.TypesInfo S) = true := by
  obtain ⟨d, cs, rs, hmem, hn, hr, hres, hv⟩ := h
  rw [List.any_eq_true]
  refine ⟨_, hmem, ?_⟩
  simp [providesValidate, Node.kind, hS, getReceiverName_of_resolvesTo _ _ _ hr, hn, hres, hv]

theorem any_providesResourceMappings_of_hasMethod (pass : analysis.Pass) (S : String)
    (hS : S ≠ "")
    (h : HasMethod pass S "GetResourceMappings" isValidResourceMappingsSignature) :
    (allNodes pass.Files).any (providesResourceMappings pass.TypesInfo S) = true := by
  obtain ⟨d, cs, rs, hmem, hn, hr, hres, hv⟩ := h
  rw [List.any_eq_true]
  refine ⟨_, hmem, ?_⟩
  simp [providesResourceMappings, Node.kind, hS, getReceiverName_of_resolvesTo _ _ _ hr, hn,
    hres, hv]

theorem entryDiagnostics_mark_of_conforms (pass : analysis.Pass) (S : String)
    (h : Conforms pass S) (v : TokenInfo) :
    entryDiagnostics (S, mark pass.TypesInfo (allNodes pass.Files) S v) = [] := by
  obtain ⟨hS, hv, hg⟩ := h
  simp [entryDiagnostics, mark, any_providesValidate_of_hasMethod pass S hS hv,
    any_providesResourceMappings_of_hasMethod pass S hS hg]

/-- C1. A struct with both capabilities correctly signatured gets no diagnostic: if the input
contains a method declaration named `Validate` whose receiver resolves to the named type `S`
and whose result list satisfies `isValidValidateSignature`, and one named
`GetResourceMappings` whose receiver resolves to `S` and whose result list satisfies
`isValidResourceMappingsSignature`, then `run` emits no diagnostic naming `S`; and when every
struct collected by the first pass is such, `run` emits no diagnostic at all. -/
theorem run_conforming_no_diagnostic (pass : analysis.Pass) (range : RangeOrder)
    (hr : range.Valid) :
    (∀ S, Conforms pass S → diagnosticsFor S (emitted (run pass range)) = []) ∧
    (∀ m, collectPass pass.Files [] = .ok m → (∀ S ∈ m.keys, Conforms pass S) →
      emitted (run pass range) = []) := by
  constructor
  · intro S hc
    cases hs : visitAll (inspectFunc pass.TypesInfo) (allNodes pass.Files)
        (collected pass.Files) with
    | error e => rw [emitted_of_error pass range e hs]; rfl
    | ok scanned =>
      rw [diagnosticsFor_emitted pass range hr scanned hs S]
      cases (collected pass.Files).get S with
      | none => rfl
      | some v => exact entryDiagnostics_mark_of_conforms pass S hc v
  · intro m hm hall
    rw [collectPass_eq] at hm
    have hm2 : m = collected pass.Files := by
      simp only [Except.ok.injEq] at hm; exact hm.symm
    subst hm2
    cases hs : visitAll (inspectFunc pass.TypesInfo) (allNodes pass.Files)
        (collected pass.Files) with
    | error e => exact emitted_of_error pass range e hs
    | ok scanned =>
      obtain ⟨hk, hg⟩ := visitAll_inspectFunc_ok _ _ _ _ hs
      have hnd : scanned.keys.Nodup := hk ▸ nodup_keys_collected pass.Files
      rw [run_eq, hs]
      simp only [emitted]
      rw [List.flatMap_eq_nil_iff]
      intro e he
      obtain ⟨k, v⟩ := e
      have he2 : (k, v) ∈ scanned := (hr scanned).mem_iff.mp he
      have hget := (StructMap.get_eq_some_iff_mem scanned hnd k v).mpr he2
      have hkm : k ∈ (collected pass.Files).keys := by
        rw [← hk]; exact List.mem_map_of_mem Prod.fst he2
      rw [hg k] at hget
      cases hc : (collected pass.Files).get k with
      | none => rw [hc] at hget; cases hget
      | some v0 =>
        rw [hc] at hget
        simp only [Option.map_some', Option.some.injEq] at hget
        rw [← hget]
        exact entryDiagnostics_mark_of_conforms pass k (hall k hkm) v0

theorem conformingPass_conforms : Conforms conformingPass "CreateEtcdCluster" := by
  refine ⟨by decide, ?_, ?_⟩
  · refine ⟨⟨some [.mk ["c"] (.Ident 140 "CreateEtcdCluster")], "Validate",
      ⟨[], some [.mk [] (.Ident 170 "error")]⟩⟩,
      [.mk (.Other "BlockStmt") [.mk (.Other "ReturnStmt") []]], [.mk [] (.Ident 170 "error")],
      ?_, rfl, ⟨_, _, rfl, rfl⟩, rfl, rfl⟩
    simp [allNodes, preorderList, Node.preorder, conformingPass, method, structDecl]
  · refine ⟨⟨some [.mk ["c"] (.Ident 292 "CreateEtcdCluster")], "GetResourceMappings",
      ⟨[], some [.mk [] (.ArrayType none (.SelectorExpr (.Ident 335 "types") "ResourceMapping"))]⟩⟩,
      [.mk (.Other "BlockStmt") [.mk (.Other "ReturnStmt") []]],
      [.mk [] (.ArrayType none (.SelectorExpr (.Ident 335 "types") "ResourceMapping"))],
      ?_, rfl, ⟨_, _, rfl, rfl⟩, rfl, rfl⟩
    simp [allNodes, preorderList, Node.preorder, conformingPass, method, structDecl]

/-- Witness of C1: the pass over `CreateEtcdCluster` and its methods, enumerated in map
order; the struct conforms, it is the only collected struct, and nothing is reported. -/
theorem run_conforming_no_diagnostic_witness :
    RangeOrder.Valid id ∧ Conforms conformingPass "CreateEtcdCluster" ∧
    collectPass conformingPass.Files [] = .ok [("CreateEtcdCluster", ⟨198, false, false⟩)] ∧
    diagnosticsFor "CreateEtcdCluster" (emitted (run conformingPass id)) = [] ∧
    emitted (run conformingPass id) = [] :=
  ⟨fun m => List.Perm.refl m, conformingPass_conforms, rfl,
    (run_conforming_no_diagnostic conformingPass id (fun m => List.Perm.refl m)).1
      "CreateEtcdCluster" conformingPass_conforms,
    (run_conforming_no_diagnostic conformingPass id (fun m => List.Perm.refl m)).2
      [("CreateEtcdCluster", ⟨198, false, false⟩)] rfl
      (by
        intro S hS
        simp only [StructMap.keys, List.map_cons, List.map_nil, List.mem_singleton] at hS
        subst hS
        exact conformingPass_conforms)⟩

/-! ## Structs without methods, structs with `Validate` only, and result-less methods. -/

/-- The diagnostics naming `S` of a run that completes. -/
theorem diagnosticsFor_of_run_ok (pass : analysis.Pass) (range : RangeOrder) (hr : range.Valid)
    (res : RunResult) (hrun : run pass range = .ok res) (S : String) :
    diagnosticsFor S res.Diagnostics =
      match (collected pass.Files).get S with
      | some v => entryDiagnostics (S, mark pass.TypesInfo (allNodes pass.Files) S v)
      | none => [] := by
  cases hs : visitAll (inspectFunc pass.TypesInfo) (allNodes pass.Files)
      (collected pass.Files) with
  | error e =>
    rw [run_eq, hs] at hrun; cases hrun
  | ok scanned =>
    have h := diagnosticsFor_emitted pass range hr scanned hs S
    rw [hrun] at h
    exact h

theorem not_provides_of_no_receiver (pass : analysis.Pass) (S : String)
    (hno : ∀ d cs, Node.mk (.FuncDecl d) cs ∈ allNodes pass.Files →
      getReceiverName pass.TypesInfo d ≠ S) :
    (allNodes pass.Files).any (providesValidate pass.TypesInfo S) = false ∧
    (allNodes pass.Files).any (providesResourceMappings pass.TypesInfo S) = false := by
  constructor
  · rw [List.any_eq_false]
    intro n hn
    obtain ⟨k, cs⟩ := n
    cases k with
    | FuncDecl d => simp [providesValidate, Node.kind, hno d cs hn]
    | GenDecl s => simp [providesValidate, Node.kind]
    | Other s => simp [providesValidate, Node.kind]
  · rw [List.any_eq_false]
    intro n hn
    obtain ⟨k, cs⟩ := n
    cases k with
    | FuncDecl d => simp [providesResourceMappings, Node.kind, hno d cs hn]
    | GenDecl s => simp [providesResourceMappings, Node.kind]
    | Other s => simp [providesResourceMappings, Node.kind]

/-- The diagnostics naming a collected struct that no method declaration resolves to, in a
run that completes. -/
theorem diagnosticsFor_no_methods (pass : analysis.Pass) (range : RangeOrder)
    (hr : range.Valid) (res : RunResult) (hrun : run pass range = .ok res)
    (m : StructMap) (hm : collectPass pass.Files [] = .ok m)
    (S : String) (v : TokenInfo) (hv : m.get S = some v)
    (hno : ∀ d cs, Node.mk (.FuncDecl d) cs ∈ allNodes pass.Files →
      getReceiverName pass.TypesInfo d ≠ S) :
    diagnosticsFor S res.Diagnostics =
      [⟨v.pos, validateMessage S⟩, ⟨v.pos, resourceMappingsMessage S⟩] := by
  rw [collectPass_eq] at hm
  have hm2 : m = collected pass.Files := by
    simp only [Except.ok.injEq] at hm; exact hm.symm
  subst hm2
  rw [diagnosticsFor_of_run_ok pass range hr res hrun S, hv]
  have hf := flags_foldl_declare _ [] (by intro k v h; cases h) S v hv
  obtain ⟨h1, h2⟩ := not_provides_of_no_receiver pass S hno
  simp [entryDiagnostics, mark, h1, h2, hf.1, hf.2]

/-- The scanning pass completes exactly when it meets no method declaration named
`Validate` or `GetResourceMappings` that declares no result and whose receiver resolves to
a collected struct. -/
theorem run_ok_iff (pass : analysis.Pass) (range : RangeOrder) :
    (∃ res, run pass range = .ok res) ↔
      (allNodes pass.Files).any
        (faultsAt pass.TypesInfo (collected pass.Files).keys) = false := by
  rw [run_eq]
  cases hs : visitAll (inspectFunc pass.TypesInfo) (allNodes pass.Files)
      (collected pass.Files) with
  | error e =>
    rw [fault_eq e, visitAll_inspectFunc_error_iff] at hs
    simp [hs]
  | ok scanned =>
    have hne : visitAll (inspectFunc pass.TypesInfo) (allNodes pass.Files)
        (collected pass.Files) ≠ .error .nilPointerDereference := by rw [hs]; simp
    rw [Ne, visitAll_inspectFunc_error_iff] at hne
    simp [hne]

/-- C2 (failing input). On
`package p; type S struct{}; type T struct{}; func (t T) Validate() {}`
the struct `S` is collected and no method declaration has a receiver resolving to `S`, yet
`run` panics with a nil-pointer dereference while scanning `T.Validate` (it reads
`funcDecl.Type.Results.List` with `Results == nil`), whatever the enumeration order, and so
emits no diagnostic for `S` instead of two. -/
theorem run_resultless_validate_panics :
    collectPass resultlessValidatePass.Files [] =
      .ok [("S", ⟨17, false, false⟩), ("T", ⟨34, false, false⟩)] ∧
    (∀ d cs, Node.mk (.FuncDecl d) cs ∈ allNodes resultlessValidatePass.Files →
      getReceiverName resultlessValidatePass.TypesInfo d ≠ "S") ∧
    (∀ range : RangeOrder, run resultlessValidatePass range = .error .nilPointerDereference) ∧
    (∀ range : RangeOrder,
      diagnosticsFor "S" (emitted (run resultlessValidatePass range)) = []) := by
  refine ⟨rfl, ?_, fun _ => rfl, fun _ => rfl⟩
  intro d cs hmem
  simp [allNodes, preorderList, Node.preorder, resultlessValidatePass, method, structDecl]
    at hmem
  obtain ⟨rfl, _⟩ := hmem
  decide

/-- C3 (failing input, and the test data). On
`package p; type S struct{}; func (s S) Validate() error { return nil }; type T struct{};
func (t T) GetResourceMappings() {}`
the only method of `S` is a `Validate` with the single result `error`, yet `run` panics while
scanning `T.GetResourceMappings` and emits no diagnostic for `S` instead of one.  On the
test-data file `run` completes and emits exactly three diagnostics, one per struct that has
only `Validate`, each at the declaration position with the `GetResourceMappings` message,
and none for `CreateEtcdCluster`, in the order of the enumeration. -/
theorem run_resultless_mappings_panics :
    collectPass resultlessMappingsPass.Files [] =
      .ok [("S", ⟨17, false, false⟩), ("T", ⟨78, false, false⟩)] ∧
    (∀ d cs, Node.mk (.FuncDecl d) cs ∈ allNodes resultlessMappingsPass.Files →
      getReceiverName resultlessMappingsPass.TypesInfo d = "S" →
      d.Name = "Validate" ∧ d.Type_.Results = some [.mk [] (.Ident 51 "error")]) ∧
    (∀ range : RangeOrder, run resultlessMappingsPass range = .error .nilPointerDereference) ∧
    (∀ range : RangeOrder,
      diagnosticsFor "S" (emitted (run resultlessMappingsPass range)) = []) ∧
    emitted (run examplePass id) =
      [⟨535, "struct TruncateTableRequest does not implement method 'GetResourceMappings() []types.ResourceMapping'"⟩,
       ⟨637, "struct MigrateDatabaseRequest does not implement method 'GetResourceMappings() []types.ResourceMapping'"⟩,
       ⟨677, "struct ResetPasswordRequest does not implement method 'GetResourceMappings() []types.ResourceMapping'"⟩] ∧
    (∀ range : RangeOrder, range.Valid →
      (emitted (run examplePass range)).Perm
        [⟨535, resourceMappingsMessage "TruncateTableRequest"⟩,
         ⟨637, resourceMappingsMessage "MigrateDatabaseRequest"⟩,
         ⟨677, resourceMappingsMessage "ResetPasswordRequest"⟩] ∧
      (emitted (run examplePass range)).length = 3 ∧
      diagnosticsFor "CreateEtcdCluster" (emitted (run examplePass range)) = []) := by
  refine ⟨rfl, ?_, fun _ => rfl, fun _ => rfl, rfl, ?_⟩
  · intro d cs hmem hrecv
    simp [allNodes, preorderList, Node.preorder, resultlessMappingsPass, method, structDecl]
      at hmem
    rcases hmem with ⟨rfl, _⟩ | ⟨rfl, _⟩
    · exact ⟨rfl, rfl⟩
    · exact absurd hrecv (by decide)
  intro range hr
  have hp : (emitted (run examplePass range)).Perm (emitted (run examplePass id)) :=
    emitted_perm examplePass range id hr (fun m => List.Perm.refl m)
  refine ⟨hp, hp.length_eq, ?_⟩
  have hf : diagnosticsFor "CreateEtcdCluster" (emitted (run examplePass id)) = [] := rfl
  rw [diagnosticsFor, List.filter_eq_nil_iff] at hf ⊢
  intro d hd
  exact hf d (hp.mem_iff.mp hd)

/-! ## The reporter. -/

theorem length_flatMap_entryDiagnostics (l : StructMap) :
    (l.flatMap entryDiagnostics).length =
      l.countP (fun e => !e.2.hasValidate) + l.countP (fun e => !e.2.hasResourceMappings) := by
  induction l with
  | nil => rfl
  | cons e rest ih =>
    obtain ⟨k, v⟩ := e
    rw [List.flatMap_cons, List.length_append, ih, List.countP_cons, List.countP_cons]
    cases hv : v.hasValidate <;> cases hr : v.hasResourceMappings <;>
      simp [entryDiagnostics, hv, hr] <;> omega

/-- C4. The reporter.  For every registry `m` and every enumeration order of `range`, the
reporting loop (i) handles one entry `key, value` by appending, in this order, the `Validate`
diagnostic if `hasValidate` is false and the `GetResourceMappings` diagnostic if
`hasResourceMappings` is false, each at `value.pos` with the message template instantiated
with `key`, and nothing else; (ii) leaves the registry as it was; (iii) emits the
diagnostics of every record exactly once (a permutation of the records' diagnostics);
(iv) emits as many diagnostics as there are false flags; (v) when the keys are distinct,
the diagnostics naming a key are exactly those of its record; and (vi) this loop is the last
step of `run`. -/
theorem reporter_emits_per_false_flag (m : StructMap) (range : RangeOrder) (hr : range.Valid) :
    (∀ (s : RunState) (key : String) (value : TokenInfo),
      reportEntry s (key, value) =
        ⟨s.structMap, s.Diagnostics ++
          ((if value.hasValidate then [] else [⟨value.pos, validateMessage key⟩]) ++
           (if value.hasResourceMappings then []
            else [⟨value.pos, resourceMappingsMessage key⟩]))⟩) ∧
    ((range m).foldl reportEntry ⟨m, []⟩).structMap = m ∧
    ((range m).foldl reportEntry ⟨m, []⟩).Diagnostics.Perm (m.flatMap entryDiagnostics) ∧
    ((range m).foldl reportEntry ⟨m, []⟩).Diagnostics.length =
      m.countP (fun e => !e.2.hasValidate) + m.countP (fun e => !e.2.hasResourceMappings) ∧
    (m.keys.Nodup → ∀ key value, m.get key = some value →
      diagnosticsFor key ((range m).foldl reportEntry ⟨m, []⟩).Diagnostics =
        (if value.hasValidate then [] else [⟨value.pos, validateMessage key⟩]) ++
        (if value.hasResourceMappings then []
         else [⟨value.pos, resourceMappingsMessage key⟩])) ∧
    (∀ (pass : analysis.Pass) (collected : StructMap),
      collectPass pass.Files [] = .ok collected →
      scanPass pass.TypesInfo pass.Files collected = .ok m →
      run pass range =
        .ok ⟨m, ((range m).foldl reportEntry ⟨m, []⟩).Diagnostics, none, none⟩) := by
  have hfold : (range m).foldl reportEntry ⟨m, []⟩ =
      ⟨m, (range m).flatMap entryDiagnostics⟩ := by
    rw [foldl_reportEntry]; simp
  refine ⟨?_, ?_, ?_, ?_, ?_, ?_⟩
  · intro s key value
    cases hv : value.hasValidate <;> cases hm : value.hasResourceMappings <;>
      simp [reportEntry, Reportf, hv, hm]
  · rw [hfold]
  · rw [hfold]
    exact (hr m).flatMap_right entryDiagnostics
  · rw [hfold]
    simp only
    rw [((hr m).flatMap_right entryDiagnostics).length_eq, length_flatMap_entryDiagnostics]
  · intro hnd key value hget
    rw [hfold]
    simp only
    have hnd2 : StructMap.keys (range m) |>.Nodup := ((hr m).map Prod.fst).nodup_iff.mpr hnd
    rw [diagnosticsFor_flatMap key _ hnd2, StructMap.get_perm _ _ (hr m) hnd, hget]
    rfl
  · intro pass collected hc hs
    simp only [run, hc, hs]
    rw [hfold]

/-- Witness of C4: a registry with one complete record, one record missing
`GetResourceMappings` and one missing both, enumerated in reverse order: three diagnostics. -/
theorem reporter_emits_per_false_flag_witness :
    RangeOrder.Valid List.reverse ∧
    ((List.reverse [("A", (⟨10, true, true⟩ : TokenInfo)), ("B", ⟨20, true, false⟩),
        ("C", ⟨30, false, false⟩)]).foldl reportEntry
      ⟨[("A", ⟨10, true, true⟩), ("B", ⟨20, true, false⟩), ("C", ⟨30, false, false⟩)], []⟩).Diagnostics
      = [⟨30, validateMessage "C"⟩, ⟨30, resourceMappingsMessage "C"⟩,
         ⟨20, resourceMappingsMessage "B"⟩] ∧
    ((List.reverse [("A", (⟨10, true, true⟩ : TokenInfo)), ("B", ⟨20, true, false⟩),
        ("C", ⟨30, false, false⟩)]).foldl reportEntry
      ⟨[("A", ⟨10, true, true⟩), ("B", ⟨20, true, false⟩), ("C", ⟨30, false, false⟩)], []⟩).Diagnostics.length
      = 3 :=
  ⟨fun m => List.reverse_perm m, rfl,
    (reporter_emits_per_false_flag
      [("A", ⟨10, true, true⟩), ("B", ⟨20, true, false⟩), ("C", ⟨30, false, false⟩)]
      List.reverse (fun m => List.reverse_perm m)).2.2.2.1⟩

/-! ## The signature matchers. -/

theorem isValidValidateSignature_eq_true_iff (results : List ast.Field) :
    isValidValidateSignature results = true ↔
      ∃ names pos, results = [ast.Field.mk names (Expr.Ident pos "error")] := by
  constructor
  · intro h
    match results, h with
    | [], h => simp [isValidValidateSignature] at h
    | _ :: _ :: _, h => simp [isValidValidateSignature] at h
    | [ast.Field.mk names t], h =>
      cases t <;> simp [isValidValidateSignature, Field.Type_] at h
      exact ⟨names, _, by rw [h]⟩
  · rintro ⟨names, pos, rfl⟩
    rfl

theorem isValidResourceMappingsSignature_eq_true_iff (results : List ast.Field) :
    isValidResourceMappingsSignature results = true ↔
      ∃ names len x, results =
        [ast.Field.mk names (Expr.ArrayType len (Expr.SelectorExpr x "ResourceMapping"))] := by
  constructor
  · intro h
    match results, h with
    | [], h => simp [isValidResourceMappingsSignature] at h
    | _ :: _ :: _, h => simp [isValidResourceMappingsSignature] at h
    | [ast.Field.mk names t], h =>
      cases t with
      | ArrayType len elt =>
        cases elt <;> simp [isValidResourceMappingsSignature, Field.Type_] at h
        exact ⟨names, len, _, by rw [h]⟩
      | _ => simp [isValidResourceMappingsSignature, Field.Type_] at h
  · rintro ⟨names, len, x, rfl⟩
    rfl

theorem inspectFunc_rejected_validate (ti : types.Info) (d : FuncDecl) (cs : List Node)
    (m : StructMap) (rs : List ast.Field) (hn : d.Name = "Validate")
    (hres : d.Type_.Results = some rs) (hv : isValidValidateSignature rs = false) :
    inspectFunc ti (some (.mk (.FuncDecl d) cs)) m = .ok (m, true) := by
  simp only [inspectFunc]
  by_cases hR : getReceiverName ti d = ""
  · simp [hR]
  · simp only [hR, if_false]
    cases m.get (getReceiverName ti d) with
    | none => rfl
    | some t => simp [nameAndSignature, hn, hres, FieldList_List, hv]

/-- C5. Matcher A.  `isValidValidateSignature` returns true exactly on the result lists
with one entry whose declared type is the identifier `error`; the empty list, a list of two
or more entries, and a single entry of another type (`bool`, a qualified name, a pointer, a
slice, the identifier under another name) yield false.  A method named `Validate` whose
result list is rejected leaves the registry as it was, the reporter emits the `Validate`
diagnostic for every record whose `hasValidate` is false, and so a collected struct all of
whose `Validate` methods have a rejected result list is reported as missing `Validate` by
every run that completes, as on `type S struct{}; func (s S) Validate() bool`. -/
theorem isValidValidateSignature_spec :
    (∀ results : List ast.Field, isValidValidateSignature results = true ↔
      ∃ names pos, results = [ast.Field.mk names (Expr.Ident pos "error")]) ∧
    isValidValidateSignature [] = false ∧
    (∀ (a b : ast.Field) (rest : List ast.Field),
      isValidValidateSignature (a :: b :: rest) = false) ∧
    (∀ names pos, isValidValidateSignature [.mk names (.Ident pos "bool")] = false) ∧
    (∀ names pos name, name ≠ "error" →
      isValidValidateSignature [.mk names (.Ident pos name)] = false) ∧
    (∀ names x sel, isValidValidateSignature [.mk names (.SelectorExpr x sel)] = false) ∧
    (∀ names x, isValidValidateSignature [.mk names (.StarExpr x)] = false) ∧
    (∀ names len elt, isValidValidateSignature [.mk names (.ArrayType len elt)] = false) ∧
    (∀ (ti : types.Info) (d : FuncDecl) (cs : List Node) (m : StructMap) (rs : List ast.Field),
      d.Name = "Validate" → d.Type_.Results = some rs → isValidValidateSignature rs = false →
      inspectFunc ti (some (.mk (.FuncDecl d) cs)) m = .ok (m, true)) ∧
    (∀ (s : RunState) (key : String) (value : TokenInfo), value.hasValidate = false →
      (⟨value.pos, validateMessage key⟩ : analysis.Diagnostic) ∈
        (reportEntry s (key, value)).Diagnostics) ∧
    (∀ (pass : analysis.Pass) (range : RangeOrder) (res : RunResult) (m : StructMap)
      (S : String) (v : TokenInfo),
      range.Valid → run pass range = .ok res → collectPass pass.Files [] = .ok m →
      m.get S = some v →
      (∀ d cs, Node.mk (.FuncDecl d) cs ∈ allNodes pass.Files →
        getReceiverName pass.TypesInfo d = S → d.Name = "Validate" →
        ∃ rs, d.Type_.Results = some rs ∧ isValidValidateSignature rs = false) →
      (⟨v.pos, validateMessage S⟩ : analysis.Diagnostic) ∈ res.Diagnostics) ∧
    emitted (run boolValidatePass id) =
      [⟨17, validateMessage "S"⟩, ⟨17, resourceMappingsMessage "S"⟩] := by
  refine ⟨isValidValidateSignature_eq_true_iff, rfl, ?_, ?_, ?_, ?_, ?_, ?_, ?_, ?_, ?_, rfl⟩
  · intro a b rest; simp [isValidValidateSignature]
  · intro names pos; rfl
  · intro names pos name hne; simp [isValidValidateSignature, Field.Type_, hne]
  · intro names x sel; rfl
  · intro names x; rfl
  · intro names len elt; rfl
  · intro ti d cs m rs hn hres hv
    exact inspectFunc_rejected_validate ti d cs m rs hn hres hv
  · intro s key value hv
    simp [reportEntry, Reportf, hv]
    cases value.hasResourceMappings <;> simp
  · intro pass range res m S v hr hrun hm hv hall
    rw [collectPass_eq] at hm
    have hm2 : m = collected pass.Files := by
      simp only [Except.ok.injEq] at hm; exact hm.symm
    subst hm2
    have hd := diagnosticsFor_of_run_ok pass range hr res hrun S
    rw [hv] at hd
    have hf := flags_foldl_declare _ [] (by intro k v h; cases h) S v hv
    have hnp : (allNodes pass.Files).any (providesValidate pass.TypesInfo S) = false := by
      rw [List.any_eq_false]
      intro n hn
      obtain ⟨k, cs⟩ := n
      cases k with
      | GenDecl s => simp [providesValidate, Node.kind]
      | Other s => simp [providesValidate, Node.kind]
      | FuncDecl d =>
        intro hc
        simp only [providesValidate, Node.kind, Bool.and_eq_true, decide_eq_true_eq] at hc
        obtain ⟨⟨⟨_, h2⟩, h3⟩, h4⟩ := hc
        obtain ⟨rs, hres, hval⟩ := hall d cs hn h2 h3
        rw [hres] at h4
        simp only at h4
        rw [hval] at h4; cases h4
    have hmem : (⟨v.pos, validateMessage S⟩ : analysis.Diagnostic) ∈
        diagnosticsFor S res.Diagnostics := by
      rw [hd]
      simp [entryDiagnostics, mark, hf.1, hnp]
    exact (List.mem_filter.mp hmem).1

/-- Witness of C5: on `type S struct{}; func (s S) Validate() bool` the result list is
rejected, the scanner leaves the registry as collected, and the completed run reports `S`
as missing `Validate`. -/
theorem isValidValidateSignature_spec_witness :
    isValidValidateSignature [.mk [] (.Ident 51 "bool")] = false ∧
    inspectFunc boolValidatePass.TypesInfo
      (some (method "s" 37 "S" "Validate" [] (some [.mk [] (.Ident 51 "bool")])
        [.mk (.Other "ReturnStmt") []])) [("S", ⟨17, false, false⟩)]
      = .ok ([("S", ⟨17, false, false⟩)], true) ∧
    RangeOrder.Valid id ∧
    run boolValidatePass id =
      .ok ⟨[("S", ⟨17, false, false⟩)],
        [⟨17, validateMessage "S"⟩, ⟨17, resourceMappingsMessage "S"⟩], none, none⟩ ∧
    (⟨17, validateMessage "S"⟩ : analysis.Diagnostic) ∈
      [(⟨17, validateMessage "S"⟩ : analysis.Diagnostic), ⟨17, resourceMappingsMessage "S"⟩] :=
  ⟨isValidValidateSignature_spec.2.2.2.1 [] 51,
    isValidValidateSignature_spec.2.2.2.2.2.2.2.2.1 boolValidatePass.TypesInfo
      ⟨some [.mk ["s"] (.Ident 37 "S")], "Validate", ⟨[], some [.mk [] (.Ident 51 "bool")]⟩⟩
      [.mk (.Other "BlockStmt") [.mk (.Other "ReturnStmt") []]] [("S", ⟨17, false, false⟩)]
      [.mk [] (.Ident 51 "bool")] rfl rfl rfl,
    fun m => List.Perm.refl m, rfl,
    isValidValidateSignature_spec.2.2.2.2.2.2.2.2.2.2.1 boolValidatePass id
      ⟨[("S", ⟨17, false, false⟩)],
        [⟨17, validateMessage "S"⟩, ⟨17, resourceMappingsMessage "S"⟩], none, none⟩
      [("S", ⟨17, false, false⟩)] "S" ⟨17, false, false⟩ (fun m => List.Perm.refl m) rfl rfl rfl
      (by
        intro d cs hmem hrecv hname
        simp [allNodes, preorderList, Node.preorder, boolValidatePass, method, structDecl]
          at hmem
        obtain ⟨rfl, rfl⟩ := hmem
        exact ⟨_, rfl, rfl⟩)⟩

/-- C6. Matcher B.  `isValidResourceMappingsSignature` returns true exactly on the result
lists with one entry whose type is an array or slice type whose element type is a selector
expression with selected name `ResourceMapping`; the qualifier plays no part, so
`[]other.ResourceMapping` is accepted like `[]types.ResourceMapping`, while `[]types.Id`,
`[]int`, the unqualified `[]ResourceMapping`, the empty list and a list of two or more
entries are rejected. -/
theorem isValidResourceMappingsSignature_spec :
    (∀ results : List ast.Field, isValidResourceMappingsSignature results = true ↔
      ∃ names len x, results =
        [ast.Field.mk names (Expr.ArrayType len (Expr.SelectorExpr x "ResourceMapping"))]) ∧
    (∀ names len (x y : Expr) sel,
      isValidResourceMappingsSignature [.mk names (.ArrayType len (.SelectorExpr x sel))] =
      isValidResourceMappingsSignature [.mk names (.ArrayType len (.SelectorExpr y sel))]) ∧
    isValidResourceMappingsSignature
      [.mk [] (.ArrayType none (.SelectorExpr (.Ident 1 "types") "ResourceMapping"))] = true ∧
    isValidResourceMappingsSignature
      [.mk [] (.ArrayType none (.SelectorExpr (.Ident 1 "other") "ResourceMapping"))] = true ∧
    isValidResourceMappingsSignature
      [.mk [] (.ArrayType none (.SelectorExpr (.Ident 1 "types") "Id"))] = false ∧
    isValidResourceMappingsSignature [.mk [] (.ArrayType none (.Ident 1 "int"))] = false ∧
    isValidResourceMappingsSignature
      [.mk [] (.ArrayType none (.Ident 1 "ResourceMapping"))] = false ∧
    isValidResourceMappingsSignature
      [.mk [] (.SelectorExpr (.Ident 1 "types") "ResourceMapping")] = false ∧
    isValidResourceMappingsSignature [] = false ∧
    (∀ (a b : ast.Field) (rest : List ast.Field),
      isValidResourceMappingsSignature (a :: b :: rest) = false) := by
  refine ⟨isValidResourceMappingsSignature_eq_true_iff, ?_, rfl, rfl, rfl, rfl, rfl, rfl, rfl, ?_⟩
  · intro names len x y sel; rfl
  · intro a b rest; simp [isValidResourceMappingsSignature]

/-! ## Enumeration order, and the collector. -/

/-- The order of emission follows the enumeration of the registry.  On
`package p; type A struct{}; type B struct{}` the two enumeration orders of the two-entry
registry, both of which `range` may produce, make `run` emit the same four diagnostics, those
of `A` first in one run and those of `B` first in the other. -/
theorem run_sequence_depends_on_range_order :
    RangeOrder.Valid id ∧ RangeOrder.Valid List.reverse ∧
    emitted (run twoStructsPass id) =
      [⟨17, validateMessage "A"⟩, ⟨17, resourceMappingsMessage "A"⟩,
       ⟨34, validateMessage "B"⟩, ⟨34, resourceMappingsMessage "B"⟩] ∧
    emitted (run twoStructsPass List.reverse) =
      [⟨34, validateMessage "B"⟩, ⟨34, resourceMappingsMessage "B"⟩,
       ⟨17, validateMessage "A"⟩, ⟨17, resourceMappingsMessage "A"⟩] ∧
    emitted (run twoStructsPass id) ≠ emitted (run twoStructsPass List.reverse) :=
  ⟨fun m => List.Perm.refl m, fun m => List.reverse_perm m, rfl, rfl, by decide⟩

/-- C8. Determinism.  Two runs on the same files and the same type information produce
the same diagnostics, with the same messages and the same positions, whatever the order in
which each run iterates over the registry map during reporting: every diagnostic (message
and position) is emitted the same number of times in both runs, so the emitted lists hold
the same diagnostics and differ at most in the order of emission; the final registries are
equal, and either both runs panic or neither does. -/
theorem run_deterministic_up_to_order (pass : analysis.Pass) (range1 range2 : RangeOrder)
    (h1 : range1.Valid) (h2 : range2.Valid) :
    (emitted (run pass range1)).Perm (emitted (run pass range2)) ∧
    (∀ d : analysis.Diagnostic,
      (emitted (run pass range1)).count d = (emitted (run pass range2)).count d) ∧
    (run pass range1).map RunResult.structMap = (run pass range2).map RunResult.structMap ∧
    (∀ e, run pass range1 = .error e ↔ run pass range2 = .error e) := by
  have hp := emitted_perm pass range1 range2 h1 h2
  refine ⟨hp, fun d => hp.count_eq d, ?_, ?_⟩
  · rw [run_eq, run_eq]
    cases visitAll (inspectFunc pass.TypesInfo) (allNodes pass.Files)
        (collected pass.Files) with
    | error e => rfl
    | ok scanned => rfl
  · intro e
    rw [run_eq, run_eq]
    cases visitAll (inspectFunc pass.TypesInfo) (allNodes pass.Files)
        (collected pass.Files) with
    | error e2 => exact Iff.rfl
    | ok scanned => simp

/-- Witness of C8: the two enumeration orders on the two-struct input. -/
theorem run_deterministic_up_to_order_witness :
    RangeOrder.Valid id ∧ RangeOrder.Valid List.reverse ∧
    (emitted (run twoStructsPass id)).Perm (emitted (run twoStructsPass List.reverse)) :=
  ⟨fun m => List.Perm.refl m, fun m => List.reverse_perm m,
    (run_deterministic_up_to_order twoStructsPass id List.reverse
      (fun m => List.Perm.refl m) (fun m => List.reverse_perm m)).1⟩

/-- C9. The collector.  The collection pass never panics, and the registry it returns has
distinct keys and contains a key `N` exactly when some type declaration of the analyzed
files declares `N` with a struct type as its declared type (`DeclaresStruct`); the record of
`N` has both flags false and the position of such a declaration, namely of the last one met
in traversal order.  So a spec that is not a `TypeSpec` with a struct type (an interface such
as `Validator`, an alias such as `type A = T`, a named primitive such as `Id`, a `var` of
anonymous struct type) leaves the registry as it was, and a struct type used as the type of
a field adds no record of its own. -/
theorem collectPass_spec (files : List Node) :
    ∃ m, collectPass files [] = .ok m ∧ m.keys.Nodup ∧
      (∀ N, N ∈ m.keys ↔ ∃ p, DeclaresStruct files N p) ∧
      (∀ N v, m.get N = some v →
        v.hasValidate = false ∧ v.hasResourceMappings = false ∧ DeclaresStruct files N v.pos ∧
        ∃ pre post, structDecls (allNodes files) = pre ++ (N, v.pos) :: post ∧
          N ∉ post.map Prod.fst) ∧
      (∀ (m0 : StructMap) (spec : Spec),
        (¬ ∃ p N a fs, spec = Spec.TypeSpec p N a (.StructType fs)) →
        inspectSpec m0 spec = m0) ∧
      (∀ (m0 : StructMap) p N a fs,
        inspectSpec m0 (Spec.TypeSpec p N a (.StructType fs)) = m0.set N ⟨p, false, false⟩) := by
  refine ⟨collected files, collectPass_eq files, nodup_keys_collected files, ?_, ?_, ?_, ?_⟩
  · intro N
    rw [collected, mem_keys_foldl_declare]
    simp only [StructMap.keys, List.map_nil, List.not_mem_nil, false_or, List.mem_map,
      Prod.exists, exists_and_right, exists_eq_right]
    constructor
    · rintro ⟨p, hp⟩; exact ⟨p, (mem_structDecls_iff files N p).mp hp⟩
    · rintro ⟨p, hp⟩; exact ⟨p, (mem_structDecls_iff files N p).mpr hp⟩
  · intro N v hv
    have hf := flags_foldl_declare _ [] (by intro k v h; cases h) N v hv
    have hk : N ∈ (structDecls (allNodes files)).map Prod.fst := by
      have := (StructMap.get_isSome_iff (collected files) N).mp ⟨v, hv⟩
      rw [collected, mem_keys_foldl_declare] at this
      simpa [StructMap.keys] using this
    obtain ⟨pre, p, post, he, hn⟩ := exists_last_of_mem _ N hk
    have hg : (collected files).get N = some ⟨p, false, false⟩ := by
      rw [collected, he]; exact get_foldl_declare_last pre post [] N p hn
    rw [hv] at hg
    have hp : v.pos = p := by cases hg; rfl
    refine ⟨hf.1, hf.2, ?_, pre, post, by rw [hp]; exact he, hn⟩
    rw [← mem_structDecls_iff, he, hp]
    simp
  · intro m0 spec hns
    cases spec with
    | ImportSpec path => rfl
    | ValueSpec ns t => rfl
    | TypeSpec p N a t =>
      cases t with
      | StructType fs => exact absurd ⟨p, N, a, fs, rfl⟩ hns
      | _ => rfl
  · intro m0 p N a fs; rfl

/-- Witness of C9: the file
`type T struct { In struct{ A int } }; var v struct{ B int }; type A = T; type I interface{};
type Id int64` yields the single record `T`; the test-data file yields its four structs and
no record for the interface `Validator`; `resource.go` yields `ResourceMapping` only. -/
theorem collectPass_spec_witness :
    collectPass shapesPass.Files [] = .ok [("T", ⟨17, false, false⟩)] ∧
    collectPass [exampleFile] [] =
      .ok [("CreateEtcdCluster", ⟨198, false, false⟩),
        ("TruncateTableRequest", ⟨535, false, false⟩),
        ("MigrateDatabaseRequest", ⟨637, false, false⟩),
        ("ResetPasswordRequest", ⟨677, false, false⟩)] ∧
    collectPass [resourceFile] [] = .ok [("ResourceMapping", ⟨62, false, false⟩)] ∧
    (∃ m, collectPass shapesPass.Files [] = .ok m ∧ m.keys.Nodup ∧
      ∀ N, N ∈ m.keys ↔ ∃ p, DeclaresStruct shapesPass.Files N p) :=
  ⟨rfl, rfl, rfl,
    (collectPass_spec shapesPass.Files).imp fun _ h => ⟨h.1, h.2.1, h.2.2.1⟩⟩

/-! ## Type declarations below the top level. -/

/-- C10 (counterexample). On `package p; func f() { type Local struct{} }` the only
top-level declaration of the file is the function `f`, and the struct type `Local` is
declared by a type declaration statement inside its body; the collection pass nevertheless
records `Local`, and `run` emits two diagnostics for it. -/
theorem local_struct_is_collected :
    (∀ f ∈ localStructPass.Files, ∀ n ∈ f.children, ∃ d, n.kind = .FuncDecl d) ∧
    collectPass localStructPass.Files [] = .ok [("Local", ⟨28, false, false⟩)] ∧
    emitted (run localStructPass id) =
      [⟨28, validateMessage "Local"⟩, ⟨28, resourceMappingsMessage "Local"⟩] := by
  refine ⟨?_, rfl, rfl⟩
  intro f hf n hn
  simp only [localStructPass, List.mem_singleton] at hf
  subst hf
  simp only [Node.children, List.mem_singleton] at hn
  subst hn
  exact ⟨_, rfl⟩

/-- C10 (amended). Type declarations are collected wherever they occur in a file, not only
at top level: a `GenDecl` node at any depth of the syntax tree (for example in a type
declaration statement inside a function body) with a spec that declares the name `N` with
a struct type yields a registry record for `N` with both flags false, and in every run
that completes, no method declaration of the input having a receiver that resolves to `N`,
`N` gets its two diagnostics like a top-level struct. -/
theorem collectPass_collects_at_any_depth (files : List Node) (f n : Node) (hf : f ∈ files)
    (hw : Within n f) (Specs : List Spec) (hk : n.kind = .GenDecl Specs)
    (p : token.Pos) (N : String) (a : Bool) (fs : List ast.Field)
    (hs : Spec.TypeSpec p N a (.StructType fs) ∈ Specs) :
    ∃ m v, collectPass files [] = .ok m ∧ m.get N = some v ∧
      v.hasValidate = false ∧ v.hasResourceMappings = false ∧
      ∀ (ti : types.Info) (range : RangeOrder) (res : RunResult), range.Valid →
        run ⟨files, ti⟩ range = .ok res →
        (∀ d cs, Node.mk (.FuncDecl d) cs ∈ allNodes files → getReceiverName ti d ≠ N) →
        diagnosticsFor N res.Diagnostics =
          [⟨v.pos, validateMessage N⟩, ⟨v.pos, resourceMappingsMessage N⟩] := by
  have hd : DeclaresStruct files N p := ⟨f, hf, n, hw, Specs, hk, a, fs, hs⟩
  have hmem : N ∈ (collected files).keys := by
    rw [collected, mem_keys_foldl_declare]
    right
    exact List.mem_map_of_mem Prod.fst ((mem_structDecls_iff files N p).mpr hd)
  obtain ⟨v, hv⟩ := (StructMap.get_isSome_iff (collected files) N).mpr hmem
  have hfl := flags_foldl_declare _ [] (by intro k v h; cases h) N v hv
  refine ⟨collected files, v, collectPass_eq files, hv, hfl.1, hfl.2, ?_⟩
  intro ti range res hr hrun hno
  exact diagnosticsFor_no_methods ⟨files, ti⟩ range hr res hrun (collected files)
    (collectPass_eq files) N v hv hno

/-- Witness of C10 (amended): the declaration of `Local` inside the body of `f`. -/
theorem collectPass_collects_at_any_depth_witness :
    ∃ m v, collectPass localStructPass.Files [] = .ok m ∧ m.get "Local" = some v ∧
      v.hasValidate = false ∧ v.hasResourceMappings = false :=
  (collectPass_collects_at_any_depth localStructPass.Files
    (.mk (.Other "File")
      [ .mk (.FuncDecl ⟨none, "f", ⟨[], none⟩⟩)
          [.mk (.Other "BlockStmt") [.mk (.Other "DeclStmt") [structDecl 28 "Local" []]]] ])
    (structDecl 28 "Local" [])
    (List.mem_singleton.mpr rfl)
    (Within.child _ _ _ _ (List.mem_singleton.mpr rfl)
      (Within.child _ _ _ _ (List.mem_singleton.mpr rfl)
        (Within.child _ _ _ _ (List.mem_singleton.mpr rfl)
          (Within.child _ _ _ _ (List.mem_singleton.mpr rfl) (Within.self _)))))
    [.TypeSpec 28 "Local" false (.StructType [])] rfl 28 "Local" false []
    (List.mem_singleton.mpr rfl)).imp
    fun _ h => h.imp fun _ h2 => ⟨h2.1, h2.2.1, h2.2.2.1, h2.2.2.2.1⟩

/-- A struct without methods gets its two diagnostics whenever the run completes: if `run`
returns, `S` was collected with record `v`, and no method declaration has a receiver that
resolves to `S`, then the diagnostics naming `S` are the `Validate` one followed by the
`GetResourceMappings` one, both at the position of the record. -/
theorem run_no_methods_two_diagnostics (pass : analysis.Pass) (range : RangeOrder)
    (hr : range.Valid) (res : RunResult) (hrun : run pass range = .ok res)
    (m : StructMap) (hm : collectPass pass.Files [] = .ok m)
    (S : String) (v : TokenInfo) (hv : m.get S = some v)
    (hno : ∀ d cs, Node.mk (.FuncDecl d) cs ∈ allNodes pass.Files →
      getReceiverName pass.TypesInfo d ≠ S) :
    diagnosticsFor S res.Diagnostics =
      [⟨v.pos, validateMessage S⟩, ⟨v.pos, resourceMappingsMessage S⟩] :=
  diagnosticsFor_no_methods pass range hr res hrun m hm S v hv hno

/-- Witness: the struct `A` of `package p; type A struct{}; type B struct{}`. -/
theorem run_no_methods_two_diagnostics_witness :
    diagnosticsFor "A" (emitted (run twoStructsPass List.reverse)) =
      [⟨17, validateMessage "A"⟩, ⟨17, resourceMappingsMessage "A"⟩] :=
  run_no_methods_two_diagnostics twoStructsPass List.reverse (fun m => List.reverse_perm m)
    ⟨[("A", ⟨17, false, false⟩), ("B", ⟨34, false, false⟩)],
      [⟨34, validateMessage "B"⟩, ⟨34, resourceMappingsMessage "B"⟩,
       ⟨17, validateMessage "A"⟩, ⟨17, resourceMappingsMessage "A"⟩], none, none⟩ rfl
    [("A", ⟨17, false, false⟩), ("B", ⟨34, false, false⟩)] rfl "A" ⟨17, false, false⟩ rfl
    (by
      intro d cs hmem
      simp [allNodes, preorderList, Node.preorder, twoStructsPass, structDecl] at hmem)

/-- A struct whose only capability is a conforming `Validate` gets one diagnostic whenever
the run completes: if `run` returns, `S` was collected with record `v`, the input has a
method `Validate` on `S` accepted by `isValidValidateSignature`, and no method declaration
whose receiver resolves to `S` is named `GetResourceMappings`, then the only diagnostic
naming `S` is the `GetResourceMappings` one, at the position of the record. -/
theorem run_validate_only_one_diagnostic (pass : analysis.Pass) (range : RangeOrder)
    (hr : range.Valid) (res : RunResult) (hrun : run pass range = .ok res)
    (m : StructMap) (hm : collectPass pass.Files [] = .ok m)
    (S : String) (hS : S ≠ "") (v : TokenInfo) (hv : m.get S = some v)
    (hval : HasMethod pass S "Validate" isValidValidateSignature)
    (hno : ∀ d cs, Node.mk (.FuncDecl d) cs ∈ allNodes pass.Files →
      getReceiverName pass.TypesInfo d = S → d.Name ≠ "GetResourceMappings") :
    diagnosticsFor S res.Diagnostics = [⟨v.pos, resourceMappingsMessage S⟩] := by
  rw [collectPass_eq] at hm
  have hm2 : m = collected pass.Files := by
    simp only [Except.ok.injEq] at hm; exact hm.symm
  subst hm2
  rw [diagnosticsFor_of_run_ok pass range hr res hrun S, hv]
  have hf := flags_foldl_declare _ [] (by intro k v h; cases h) S v hv
  have h1 := any_providesValidate_of_hasMethod pass S hS hval
  have h2 : (allNodes pass.Files).any (providesResourceMappings pass.TypesInfo S) = false := by
    rw [List.any_eq_false]
    intro n hn
    obtain ⟨k, cs⟩ := n
    cases k with
    | GenDecl s => simp [providesResourceMappings, Node.kind]
    | Other s => simp [providesResourceMappings, Node.kind]
    | FuncDecl d =>
      intro hc
      simp only [providesResourceMappings, Node.kind, Bool.and_eq_true,
        decide_eq_true_eq] at hc
      exact hno d cs hn hc.1.1.2 hc.1.2
  simp [entryDiagnostics, mark, h1, h2, hf.2]

/-- Witness: the struct `S` of `package p; type S struct{}; func (s S) Validate(x int) error`. -/
theorem run_validate_only_one_diagnostic_witness :
    diagnosticsFor "S" (emitted (run paramValidatePass id)) =
      [⟨17, resourceMappingsMessage "S"⟩] :=
  run_validate_only_one_diagnostic paramValidatePass id (fun m => List.Perm.refl m)
    ⟨[("S", ⟨17, true, false⟩)], [⟨17, resourceMappingsMessage "S"⟩], none, none⟩ rfl
    [("S", ⟨17, false, false⟩)] rfl "S" (by decide) ⟨17, false, false⟩ rfl
    ⟨⟨some [.mk ["s"] (.Ident 37 "S")], "Validate",
        ⟨[.mk ["x"] (.Ident 51 "int")], some [.mk [] (.Ident 56 "error")]⟩⟩,
      [.mk (.Other "BlockStmt") [.mk (.Other "ReturnStmt") []]], [.mk [] (.Ident 56 "error")],
      by simp [allNodes, preorderList, Node.preorder, paramValidatePass, method, structDecl],
      rfl, ⟨_, _, rfl, rfl⟩, rfl, rfl⟩
    (by
      intro d cs hmem _
      simp [allNodes, preorderList, Node.preorder, paramValidatePass, method, structDecl]
        at hmem
      obtain ⟨rfl, _⟩ := hmem
      decide)

/-! ## Maps with the same reads, and scanning passes that observe the same. -/

theorem StructMap.set_set (m : StructMap) (k : String) (v w : TokenInfo) :
    (m.set k v).set k w = m.set k w := by
  induction m with
  | nil => simp [StructMap.set]
  | cons e rest ih =>
    obtain ⟨k1, v1⟩ := e
    by_cases h : k1 = k
    · simp [StructMap.set, h]
    · simp [StructMap.set, h, ih]

/-- Two maps with the same distinct keys in the same order and the same reads are equal. -/
theorem StructMap.ext_of_keys (m m2 : StructMap) (hk : m.keys = m2.keys) (hnd : m.keys.Nodup)
    (hg : ∀ S, m.get S = m2.get S) : m = m2 := by
  induction m generalizing m2 with
  | nil =>
    cases m2 with
    | nil => rfl
    | cons e r => simp [StructMap.keys] at hk
  | cons e rest ih =>
    cases m2 with
    | nil => simp [StructMap.keys] at hk
    | cons e2 rest2 =>
      obtain ⟨k1, v1⟩ := e
      obtain ⟨k2, v2⟩ := e2
      simp only [StructMap.keys, List.map_cons, List.cons.injEq] at hk
      obtain ⟨hk1, hk2⟩ := hk
      subst hk1
      simp only [StructMap.keys, List.map_cons, List.nodup_cons] at hnd
      have h1 := hg k1
      simp only [StructMap.get, if_true, Option.some.injEq] at h1
      subst h1
      have hrest : rest = rest2 := by
        apply ih rest2 hk2 hnd.2
        intro S
        by_cases hS : k1 = S
        · subst hS
          have a1 : StructMap.get rest k1 = none :=
            (StructMap.get_eq_none_iff rest k1).mpr hnd.1
          have a2 : StructMap.get rest2 k1 = none := by
            rw [StructMap.get_eq_none_iff]
            show k1 ∉ List.map Prod.fst rest2
            rw [← hk2]; exact hnd.1
          rw [a1, a2]
        · have := hg S
          simpa [StructMap.get, hS] using this
      rw [hrest]

/-- Two maps with distinct keys and the same reads hold the same entries. -/
theorem StructMap.perm_of_get (m m2 : StructMap) (h1 : m.keys.Nodup) (h2 : m2.keys.Nodup)
    (hg : ∀ S, m.get S = m2.get S) : m.Perm m2 := by
  rw [List.perm_ext_iff_of_nodup (List.Nodup.of_map Prod.fst h1) (List.Nodup.of_map Prod.fst h2)]
  rintro ⟨k, v⟩
  rw [← StructMap.get_eq_some_iff_mem m h1, ← StructMap.get_eq_some_iff_mem m2 h2, hg k]

theorem mark_congr (ti : types.Info) (ns ns2 : List Node) (S : String) (v : TokenInfo)
    (hv : ns.any (providesValidate ti S) = ns2.any (providesValidate ti S))
    (hg : ns.any (providesResourceMappings ti S) = ns2.any (providesResourceMappings ti S)) :
    mark ti ns S v = mark ti ns2 S v := by
  simp [mark, hv, hg]

theorem faultsAt_congr_keys (ti : types.Info) (k1 k2 : List String)
    (h : ∀ x, x ∈ k1 ↔ x ∈ k2) (n : Node) : faultsAt ti k1 n = faultsAt ti k2 n := by
  obtain ⟨k, cs⟩ := n
  cases k with
  | FuncDecl d => simp [faultsAt, Node.kind, h]
  | GenDecl s => rfl
  | Other s => rfl

/-- The scanning pass over two node sequences, from two maps with the same entries: when the
sequences agree on whether some node faults and on which capabilities are provided to each
name, both passes panic or neither does, and the resulting maps have the same reads and the
same entries. -/
theorem visitAll_inspectFunc_perm (ti : types.Info) (ns ns2 : List Node) (m m2 : StructMap)
    (hp : m.Perm m2) (hnd : m.keys.Nodup)
    (hf : ns.any (faultsAt ti m.keys) = ns2.any (faultsAt ti m.keys))
    (hv : ∀ S, ns.any (providesValidate ti S) = ns2.any (providesValidate ti S))
    (hg : ∀ S, ns.any (providesResourceMappings ti S) =
      ns2.any (providesResourceMappings ti S)) :
    (∀ e, visitAll (inspectFunc ti) ns m = .error e ↔
      visitAll (inspectFunc ti) ns2 m2 = .error e) ∧
    (∀ r r2, visitAll (inspectFunc ti) ns m = .ok r → visitAll (inspectFunc ti) ns2 m2 = .ok r2 →
      (∀ S, r.get S = r2.get S) ∧ r.Perm r2 ∧ r2.keys = m2.keys ∧ r.keys = m.keys) := by
  have hkp : m.keys.Perm m2.keys := hp.map Prod.fst
  have hnd2 : m2.keys.Nodup := hkp.nodup_iff.mp hnd
  have hf2 : ns2.any (faultsAt ti m.keys) = ns2.any (faultsAt ti m2.keys) := by
    congr 1
    funext n
    exact faultsAt_congr_keys ti _ _ (fun x => hkp.mem_iff) n
  constructor
  · intro e
    rw [fault_eq e, visitAll_inspectFunc_error_iff, visitAll_inspectFunc_error_iff, hf, hf2]
  · intro r r2 h1 h2
    obtain ⟨hk1, hg1⟩ := visitAll_inspectFunc_ok ti ns m r h1
    obtain ⟨hk2, hg2⟩ := visitAll_inspectFunc_ok ti ns2 m2 r2 h2
    have hget : ∀ S, r.get S = r2.get S := by
      intro S
      rw [hg1 S, hg2 S, StructMap.get_perm m m2 hp hnd2 S]
      cases m2.get S with
      | none => rfl
      | some v => simp only [Option.map_some']; rw [mark_congr ti ns ns2 S v (hv S) (hg S)]
    exact ⟨hget, StructMap.perm_of_get r r2 (hk1 ▸ hnd) (hk2 ▸ hnd2) hget, hk2, hk1⟩

/-- The scanning pass over two node sequences from the same map gives the same result when
the sequences agree on whether some node faults and on which capabilities are provided. -/
theorem visitAll_inspectFunc_congr (ti : types.Info) (ns ns2 : List Node) (m : StructMap)
    (hnd : m.keys.Nodup)
    (hf : ns.any (faultsAt ti m.keys) = ns2.any (faultsAt ti m.keys))
    (hv : ∀ S, ns.any (providesValidate ti S) = ns2.any (providesValidate ti S))
    (hg : ∀ S, ns.any (providesResourceMappings ti S) =
      ns2.any (providesResourceMappings ti S)) :
    visitAll (inspectFunc ti) ns m = visitAll (inspectFunc ti) ns2 m := by
  obtain ⟨he, hok⟩ := visitAll_inspectFunc_perm ti ns ns2 m m (List.Perm.refl m) hnd hf hv hg
  cases h1 : visitAll (inspectFunc ti) ns m with
  | error e => exact ((he e).mp h1).symm
  | ok r =>
    cases h2 : visitAll (inspectFunc ti) ns2 m with
    | error e => rw [(he e).mpr h2] at h1; cases h1
    | ok r2 =>
      obtain ⟨hget, _, hk2, hk1⟩ := hok r r2 h1 h2
      rw [StructMap.ext_of_keys r r2 (hk1.trans hk2.symm) (hk1 ▸ hnd) hget]

/-! ## Removing top-level declarations from a file. -/

theorem preorderList_append (a b : List Node) :
    preorderList (a ++ b) = preorderList a ++ preorderList b := by
  induction a with
  | nil => simp [preorderList]
  | cons x xs ih => simp [preorderList, ih]

theorem preorderList_eq_flatMap (ns : List Node) :
    preorderList ns = ns.flatMap Node.preorder := by
  induction ns with
  | nil => rfl
  | cons x xs ih => simp [preorderList, ih]

theorem allNodes_file (fs1 fs2 : List Node) (k : NodeKind) (ds : List Node) :
    allNodes (fs1 ++ Node.mk k ds :: fs2) =
      preorderList fs1 ++ (Node.mk k ds :: preorderList ds) ++ preorderList fs2 := by
  simp [allNodes, preorderList_append, preorderList, Node.preorder]

theorem structDecls_append (a b : List Node) :
    structDecls (a ++ b) = structDecls a ++ structDecls b := by
  simp [structDecls]

/-- The nodes met with some top-level declarations removed from a file: a predicate that
reads only the kind of a node holds somewhere before the removal exactly when it holds
somewhere after it or on the removed nodes. -/
theorem any_allNodes_insert (p : Node → Bool)
    (hp : ∀ k cs cs2, p (Node.mk k cs) = p (Node.mk k cs2))
    (fs1 fs2 : List Node) (k : NodeKind) (ds1 ys ds2 : List Node) :
    (allNodes (fs1 ++ Node.mk k (ds1 ++ ys ++ ds2) :: fs2)).any p =
      ((allNodes (fs1 ++ Node.mk k (ds1 ++ ds2) :: fs2)).any p || (preorderList ys).any p) := by
  rw [allNodes_file, allNodes_file]
  simp only [preorderList_append, List.any_append, List.any_cons,
    hp k (ds1 ++ ys ++ ds2) (ds1 ++ ds2)]
  cases (preorderList fs1).any p <;> cases p (Node.mk k (ds1 ++ ds2)) <;>
    cases (preorderList ds1).any p <;> cases (preorderList ys).any p <;>
    cases (preorderList ds2).any p <;> cases (preorderList fs2).any p <;> rfl

theorem structDecls_allNodes_insert (fs1 fs2 : List Node) (k : NodeKind)
    (ds1 ys ds2 : List Node) (hy : structDecls (preorderList ys) = []) :
    structDecls (allNodes (fs1 ++ Node.mk k (ds1 ++ ys ++ ds2) :: fs2)) =
      structDecls (allNodes (fs1 ++ Node.mk k (ds1 ++ ds2) :: fs2)) := by
  rw [allNodes_file, allNodes_file]
  have h2 : ∀ (n : Node) (l : List Node), structDecls (n :: l) =
      structDeclsOfNode n ++ structDecls l := fun n l => by simp [structDecls]
  simp only [preorderList_append, structDecls_append, h2, hy, List.cons_append]
  simp [structDeclsOfNode, Node.kind]

/-- The result of `run` depends on the files only through the struct types they declare, in
order, and through whether some node faults and which capabilities are provided. -/
theorem run_congr (files1 files2 : List Node) (ti : types.Info) (range : RangeOrder)
    (hc : structDecls (allNodes files1) = structDecls (allNodes files2))
    (hf : ∀ keys, (allNodes files1).any (faultsAt ti keys) =
      (allNodes files2).any (faultsAt ti keys))
    (hv : ∀ S, (allNodes files1).any (providesValidate ti S) =
      (allNodes files2).any (providesValidate ti S))
    (hg : ∀ S, (allNodes files1).any (providesResourceMappings ti S) =
      (allNodes files2).any (providesResourceMappings ti S)) :
    run ⟨files1, ti⟩ range = run ⟨files2, ti⟩ range := by
  rw [run_eq, run_eq]
  have hcol : collected files1 = collected files2 := by simp [collected, hc]
  simp only
  rw [hcol, visitAll_inspectFunc_congr ti (allNodes files1) (allNodes files2) (collected files2)
    (nodup_keys_collected files2) (hf _) hv hg]

theorem faultsAt_kind (ti : types.Info) (keys : List String) (k : NodeKind)
    (cs cs2 : List Node) : faultsAt ti keys (Node.mk k cs) = faultsAt ti keys (Node.mk k cs2) :=
  rfl

theorem providesValidate_kind (ti : types.Info) (S : String) (k : NodeKind)
    (cs cs2 : List Node) :
    providesValidate ti S (Node.mk k cs) = providesValidate ti S (Node.mk k cs2) := rfl

theorem providesResourceMappings_kind (ti : types.Info) (S : String) (k : NodeKind)
    (cs cs2 : List Node) :
    providesResourceMappings ti S (Node.mk k cs) =
      providesResourceMappings ti S (Node.mk k cs2) := rfl

/-- Removing top-level declarations from a file does not change the result of `run` when
the removed nodes declare no struct type and, for each predicate the scanner's outcome
depends on, the predicate holds on no removed node or holds on a node that stays. -/
theorem run_remove (fs1 fs2 : List Node) (k : NodeKind) (ds1 ys ds2 : List Node)
    (ti : types.Info) (range : RangeOrder)
    (hy : structDecls (preorderList ys) = [])
    (hf : ∀ keys, (preorderList ys).any (faultsAt ti keys) = true →
      (allNodes (fs1 ++ Node.mk k (ds1 ++ ds2) :: fs2)).any (faultsAt ti keys) = true)
    (hv : ∀ S, (preorderList ys).any (providesValidate ti S) = true →
      (allNodes (fs1 ++ Node.mk k (ds1 ++ ds2) :: fs2)).any (providesValidate ti S) = true)
    (hg : ∀ S, (preorderList ys).any (providesResourceMappings ti S) = true →
      (allNodes (fs1 ++ Node.mk k (ds1 ++ ds2) :: fs2)).any
        (providesResourceMappings ti S) = true) :
    run ⟨fs1 ++ Node.mk k (ds1 ++ ys ++ ds2) :: fs2, ti⟩ range =
      run ⟨fs1 ++ Node.mk k (ds1 ++ ds2) :: fs2, ti⟩ range := by
  have key : ∀ (p : Node → Bool), (∀ k cs cs2, p (Node.mk k cs) = p (Node.mk k cs2)) →
      ((preorderList ys).any p = true →
        (allNodes (fs1 ++ Node.mk k (ds1 ++ ds2) :: fs2)).any p = true) →
      (allNodes (fs1 ++ Node.mk k (ds1 ++ ys ++ ds2) :: fs2)).any p =
        (allNodes (fs1 ++ Node.mk k (ds1 ++ ds2) :: fs2)).any p := by
    intro p hp himp
    rw [any_allNodes_insert p hp]
    cases hb : (preorderList ys).any p with
    | false => simp
    | true => simp [himp hb]
  apply run_congr
  · exact structDecls_allNodes_insert fs1 fs2 k ds1 ys ds2 hy
  · intro keys; exact key _ (faultsAt_kind ti keys) (hf keys)
  · intro S; exact key _ (providesValidate_kind ti S) (hv S)
  · intro S; exact key _ (providesResourceMappings_kind ti S) (hg S)

/-! ## The scanner creates no records. -/

theorem resolvesTo_of_getReceiverName (ti : types.Info) (d : FuncDecl) (S : String)
    (h : getReceiverName ti d = S) (hS : S ≠ "") : ResolvesTo ti d S := by
  unfold getReceiverName at h
  cases hr : d.Recv with
  | none => rw [hr] at h; exact absurd h.symm hS
  | some l =>
    cases l with
    | nil => rw [hr] at h; exact absurd h.symm hS
    | cons r0 rest =>
      rw [hr] at h
      simp only at h
      cases ht : ti.TypeOf r0.Type_ with
      | none => rw [ht] at h; exact absurd h.symm hS
      | some t =>
        cases t with
        | Named N => rw [ht] at h; simp only at h; subst h; exact ⟨r0, rest, hr, ht⟩
        | Pointer e => rw [ht] at h; exact absurd h.symm hS
        | Other k => rw [ht] at h; exact absurd h.symm hS

theorem inspectFunc_of_receiverName_empty (ti : types.Info) (d : FuncDecl) (cs : List Node)
    (m : StructMap) (h : getReceiverName ti d = "") :
    inspectFunc ti (some (.mk (.FuncDecl d) cs)) m = .ok (m, true) := by
  simp [inspectFunc, h]

theorem inspectFunc_of_not_key (ti : types.Info) (d : FuncDecl) (cs : List Node)
    (m : StructMap) (h : getReceiverName ti d ∉ m.keys) :
    inspectFunc ti (some (.mk (.FuncDecl d) cs)) m = .ok (m, true) := by
  simp only [inspectFunc]
  by_cases hR : getReceiverName ti d = ""
  · simp [hR]
  · simp only [hR, if_false]
    rw [(StructMap.get_eq_none_iff m _).mpr h]

theorem inspectFunc_of_not_funcDecl (ti : types.Info) (n : Node) (m : StructMap)
    (h : ∀ d, n.kind ≠ .FuncDecl d) : inspectFunc ti (some n) m = .ok (m, true) := by
  obtain ⟨k, cs⟩ := n
  cases k with
  | FuncDecl d => exact absurd rfl (h d)
  | GenDecl s => rfl
  | Other s => rfl

theorem run_structMap_keys (pass : analysis.Pass) (range : RangeOrder) (res : RunResult)
    (h : run pass range = .ok res) :
    res.structMap.keys = (collected pass.Files).keys ∧
    ∀ S, res.structMap.get S =
      ((collected pass.Files).get S).map (mark pass.TypesInfo (allNodes pass.Files) S) := by
  rw [run_eq] at h
  cases hs : visitAll (inspectFunc pass.TypesInfo) (allNodes pass.Files)
      (collected pass.Files) with
  | error e => rw [hs] at h; cases h
  | ok scanned =>
    rw [hs] at h
    simp only [Except.ok.injEq] at h
    subst h
    exact visitAll_inspectFunc_ok _ _ _ _ hs

/-- C11. The scanner creates no records and attributes by exact key match only.  Every call
of `inspectFunc` that returns, every scanning pass that completes and every run that
completes leave the key list of the registry as the collection pass made it; a method
declaration changes the record read under a name `S` only if its receiver resolves to the
named type `S` and `S` is a key; and a node that is no function declaration, a declaration
without receiver, one whose receiver type is unresolved or not a named type, and one whose
resolved name is not a key all leave the registry exactly as it was, without panic. -/
theorem scanner_creates_no_records :
    (∀ (ti : types.Info) (n : Node) (m m1 : StructMap) (b : Bool),
      inspectFunc ti (some n) m = .ok (m1, b) → m1.keys = m.keys) ∧
    (∀ (ti : types.Info) (files : List Node) (m m1 : StructMap),
      scanPass ti files m = .ok m1 → m1.keys = m.keys) ∧
    (∀ (pass : analysis.Pass) (range : RangeOrder) (res : RunResult) (collected : StructMap),
      collectPass pass.Files [] = .ok collected → run pass range = .ok res →
      res.structMap.keys = collected.keys) ∧
    (∀ (ti : types.Info) (d : FuncDecl) (cs : List Node) (m m1 : StructMap) (b : Bool)
      (S : String),
      inspectFunc ti (some (.mk (.FuncDecl d) cs)) m = .ok (m1, b) → m1.get S ≠ m.get S →
      ResolvesTo ti d S ∧ S ∈ m.keys) ∧
    (∀ (ti : types.Info) (n : Node) (m : StructMap), (∀ d, n.kind ≠ .FuncDecl d) →
      inspectFunc ti (some n) m = .ok (m, true)) ∧
    (∀ (ti : types.Info) (d : FuncDecl) (cs : List Node) (m : StructMap),
      (d.Recv = none ∨ d.Recv = some []) →
      inspectFunc ti (some (.mk (.FuncDecl d) cs)) m = .ok (m, true)) ∧
    (∀ (ti : types.Info) (d : FuncDecl) (cs : List Node) (m : StructMap)
      (r0 : ast.Field) (rest : List ast.Field),
      d.Recv = some (r0 :: rest) → (∀ N, ti.TypeOf r0.Type_ ≠ some (.Named N)) →
      inspectFunc ti (some (.mk (.FuncDecl d) cs)) m = .ok (m, true)) ∧
    (∀ (ti : types.Info) (d : FuncDecl) (cs : List Node) (m : StructMap),
      getReceiverName ti d ∉ m.keys →
      inspectFunc ti (some (.mk (.FuncDecl d) cs)) m = .ok (m, true)) := by
  refine ⟨?_, ?_, ?_, ?_, ?_, ?_, ?_, ?_⟩
  · intro ti n m m1 b h
    exact (inspectFunc_ok ti n m m1 b h).2.1
  · intro ti files m m1 h
    rw [scanPass_eq_visitAll] at h
    exact (visitAll_inspectFunc_ok ti _ m m1 h).1
  · intro pass range res c hc hrun
    rw [collectPass_eq] at hc
    simp only [Except.ok.injEq] at hc
    rw [← hc]
    exact (run_structMap_keys pass range res hrun).1
  · intro ti d cs m m1 b S h hne
    obtain ⟨_, _, hg⟩ := inspectFunc_ok ti _ m m1 b h
    rw [hg S] at hne
    cases hget : m.get S with
    | none => rw [hget] at hne; exact absurd rfl hne
    | some v =>
      have hmem : S ∈ m.keys := (StructMap.get_isSome_iff m S).mp ⟨v, hget⟩
      refine ⟨?_, hmem⟩
      by_cases hp : providesValidate ti S (.mk (.FuncDecl d) cs) = true
      · simp only [providesValidate, Node.kind, Bool.and_eq_true, decide_eq_true_eq] at hp
        exact resolvesTo_of_getReceiverName ti d S hp.1.1.2 hp.1.1.1
      · by_cases hq : providesResourceMappings ti S (.mk (.FuncDecl d) cs) = true
        · simp only [providesResourceMappings, Node.kind, Bool.and_eq_true,
            decide_eq_true_eq] at hq
          exact resolvesTo_of_getReceiverName ti d S hq.1.1.2 hq.1.1.1
        · exfalso
          apply hne
          rw [hget, map_mark_of_not_provides ti _ S _ (by simpa using hp) (by simpa using hq)]
  · intro ti n m h
    exact inspectFunc_of_not_funcDecl ti n m h
  · intro ti d cs m h
    apply inspectFunc_of_receiverName_empty
    rcases h with h | h <;> simp [getReceiverName, h]
  · intro ti d cs m r0 rest hr hn
    apply inspectFunc_of_receiverName_empty
    unfold getReceiverName
    rw [hr]
    cases ht : ti.TypeOf r0.Type_ with
    | none => simp [ht]
    | some t =>
      cases t with
      | Named N => exact absurd ht (hn N)
      | Pointer e => simp [ht]
      | Other k => simp [ht]
  · intro ti d cs m h
    exact inspectFunc_of_not_key ti d cs m h

/-- Witness of C11: on `type S struct{}; type Id int64; func (i Id) Validate() error;
func helper() error` the method on the non-struct type `Id` and the plain function leave
the registry `S` as collected, and the completed run keeps the single key `S`. -/
theorem scanner_creates_no_records_witness :
    collectPass otherReceiverPass.Files [] = .ok [("S", ⟨17, false, false⟩)] ∧
    inspectFunc otherReceiverPass.TypesInfo
      (some (method "i" 52 "Id" "Validate" [] (some [.mk [] (.Ident 67 "error")])
        [.mk (.Other "ReturnStmt") []])) [("S", ⟨17, false, false⟩)]
      = .ok ([("S", ⟨17, false, false⟩)], true) ∧
    inspectFunc otherReceiverPass.TypesInfo
      (some (.mk (.FuncDecl ⟨none, "helper", ⟨[], some [.mk [] (.Ident 103 "error")]⟩⟩)
        [.mk (.Other "BlockStmt") [.mk (.Other "ReturnStmt") []]])) [("S", ⟨17, false, false⟩)]
      = .ok ([("S", ⟨17, false, false⟩)], true) ∧
    StructMap.keys [("S", (⟨17, false, false⟩ : TokenInfo))] = ["S"] :=
  ⟨rfl,
    scanner_creates_no_records.2.2.2.2.2.2.2 otherReceiverPass.TypesInfo
      ⟨some [.mk ["i"] (.Ident 52 "Id")], "Validate", ⟨[], some [.mk [] (.Ident 67 "error")]⟩⟩
      [.mk (.Other "BlockStmt") [.mk (.Other "ReturnStmt") []]] [("S", ⟨17, false, false⟩)]
      (by decide),
    scanner_creates_no_records.2.2.2.2.2.1 otherReceiverPass.TypesInfo
      ⟨none, "helper", ⟨[], some [.mk [] (.Ident 103 "error")]⟩⟩
      [.mk (.Other "BlockStmt") [.mk (.Other "ReturnStmt") []]] [("S", ⟨17, false, false⟩)]
      (Or.inl rfl),
    scanner_creates_no_records.2.2.1 otherReceiverPass id
      ⟨[("S", ⟨17, false, false⟩)],
        [⟨17, validateMessage "S"⟩, ⟨17, resourceMappingsMessage "S"⟩], none, none⟩
      [("S", ⟨17, false, false⟩)] rfl rfl⟩

/-! ## Idempotence of a scanning step. -/

/-- Applying `inspectFunc` for the same node to the map it returned changes nothing more. -/
theorem inspectFunc_idem (ti : types.Info) (n : Node) (m m1 : StructMap) (b : Bool)
    (h : inspectFunc ti (some n) m = .ok (m1, b)) :
    inspectFunc ti (some n) m1 = .ok (m1, true) := by
  have hb : b = true := inspectFunc_true ti n m m1 b h
  subst hb
  obtain ⟨k, cs⟩ := n
  cases k with
  | GenDecl Specs => rfl
  | Other s => rfl
  | FuncDecl d =>
    simp only [inspectFunc] at h ⊢
    by_cases hR : getReceiverName ti d = ""
    · simp [hR]
    · simp only [hR, if_false] at h ⊢
      cases hg : m.get (getReceiverName ti d) with
      | none =>
        simp only [hg, Except.ok.injEq, Prod.mk.injEq, and_true] at h
        subst h
        rw [hg]
      | some t =>
        simp only [hg] at h
        cases hV : nameAndSignature d "Validate" isValidValidateSignature with
        | error e => rw [hV] at h; cases h
        | ok bv =>
          rw [hV] at h
          cases bv with
          | true =>
            simp only [Except.ok.injEq, Prod.mk.injEq, and_true] at h
            subst h
            rw [StructMap.get_set_self]
            simp only [StructMap.set_set]
          | false =>
            simp only at h
            cases hG : nameAndSignature d "GetResourceMappings"
                isValidResourceMappingsSignature with
            | error e => rw [hG] at h; cases h
            | ok bg =>
              rw [hG] at h
              cases bg with
              | true =>
                simp only [Except.ok.injEq, Prod.mk.injEq, and_true] at h
                subst h
                rw [StructMap.get_set_self]
                simp only [StructMap.set_set]
              | false =>
                simp only [Except.ok.injEq, Prod.mk.injEq, and_true] at h
                subst h
                rw [hg]

/-! ## Monotone flags. -/

theorem mark_flags (ti : types.Info) (ns : List Node) (S : String) (v : TokenInfo) :
    (mark ti ns S v).pos = v.pos ∧
    (v.hasValidate = true → (mark ti ns S v).hasValidate = true) ∧
    (v.hasResourceMappings = true → (mark ti ns S v).hasResourceMappings = true) := by
  refine ⟨rfl, ?_, ?_⟩
  · intro h; simp [mark, h]
  · intro h; simp [mark, h]

/-- C12. Flag monotonicity.  After the collection pass every record has both flags false.
Every call of `inspectFunc` that returns (one step of the scanning pass), every sequence of
such calls and every scanning pass that completes keep each record under its key, keep its
position, and leave true every flag that was true before: a flag changes only from false to
true and is never reset, whatever is scanned later. -/
theorem flags_monotone :
    (∀ (files : List Node) (m : StructMap), collectPass files [] = .ok m →
      (∀ S v, m.get S = some v → v.hasValidate = false ∧ v.hasResourceMappings = false) ∧
      (∀ S v, (S, v) ∈ m → v.hasValidate = false ∧ v.hasResourceMappings = false)) ∧
    (∀ (ti : types.Info) (n : Node) (m m1 : StructMap) (b : Bool),
      inspectFunc ti (some n) m = .ok (m1, b) →
      ∀ S v, m.get S = some v → ∃ v1, m1.get S = some v1 ∧ v1.pos = v.pos ∧
        (v.hasValidate = true → v1.hasValidate = true) ∧
        (v.hasResourceMappings = true → v1.hasResourceMappings = true) ∧
        (v1.hasValidate ≠ v.hasValidate → v.hasValidate = false ∧ v1.hasValidate = true) ∧
        (v1.hasResourceMappings ≠ v.hasResourceMappings →
          v.hasResourceMappings = false ∧ v1.hasResourceMappings = true)) ∧
    (∀ (ti : types.Info) (ns : List Node) (m m1 : StructMap),
      visitAll (inspectFunc ti) ns m = .ok m1 →
      ∀ S v, m.get S = some v → ∃ v1, m1.get S = some v1 ∧ v1.pos = v.pos ∧
        (v.hasValidate = true → v1.hasValidate = true) ∧
        (v.hasResourceMappings = true → v1.hasResourceMappings = true)) ∧
    (∀ (ti : types.Info) (files : List Node) (m m1 : StructMap),
      scanPass ti files m = .ok m1 →
      ∀ S v, m.get S = some v → ∃ v1, m1.get S = some v1 ∧ v1.pos = v.pos ∧
        (v.hasValidate = true → v1.hasValidate = true) ∧
        (v.hasResourceMappings = true → v1.hasResourceMappings = true)) := by
  refine ⟨?_, ?_, ?_, ?_⟩
  · intro files m hm
    rw [collectPass_eq] at hm
    simp only [Except.ok.injEq] at hm
    subst hm
    have hf : ∀ S v, StructMap.get ((structDecls (allNodes files)).foldl declare []) S = some v →
        v.hasValidate = false ∧ v.hasResourceMappings = false :=
      fun S v h => flags_foldl_declare _ [] (by intro k v h; cases h) S v h
    refine ⟨hf, fun S v hmem => hf S v ?_⟩
    exact (StructMap.get_eq_some_iff_mem _ (nodup_keys_collected files) S v).mpr hmem
  · intro ti n m m1 b h S v hv
    obtain ⟨_, _, hg⟩ := inspectFunc_ok ti n m m1 b h
    obtain ⟨h1, h2, h3⟩ := mark_flags ti [n] S v
    refine ⟨mark ti [n] S v, by rw [hg S, hv]; rfl, h1, h2, h3, ?_, ?_⟩
    · intro hne
      cases hx : v.hasValidate with
      | true => exact absurd ((h2 hx).trans hx.symm) hne
      | false =>
        refine ⟨rfl, ?_⟩
        cases hy : (mark ti [n] S v).hasValidate with
        | true => rfl
        | false => exact absurd (hy.trans hx.symm) hne
    · intro hne
      cases hx : v.hasResourceMappings with
      | true => exact absurd ((h3 hx).trans hx.symm) hne
      | false =>
        refine ⟨rfl, ?_⟩
        cases hy : (mark ti [n] S v).hasResourceMappings with
        | true => rfl
        | false => exact absurd (hy.trans hx.symm) hne
  · intro ti ns m m1 h S v hv
    obtain ⟨_, hg⟩ := visitAll_inspectFunc_ok ti ns m m1 h
    obtain ⟨h1, h2, h3⟩ := mark_flags ti ns S v
    exact ⟨mark ti ns S v, by rw [hg S, hv]; rfl, h1, h2, h3⟩
  · intro ti files m m1 h S v hv
    rw [scanPass_eq_visitAll] at h
    obtain ⟨_, hg⟩ := visitAll_inspectFunc_ok ti _ m m1 h
    obtain ⟨h1, h2, h3⟩ := mark_flags ti (allNodes files) S v
    exact ⟨mark ti (allNodes files) S v, by rw [hg S, hv]; rfl, h1, h2, h3⟩

/-- Witness of C12: the test-data file.  After collection all four records are
(false, false); scanning the method `AnotherFunc` after `Validate` and
`GetResourceMappings` have set both flags of `CreateEtcdCluster` leaves them set. -/
theorem flags_monotone_witness :
    collectPass [exampleFile] [] =
      .ok [("CreateEtcdCluster", ⟨198, false, false⟩),
        ("TruncateTableRequest", ⟨535, false, false⟩),
        ("MigrateDatabaseRequest", ⟨637, false, false⟩),
        ("ResetPasswordRequest", ⟨677, false, false⟩)] ∧
    (∃ v1, StructMap.get [("CreateEtcdCluster", (⟨198, true, true⟩ : TokenInfo))]
        "CreateEtcdCluster" = some v1 ∧ v1.pos = 198 ∧
      ((true = true) → v1.hasValidate = true) ∧ ((true = true) → v1.hasResourceMappings = true)) ∧
    inspectFunc examplePass.TypesInfo
      (some (method "c" 478 "CreateEtcdCluster" "AnotherFunc" [] (some [.mk [] (.Ident 511 "int")])
        [.mk (.Other "ReturnStmt") []])) [("CreateEtcdCluster", ⟨198, true, true⟩)] =
      .ok ([("CreateEtcdCluster", ⟨198, true, true⟩)], true) :=
  ⟨rfl,
    (flags_monotone.2.1 examplePass.TypesInfo
      (method "c" 478 "CreateEtcdCluster" "AnotherFunc" [] (some [.mk [] (.Ident 511 "int")])
        [.mk (.Other "ReturnStmt") []])
      [("CreateEtcdCluster", ⟨198, true, true⟩)] [("CreateEtcdCluster", ⟨198, true, true⟩)] true
      rfl "CreateEtcdCluster" ⟨198, true, true⟩ rfl).imp
      fun _ h => ⟨h.1, h.2.1, h.2.2.1, h.2.2.2.1⟩,
    rfl⟩

/-! ## Declarations observed again. -/

theorem faultsAt_of_not_funcDecl (ti : types.Info) (keys : List String) (x : Node)
    (h : ∀ d, x.kind ≠ .FuncDecl d) : faultsAt ti keys x = false := by
  obtain ⟨k, cs⟩ := x
  cases k with
  | FuncDecl d => exact absurd rfl (h d)
  | GenDecl s => rfl
  | Other s => rfl

theorem providesValidate_of_not_funcDecl (ti : types.Info) (S : String) (x : Node)
    (h : ∀ d, x.kind ≠ .FuncDecl d) : providesValidate ti S x = false := by
  obtain ⟨k, cs⟩ := x
  cases k with
  | FuncDecl d => exact absurd rfl (h d)
  | GenDecl s => rfl
  | Other s => rfl

theorem providesResourceMappings_of_not_funcDecl (ti : types.Info) (S : String) (x : Node)
    (h : ∀ d, x.kind ≠ .FuncDecl d) : providesResourceMappings ti S x = false := by
  obtain ⟨k, cs⟩ := x
  cases k with
  | FuncDecl d => exact absurd rfl (h d)
  | GenDecl s => rfl
  | Other s => rfl

theorem structDecls_of_inert (body : List Node) (h : InertBody body) :
    structDecls (preorderList body) = [] := by
  simp only [structDecls, List.flatMap_eq_nil_iff]
  intro x hx
  exact (h x hx).1

theorem any_inert (p : Node → Bool) (body : List Node) (h : InertBody body)
    (hp : ∀ x, (∀ d, x.kind ≠ .FuncDecl d) → p x = false) :
    (preorderList body).any p = false := by
  rw [List.any_eq_false]
  intro x hx
  rw [hp x (h x hx).2]
  simp

theorem faultsAt_sameObservation (ti : types.Info) (keys : List String) (d1 d2 : FuncDecl)
    (cs1 cs2 : List Node) (h : SameObservation ti d1 d2) :
    faultsAt ti keys (.mk (.FuncDecl d1) cs1) = faultsAt ti keys (.mk (.FuncDecl d2) cs2) := by
  obtain ⟨h1, h2, h3, _⟩ := h
  have h5 : d1.Type_.Results.isNone = d2.Type_.Results.isNone := by
    cases hr1 : d1.Type_.Results <;> cases hr2 : d2.Type_.Results <;> simp [hr1, hr2] at h3 ⊢
  simp only [faultsAt, Node.kind, h1, h2, h5]

theorem providesValidate_sameObservation (ti : types.Info) (S : String) (d1 d2 : FuncDecl)
    (cs1 cs2 : List Node) (h : SameObservation ti d1 d2) :
    providesValidate ti S (.mk (.FuncDecl d1) cs1) =
      providesValidate ti S (.mk (.FuncDecl d2) cs2) := by
  obtain ⟨h1, h2, h3, _⟩ := h
  simp only [providesValidate, Node.kind, h1, h2]
  cases hr1 : d1.Type_.Results <;> cases hr2 : d2.Type_.Results <;>
    simp [hr1, hr2] at h3 ⊢
  rw [h3]

theorem providesResourceMappings_sameObservation (ti : types.Info) (S : String)
    (d1 d2 : FuncDecl) (cs1 cs2 : List Node) (h : SameObservation ti d1 d2) :
    providesResourceMappings ti S (.mk (.FuncDecl d1) cs1) =
      providesResourceMappings ti S (.mk (.FuncDecl d2) cs2) := by
  obtain ⟨h1, h2, _, h4⟩ := h
  simp only [providesResourceMappings, Node.kind, h1, h2]
  cases hr1 : d1.Type_.Results <;> cases hr2 : d2.Type_.Results <;>
    simp [hr1, hr2] at h4 ⊢
  rw [h4]

theorem preorderList_singleton (n : Node) : preorderList [n] = n.preorder := by
  simp [preorderList]

/-- Removing a top-level method declaration with an inert body does not change the result
of `run` when a declaration in which the scanner observes the same stays in the input. -/
theorem run_remove_reobserved (fs1 fs2 : List Node) (k : NodeKind) (ds1 ds2 : List Node)
    (d1 d2 : FuncDecl) (body1 body2 : List Node) (ti : types.Info) (range : RangeOrder)
    (hobs : SameObservation ti d1 d2) (hbody : InertBody body2)
    (hstay : Node.mk (.FuncDecl d1) body1 ∈ allNodes (fs1 ++ Node.mk k (ds1 ++ ds2) :: fs2)) :
    run ⟨fs1 ++ Node.mk k (ds1 ++ [Node.mk (.FuncDecl d2) body2] ++ ds2) :: fs2, ti⟩ range =
      run ⟨fs1 ++ Node.mk k (ds1 ++ ds2) :: fs2, ti⟩ range := by
  have key : ∀ (p : Node → Bool), (∀ x, (∀ d, x.kind ≠ .FuncDecl d) → p x = false) →
      p (.mk (.FuncDecl d1) body1) = p (.mk (.FuncDecl d2) body2) →
      (preorderList [Node.mk (.FuncDecl d2) body2]).any p = true →
      (allNodes (fs1 ++ Node.mk k (ds1 ++ ds2) :: fs2)).any p = true := by
    intro p hp heq h
    rw [preorderList_singleton, Node.preorder, List.any_cons, any_inert p body2 hbody hp,
      Bool.or_false] at h
    rw [List.any_eq_true]
    exact ⟨_, hstay, heq.trans h⟩
  apply run_remove
  · rw [preorderList_singleton, Node.preorder]
    have h2 : structDecls (Node.mk (.FuncDecl d2) body2 :: preorderList body2) =
        structDeclsOfNode (Node.mk (.FuncDecl d2) body2) ++ structDecls (preorderList body2) := by
      simp [structDecls]
    rw [h2, structDecls_of_inert body2 hbody]
    rfl
  · intro keys
    exact key _ (faultsAt_of_not_funcDecl ti keys) (faultsAt_sameObservation ti keys _ _ _ _ hobs)
  · intro S
    exact key _ (providesValidate_of_not_funcDecl ti S)
      (providesValidate_sameObservation ti S _ _ _ _ hobs)
  · intro S
    exact key _ (providesResourceMappings_of_not_funcDecl ti S)
      (providesResourceMappings_sameObservation ti S _ _ _ _ hobs)

/-- C15. Re-observation is idempotent.  For every registry and every node, a second call of
`inspectFunc` for the node on the registry the first call returned changes nothing, so two
calls in a row give what one call gives (the same registry, or the same panic), also inside
a scanning sequence; and an input in which a method is declared once more, the scanner
observing in the second declaration what it observes in one that stays (same receiver name,
same method name, same answers of the matchers) and the body of the second declaring
nothing, gives the same result of `run`, final registry and diagnostics, as the input
without the second declaration. -/
theorem reobservation_idempotent :
    (∀ (ti : types.Info) (n : Node) (m m1 : StructMap) (b : Bool),
      inspectFunc ti (some n) m = .ok (m1, b) → inspectFunc ti (some n) m1 = .ok (m1, true)) ∧
    (∀ (ti : types.Info) (n : Node) (m : StructMap),
      (match inspectFunc ti (some n) m with
        | .error e => .error e
        | .ok (m1, _) => inspectFunc ti (some n) m1) = inspectFunc ti (some n) m) ∧
    (∀ (ti : types.Info) (n : Node) (ns : List Node) (m : StructMap),
      visitAll (inspectFunc ti) (n :: n :: ns) m = visitAll (inspectFunc ti) (n :: ns) m) ∧
    (∀ (fs1 fs2 : List Node) (k : NodeKind) (ds1 ds2 : List Node) (d1 d2 : FuncDecl)
      (body1 body2 : List Node) (ti : types.Info) (range : RangeOrder),
      SameObservation ti d1 d2 → InertBody body2 →
      Node.mk (.FuncDecl d1) body1 ∈ allNodes (fs1 ++ Node.mk k (ds1 ++ ds2) :: fs2) →
      run ⟨fs1 ++ Node.mk k (ds1 ++ [Node.mk (.FuncDecl d2) body2] ++ ds2) :: fs2, ti⟩ range =
        run ⟨fs1 ++ Node.mk k (ds1 ++ ds2) :: fs2, ti⟩ range) := by
  refine ⟨inspectFunc_idem, ?_, ?_, ?_⟩
  · intro ti n m
    cases h : inspectFunc ti (some n) m with
    | error e => rfl
    | ok p =>
      obtain ⟨m1, b⟩ := p
      have hb : b = true := inspectFunc_true ti n m m1 b h
      subst hb
      exact inspectFunc_idem ti n m m1 true h
  · intro ti n ns m
    simp only [visitAll]
    cases h : inspectFunc ti (some n) m with
    | error e => rfl
    | ok p =>
      obtain ⟨m1, b⟩ := p
      simp only [inspectFunc_idem ti n m m1 b h]
  · intro fs1 fs2 k ds1 ds2 d1 d2 body1 body2 ti range hobs hbody hstay
    exact run_remove_reobserved fs1 fs2 k ds1 ds2 d1 d2 body1 body2 ti range hobs hbody hstay

theorem inertBody_return : InertBody [.mk (.Other "BlockStmt") [.mk (.Other "ReturnStmt") []]] := by
  intro x hx
  simp [preorderList, Node.preorder] at hx
  rcases hx with rfl | rfl
  · exact ⟨rfl, fun d h => by cases h⟩
  · exact ⟨rfl, fun d h => by cases h⟩

/-- Witness of C15: `func (s S) Validate() error` written twice on `S`; the run is the run
on the input with the method written once, and sets `hasValidate` of `S`. -/
theorem reobservation_idempotent_witness :
    SameObservation (packageTypes ["S", "error"])
      ⟨some [.mk ["s"] (.Ident 37 "S")], "Validate", ⟨[], some [.mk [] (.Ident 51 "error")]⟩⟩
      ⟨some [.mk ["s"] (.Ident 81 "S")], "Validate", ⟨[], some [.mk [] (.Ident 95 "error")]⟩⟩ ∧
    InertBody [.mk (.Other "BlockStmt") [.mk (.Other "ReturnStmt") []]] ∧
    run twiceValidatePass id = run onceValidatePass id ∧
    run twiceValidatePass id =
      .ok ⟨[("S", ⟨17, true, false⟩)], [⟨17, resourceMappingsMessage "S"⟩], none, none⟩ :=
  ⟨⟨rfl, rfl, rfl, rfl⟩, inertBody_return,
    reobservation_idempotent.2.2.2 [] [] (.Other "File")
      [structDecl 17 "S" [],
        method "s" 37 "S" "Validate" [] (some [.mk [] (.Ident 51 "error")])
          [.mk (.Other "ReturnStmt") []]] []
      ⟨some [.mk ["s"] (.Ident 37 "S")], "Validate", ⟨[], some [.mk [] (.Ident 51 "error")]⟩⟩
      ⟨some [.mk ["s"] (.Ident 81 "S")], "Validate", ⟨[], some [.mk [] (.Ident 95 "error")]⟩⟩
      [.mk (.Other "BlockStmt") [.mk (.Other "ReturnStmt") []]]
      [.mk (.Other "BlockStmt") [.mk (.Other "ReturnStmt") []]]
      (packageTypes ["S", "error"]) id ⟨rfl, rfl, rfl, rfl⟩ inertBody_return
      (by simp [allNodes, preorderList, Node.preorder, structDecl, method]),
    rfl⟩

/-! ## The frame of a scanning step. -/

theorem methodsOf_cons_eq (ti : types.Info) (S : String) (d : FuncDecl) (cs ns : List Node)
    (h : getReceiverName ti d = S) :
    methodsOf ti S (.mk (.FuncDecl d) cs :: ns) = d :: methodsOf ti S ns := by
  simp [methodsOf, List.filterMap_cons, Node.kind, h]

theorem methodsOf_cons_ne (ti : types.Info) (S : String) (d : FuncDecl) (cs ns : List Node)
    (h : getReceiverName ti d ≠ S) :
    methodsOf ti S (.mk (.FuncDecl d) cs :: ns) = methodsOf ti S ns := by
  simp [methodsOf, List.filterMap_cons, Node.kind, h]

theorem methodsOf_cons_other (ti : types.Info) (S : String) (n : Node) (ns : List Node)
    (h : ∀ d, n.kind ≠ .FuncDecl d) : methodsOf ti S (n :: ns) = methodsOf ti S ns := by
  obtain ⟨k, cs⟩ := n
  cases k with
  | FuncDecl d => exact absurd rfl (h d)
  | GenDecl s => simp [methodsOf, List.filterMap_cons, Node.kind]
  | Other s => simp [methodsOf, List.filterMap_cons, Node.kind]

theorem any_providesValidate_methodsOf (ti : types.Info) (S : String) (ns : List Node) :
    ns.any (providesValidate ti S) =
      (methodsOf ti S ns).any (fun d => decide (S ≠ "") && decide (d.Name = "Validate") &&
        (match d.Type_.Results with
         | some rs => isValidValidateSignature rs
         | none => false)) := by
  induction ns with
  | nil => rfl
  | cons n ns ih =>
    by_cases hf : ∀ d, n.kind ≠ .FuncDecl d
    · rw [methodsOf_cons_other ti S n ns hf, List.any_cons,
        providesValidate_of_not_funcDecl ti S n hf, Bool.false_or, ih]
    · obtain ⟨k, cs⟩ := n
      cases k with
      | GenDecl s => exact absurd (fun d h => by cases h) hf
      | Other s => exact absurd (fun d h => by cases h) hf
      | FuncDecl d =>
        by_cases hR : getReceiverName ti d = S
        · rw [methodsOf_cons_eq ti S d cs ns hR, List.any_cons, List.any_cons, ih]
          congr 1
          simp [providesValidate, Node.kind, hR]
        · rw [methodsOf_cons_ne ti S d cs ns hR, List.any_cons, ih]
          simp [providesValidate, Node.kind, hR]

theorem any_providesResourceMappings_methodsOf (ti : types.Info) (S : String)
    (ns : List Node) :
    ns.any (providesResourceMappings ti S) =
      (methodsOf ti S ns).any (fun d => decide (S ≠ "") &&
        decide (d.Name = "GetResourceMappings") &&
        (match d.Type_.Results with
         | some rs => isValidResourceMappingsSignature rs
         | none => false)) := by
  induction ns with
  | nil => rfl
  | cons n ns ih =>
    by_cases hf : ∀ d, n.kind ≠ .FuncDecl d
    · rw [methodsOf_cons_other ti S n ns hf, List.any_cons,
        providesResourceMappings_of_not_funcDecl ti S n hf, Bool.false_or, ih]
    · obtain ⟨k, cs⟩ := n
      cases k with
      | GenDecl s => exact absurd (fun d h => by cases h) hf
      | Other s => exact absurd (fun d h => by cases h) hf
      | FuncDecl d =>
        by_cases hR : getReceiverName ti d = S
        · rw [methodsOf_cons_eq ti S d cs ns hR, List.any_cons, List.any_cons, ih]
          congr 1
          simp [providesResourceMappings, Node.kind, hR]
        · rw [methodsOf_cons_ne ti S d cs ns hR, List.any_cons, ih]
          simp [providesResourceMappings, Node.kind, hR]

theorem inspectFunc_other_name (ti : types.Info) (d : FuncDecl) (cs : List Node)
    (m : StructMap) (hV : d.Name ≠ "Validate") (hG : d.Name ≠ "GetResourceMappings") :
    inspectFunc ti (some (.mk (.FuncDecl d) cs)) m = .ok (m, true) := by
  simp only [inspectFunc]
  by_cases hR : getReceiverName ti d = ""
  · simp [hR]
  · simp only [hR, if_false]
    cases m.get (getReceiverName ti d) with
    | none => rfl
    | some t => simp [nameAndSignature, hV, hG]

/-- C19. Per-declaration frame.  A call of `inspectFunc` for a method declaration that
returns leaves the record read under every name other than the receiver name as it was,
keeps the position of every record, and changes at most one flag: `hasValidate` only when
the method is named `Validate`, `hasResourceMappings` only when it is named
`GetResourceMappings`, the other flag staying as it was; for any other method name (such as
`AnotherFunc`) the call returns the registry unchanged, without panic.  Hence, for two runs
that complete, on inputs in which `S` has the same collected record and the same method
declarations with receiver name `S`, the diagnostics naming `S` are the same. -/
theorem inspectFunc_frame :
    (∀ (ti : types.Info) (d : FuncDecl) (cs : List Node) (m m1 : StructMap) (b : Bool),
      inspectFunc ti (some (.mk (.FuncDecl d) cs)) m = .ok (m1, b) →
      m1.keys = m.keys ∧
      (∀ S, S ≠ getReceiverName ti d → m1.get S = m.get S) ∧
      (∀ S v, m.get S = some v → ∃ v1, m1.get S = some v1 ∧ v1.pos = v.pos ∧
        (v1.hasValidate ≠ v.hasValidate →
          d.Name = "Validate" ∧ v1.hasResourceMappings = v.hasResourceMappings) ∧
        (v1.hasResourceMappings ≠ v.hasResourceMappings →
          d.Name = "GetResourceMappings" ∧ v1.hasValidate = v.hasValidate))) ∧
    (∀ (ti : types.Info) (d : FuncDecl) (cs : List Node) (m : StructMap),
      d.Name ≠ "Validate" → d.Name ≠ "GetResourceMappings" →
      inspectFunc ti (some (.mk (.FuncDecl d) cs)) m = .ok (m, true)) ∧
    (∀ (pass1 pass2 : analysis.Pass) (range1 range2 : RangeOrder) (res1 res2 : RunResult)
      (c1 c2 : StructMap) (S : String),
      range1.Valid → range2.Valid →
      run pass1 range1 = .ok res1 → run pass2 range2 = .ok res2 →
      collectPass pass1.Files [] = .ok c1 → collectPass pass2.Files [] = .ok c2 →
      c1.get S = c2.get S →
      methodsOf pass1.TypesInfo S (allNodes pass1.Files) =
        methodsOf pass2.TypesInfo S (allNodes pass2.Files) →
      diagnosticsFor S res1.Diagnostics = diagnosticsFor S res2.Diagnostics) := by
  refine ⟨?_, inspectFunc_other_name, ?_⟩
  · intro ti d cs m m1 b h
    obtain ⟨_, hk, hg⟩ := inspectFunc_ok ti _ m m1 b h
    refine ⟨hk, ?_, ?_⟩
    · intro S hS
      rw [hg S]
      apply map_mark_of_not_provides
      · simp [providesValidate, Node.kind, Ne.symm hS]
      · simp [providesResourceMappings, Node.kind, Ne.symm hS]
    · intro S v hv
      refine ⟨mark ti [.mk (.FuncDecl d) cs] S v, by rw [hg S, hv]; rfl, rfl, ?_, ?_⟩
      · intro hne
        have hp : providesValidate ti S (.mk (.FuncDecl d) cs) = true := by
          cases hx : providesValidate ti S (.mk (.FuncDecl d) cs) with
          | true => rfl
          | false => exact absurd (by simp [mark, hx]) hne
        simp only [providesValidate, Node.kind, Bool.and_eq_true, decide_eq_true_eq] at hp
        have hn : d.Name = "Validate" := hp.1.2
        refine ⟨hn, ?_⟩
        have hnG : d.Name ≠ "GetResourceMappings" := by rw [hn]; decide
        simp [mark, providesResourceMappings, Node.kind, hnG]
      · intro hne
        have hp : providesResourceMappings ti S (.mk (.FuncDecl d) cs) = true := by
          cases hx : providesResourceMappings ti S (.mk (.FuncDecl d) cs) with
          | true => rfl
          | false => exact absurd (by simp [mark, hx]) hne
        simp only [providesResourceMappings, Node.kind, Bool.and_eq_true,
          decide_eq_true_eq] at hp
        have hn : d.Name = "GetResourceMappings" := hp.1.2
        refine ⟨hn, ?_⟩
        have hnV : d.Name ≠ "Validate" := by rw [hn]; decide
        simp [mark, providesValidate, Node.kind, hnV]
  · intro pass1 pass2 range1 range2 res1 res2 c1 c2 S hr1 hr2 h1 h2 hc1 hc2 hget hmeth
    rw [collectPass_eq] at hc1 hc2
    simp only [Except.ok.injEq] at hc1 hc2
    subst hc1 hc2
    rw [diagnosticsFor_of_run_ok pass1 range1 hr1 res1 h1 S,
      diagnosticsFor_of_run_ok pass2 range2 hr2 res2 h2 S]
    simp only [collected] at hget ⊢
    rw [hget]
    have hv : (allNodes pass1.Files).any (providesValidate pass1.TypesInfo S) =
        (allNodes pass2.Files).any (providesValidate pass2.TypesInfo S) := by
      rw [any_providesValidate_methodsOf, any_providesValidate_methodsOf, hmeth]
    have hg : (allNodes pass1.Files).any (providesResourceMappings pass1.TypesInfo S) =
        (allNodes pass2.Files).any (providesResourceMappings pass2.TypesInfo S) := by
      rw [any_providesResourceMappings_methodsOf, any_providesResourceMappings_methodsOf, hmeth]
    cases (List.foldl declare [] (structDecls (allNodes pass2.Files))).get S with
    | none => rfl
    | some v => simp only [mark, hv, hg]

/-- Witness of C19: on `type S struct{}; type T struct{}; func (s S) AnotherFunc() int;
func (t T) Validate() error` the method `AnotherFunc` changes nothing, and the diagnostics
for `S` are those of the input without the method of `T`. -/
theorem inspectFunc_frame_witness :
    inspectFunc anotherFuncPass.TypesInfo
      (some (method "s" 54 "S" "AnotherFunc" [] (some [.mk [] (.Ident 71 "int")])
        [.mk (.Other "ReturnStmt") []]))
      [("S", ⟨17, false, false⟩), ("T", ⟨34, false, false⟩)] =
      .ok ([("S", ⟨17, false, false⟩), ("T", ⟨34, false, false⟩)], true) ∧
    run anotherFuncPass id =
      .ok ⟨[("S", ⟨17, false, false⟩), ("T", ⟨34, true, false⟩)],
        [⟨17, validateMessage "S"⟩, ⟨17, resourceMappingsMessage "S"⟩,
         ⟨34, resourceMappingsMessage "T"⟩], none, none⟩ ∧
    diagnosticsFor "S"
      [(⟨17, validateMessage "S"⟩ : analysis.Diagnostic), ⟨17, resourceMappingsMessage "S"⟩,
        ⟨34, resourceMappingsMessage "T"⟩] =
    diagnosticsFor "S"
      [(⟨17, validateMessage "S"⟩ : analysis.Diagnostic), ⟨17, resourceMappingsMessage "S"⟩,
        ⟨34, validateMessage "T"⟩, ⟨34, resourceMappingsMessage "T"⟩] :=
  ⟨inspectFunc_frame.2.1 anotherFuncPass.TypesInfo
      ⟨some [.mk ["s"] (.Ident 54 "S")], "AnotherFunc", ⟨[], some [.mk [] (.Ident 71 "int")]⟩⟩
      [.mk (.Other "BlockStmt") [.mk (.Other "ReturnStmt") []]]
      [("S", ⟨17, false, false⟩), ("T", ⟨34, false, false⟩)] (by decide) (by decide),
    rfl,
    inspectFunc_frame.2.2 anotherFuncPass anotherFuncOnlyPass id id
      ⟨[("S", ⟨17, false, false⟩), ("T", ⟨34, true, false⟩)],
        [⟨17, validateMessage "S"⟩, ⟨17, resourceMappingsMessage "S"⟩,
         ⟨34, resourceMappingsMessage "T"⟩], none, none⟩
      ⟨[("S", ⟨17, false, false⟩), ("T", ⟨34, false, false⟩)],
        [⟨17, validateMessage "S"⟩, ⟨17, resourceMappingsMessage "S"⟩,
         ⟨34, validateMessage "T"⟩, ⟨34, resourceMappingsMessage "T"⟩], none, none⟩
      [("S", ⟨17, false, false⟩), ("T", ⟨34, false, false⟩)]
      [("S", ⟨17, false, false⟩), ("T", ⟨34, false, false⟩)] "S"
      (fun m => List.Perm.refl m) (fun m => List.Perm.refl m) rfl rfl rfl rfl rfl rfl⟩

/-! ## Pointer receivers, and result fields with several names. -/

/-- The diagnostics naming a collected struct to which no method declaration resolves, in a
run that completes. -/
theorem diagnosticsFor_unresolved (pass : analysis.Pass) (range : RangeOrder)
    (hr : range.Valid) (res : RunResult) (hrun : run pass range = .ok res)
    (m : StructMap) (hm : collectPass pass.Files [] = .ok m)
    (S : String) (v : TokenInfo) (hv : m.get S = some v)
    (hno : ∀ d cs, Node.mk (.FuncDecl d) cs ∈ allNodes pass.Files →
      ¬ ResolvesTo pass.TypesInfo d S) :
    diagnosticsFor S res.Diagnostics =
      [⟨v.pos, validateMessage S⟩, ⟨v.pos, resourceMappingsMessage S⟩] := by
  rw [collectPass_eq] at hm
  simp only [Except.ok.injEq] at hm
  subst hm
  rw [diagnosticsFor_of_run_ok pass range hr res hrun S]
  simp only [collected] at hv ⊢
  rw [hv]
  have hf := flags_foldl_declare _ [] (by intro k v h; cases h) S v hv
  have h1 : (allNodes pass.Files).any (providesValidate pass.TypesInfo S) = false := by
    rw [List.any_eq_false]
    intro n hn hc
    obtain ⟨k, cs⟩ := n
    cases k with
    | GenDecl s => simp [providesValidate, Node.kind] at hc
    | Other s => simp [providesValidate, Node.kind] at hc
    | FuncDecl d =>
      simp only [providesValidate, Node.kind, Bool.and_eq_true, decide_eq_true_eq] at hc
      exact hno d cs hn (resolvesTo_of_getReceiverName _ d S hc.1.1.2 hc.1.1.1)
  have h2 : (allNodes pass.Files).any (providesResourceMappings pass.TypesInfo S) = false := by
    rw [List.any_eq_false]
    intro n hn hc
    obtain ⟨k, cs⟩ := n
    cases k with
    | GenDecl s => simp [providesResourceMappings, Node.kind] at hc
    | Other s => simp [providesResourceMappings, Node.kind] at hc
    | FuncDecl d =>
      simp only [providesResourceMappings, Node.kind, Bool.and_eq_true,
        decide_eq_true_eq] at hc
      exact hno d cs hn (resolvesTo_of_getReceiverName _ d S hc.1.1.2 hc.1.1.1)
  simp [entryDiagnostics, mark, h1, h2, hf.1, hf.2]

/-- C18. Pointer receivers are never attributed.  `getReceiverName` returns the empty
string whenever the type the type information gives for the receiver expression is not a
named type, in particular a pointer type; for such a method declaration `inspectFunc`
returns the registry unchanged, whatever its name and results; and in every run that
completes, a collected struct `S` to which no method declaration resolves directly (its
methods being declared on `*S`) gets exactly two diagnostics, as on
`type S struct{}; func (s *S) Validate() error; func (s *S) GetResourceMappings()
[]types.ResourceMapping`. -/
theorem pointer_receiver_not_attributed :
    (∀ (ti : types.Info) (d : FuncDecl) (r0 : ast.Field) (rest : List ast.Field),
      d.Recv = some (r0 :: rest) → (∀ N, ti.TypeOf r0.Type_ ≠ some (.Named N)) →
      getReceiverName ti d = "") ∧
    (∀ (ti : types.Info) (d : FuncDecl) (r0 : ast.Field) (rest : List ast.Field)
      (Elem : types.Type_),
      d.Recv = some (r0 :: rest) → ti.TypeOf r0.Type_ = some (.Pointer Elem) →
      getReceiverName ti d = "") ∧
    (∀ (ti : types.Info) (d : FuncDecl) (cs : List Node) (m : StructMap) (r0 : ast.Field)
      (rest : List ast.Field) (Elem : types.Type_),
      d.Recv = some (r0 :: rest) → ti.TypeOf r0.Type_ = some (.Pointer Elem) →
      inspectFunc ti (some (.mk (.FuncDecl d) cs)) m = .ok (m, true)) ∧
    (∀ (pass : analysis.Pass) (range : RangeOrder) (res : RunResult) (m : StructMap)
      (S : String) (v : TokenInfo),
      range.Valid → run pass range = .ok res → collectPass pass.Files [] = .ok m →
      m.get S = some v →
      (∀ d cs, Node.mk (.FuncDecl d) cs ∈ allNodes pass.Files →
        ¬ ResolvesTo pass.TypesInfo d S) →
      diagnosticsFor S res.Diagnostics =
        [⟨v.pos, validateMessage S⟩, ⟨v.pos, resourceMappingsMessage S⟩]) ∧
    run pointerReceiverPass id =
      .ok ⟨[("S", ⟨17, false, false⟩)],
        [⟨17, validateMessage "S"⟩, ⟨17, resourceMappingsMessage "S"⟩], none, none⟩ := by
  have hname : ∀ (ti : types.Info) (d : FuncDecl) (r0 : ast.Field) (rest : List ast.Field),
      d.Recv = some (r0 :: rest) → (∀ N, ti.TypeOf r0.Type_ ≠ some (.Named N)) →
      getReceiverName ti d = "" := by
    intro ti d r0 rest hr hn
    unfold getReceiverName
    rw [hr]
    cases ht : ti.TypeOf r0.Type_ with
    | none => simp [ht]
    | some t =>
      cases t with
      | Named N => exact absurd ht (hn N)
      | Pointer e => simp [ht]
      | Other k => simp [ht]
  refine ⟨hname, ?_, ?_, ?_, rfl⟩
  · intro ti d r0 rest e hr ht
    exact hname ti d r0 rest hr (fun N h => by rw [ht] at h; cases h)
  · intro ti d cs m r0 rest e hr ht
    exact inspectFunc_of_receiverName_empty ti d cs m
      (hname ti d r0 rest hr (fun N h => by rw [ht] at h; cases h))
  · intro pass range res m S v hr hrun hm hv hno
    exact diagnosticsFor_unresolved pass range hr res hrun m hm S v hv hno

/-- Witness of C18: the two methods declared on `*S`. -/
theorem pointer_receiver_not_attributed_witness :
    getReceiverName pointerReceiverPass.TypesInfo
      ⟨some [.mk ["s"] (.StarExpr (.Ident 38 "S"))], "Validate",
        ⟨[], some [.mk [] (.Ident 52 "error")]⟩⟩ = "" ∧
    diagnosticsFor "S" [(⟨17, validateMessage "S"⟩ : analysis.Diagnostic),
        ⟨17, resourceMappingsMessage "S"⟩] =
      [⟨17, validateMessage "S"⟩, ⟨17, resourceMappingsMessage "S"⟩] :=
  ⟨pointer_receiver_not_attributed.2.1 pointerReceiverPass.TypesInfo
      ⟨some [.mk ["s"] (.StarExpr (.Ident 38 "S"))], "Validate",
        ⟨[], some [.mk [] (.Ident 52 "error")]⟩⟩
      (.mk ["s"] (.StarExpr (.Ident 38 "S"))) [] (.Named "S") rfl rfl,
    pointer_receiver_not_attributed.2.2.2.1 pointerReceiverPass id
      ⟨[("S", ⟨17, false, false⟩)],
        [⟨17, validateMessage "S"⟩, ⟨17, resourceMappingsMessage "S"⟩], none, none⟩
      [("S", ⟨17, false, false⟩)] "S" ⟨17, false, false⟩ (fun m => List.Perm.refl m) rfl rfl rfl
      (by
        intro d cs hmem hres
        obtain ⟨r0, rest, hrecv, ht⟩ := hres
        simp [allNodes, preorderList, Node.preorder, pointerReceiverPass, structDecl] at hmem
        rcases hmem with ⟨rfl, _⟩ | ⟨rfl, _⟩
        · simp only [Option.some.injEq, List.cons.injEq] at hrecv
          obtain ⟨rfl, _⟩ := hrecv
          simp [pointerReceiverPass, packageTypes, Field.Type_] at ht
        · simp only [Option.some.injEq, List.cons.injEq] at hrecv
          obtain ⟨rfl, _⟩ := hrecv
          simp [pointerReceiverPass, packageTypes, Field.Type_] at ht)⟩

/-- C16 (failing input). On
`package p; type S struct{}; func (s S) Validate() (a, b error) { return nil, nil }`
the method returns two values, declared by one result field with two names.
`isValidValidateSignature` counts the fields of the result list, not the values, so it
accepts this list (as it accepts a single field of type `error` with any number of names);
`run` sets `hasValidate` of `S` and emits no `Validate` diagnostic for `S`, only the
`GetResourceMappings` one. -/
theorem two_names_one_field_accepted :
    isValidValidateSignature [.mk ["a", "b"] (.Ident 57 "error")] = true ∧
    (∀ (names : List String) (pos : token.Pos),
      isValidValidateSignature [.mk names (.Ident pos "error")] = true) ∧
    run twoResultsPass id =
      .ok ⟨[("S", ⟨17, true, false⟩)], [⟨17, resourceMappingsMessage "S"⟩], none, none⟩ ∧
    (∀ range : RangeOrder, range.Valid →
      (emitted (run twoResultsPass range)).Perm [⟨17, resourceMappingsMessage "S"⟩] ∧
      (⟨17, validateMessage "S"⟩ : analysis.Diagnostic) ∉
        emitted (run twoResultsPass range)) := by
  refine ⟨rfl, fun _ _ => rfl, rfl, ?_⟩
  intro range hr
  have hp : (emitted (run twoResultsPass range)).Perm (emitted (run twoResultsPass id)) :=
    emitted_perm twoResultsPass range id hr (fun m => List.Perm.refl m)
  refine ⟨hp, fun hmem => ?_⟩
  have h2 : (⟨17, validateMessage "S"⟩ : analysis.Diagnostic) ∈
      emitted (run twoResultsPass id) := hp.mem_iff.mp hmem
  revert h2
  decide

/-! ## Methods without result list, and methods with a rejected result list. -/

/-- C14 (failing input). On `package p; type S struct{}; func (s S) Validate() {}` the
collection pass completes, and the scanning pass panics with a nil-pointer dereference: the
receiver of `Validate` resolves to the collected struct `S`, the name matches, and
`funcDecl.Type.Results.List` is read with `Results == nil`.  No diagnostic is emitted and
`run` does not return.  In general `run` returns (then with the result `nil` and the error
`nil`) exactly when no method declaration named `Validate` or `GetResourceMappings` whose
receiver resolves to a collected struct lacks a result list; unresolved receivers and
receivers naming no collected struct never panic. -/
theorem run_panics_on_resultless_method :
    collectPass resultlessOwnValidatePass.Files [] = .ok [("S", ⟨17, false, false⟩)] ∧
    inspectFunc resultlessOwnValidatePass.TypesInfo
      (some (method "s" 37 "S" "Validate" [] none [])) [("S", ⟨17, false, false⟩)] =
      .error .nilPointerDereference ∧
    (∀ range : RangeOrder,
      run resultlessOwnValidatePass range = .error .nilPointerDereference) ∧
    (∀ range : RangeOrder, emitted (run resultlessOwnValidatePass range) = []) ∧
    (∀ (pass : analysis.Pass) (range : RangeOrder),
      (∃ res, run pass range = .ok res) ↔
        (allNodes pass.Files).any
          (faultsAt pass.TypesInfo (collected pass.Files).keys) = false) ∧
    (∀ (pass : analysis.Pass) (range : RangeOrder) (res : RunResult),
      run pass range = .ok res → res.result = none ∧ res.err = none) ∧
    (∀ (pass : analysis.Pass) (range : RangeOrder) (e : Fault),
      run pass range = .error e → e = .nilPointerDereference) := by
  refine ⟨rfl, rfl, fun _ => rfl, fun _ => rfl, run_ok_iff, ?_, fun _ _ e _ => fault_eq e⟩
  intro pass range res h
  rw [run_eq] at h
  cases hs : visitAll (inspectFunc pass.TypesInfo) (allNodes pass.Files)
      (collected pass.Files) with
  | error e => rw [hs] at h; cases h
  | ok scanned =>
    rw [hs] at h
    simp only [Except.ok.injEq] at h
    subst h
    exact ⟨rfl, rfl⟩

theorem predicates_of_rejected (ti : types.Info) (d : FuncDecl) (cs : List Node)
    (h : (d.Name = "Validate" ∧ ∃ rs, d.Type_.Results = some rs ∧
          isValidValidateSignature rs = false) ∨
      (d.Name = "GetResourceMappings" ∧ ∃ rs, d.Type_.Results = some rs ∧
          isValidResourceMappingsSignature rs = false)) :
    (∀ keys, faultsAt ti keys (.mk (.FuncDecl d) cs) = false) ∧
    (∀ S, providesValidate ti S (.mk (.FuncDecl d) cs) = false) ∧
    (∀ S, providesResourceMappings ti S (.mk (.FuncDecl d) cs) = false) := by
  rcases h with ⟨hn, rs, hres, hv⟩ | ⟨hn, rs, hres, hv⟩
  · refine ⟨fun keys => ?_, fun S => ?_, fun S => ?_⟩
    · simp [faultsAt, Node.kind, hres]
    · simp [providesValidate, Node.kind, hres, hv]
    · simp [providesResourceMappings, Node.kind, hn]
  · refine ⟨fun keys => ?_, fun S => ?_, fun S => ?_⟩
    · simp [faultsAt, Node.kind, hres]
    · simp [providesValidate, Node.kind, hn]
    · simp [providesResourceMappings, Node.kind, hres, hv]

/-- C13 (counterexample). Two inputs on which removing a method with a matching name and a
failing signature changes the diagnostics.  On
`type S struct{}; func (s S) Validate() bool { type tmp struct{}; return true }` the run
emits the two diagnostics of `S` and two more for `tmp`, the struct type declared in the
body of the method; and on `type S struct{}; func (s S) GetResourceMappings() {}` the run
panics and emits nothing.  On the input without the method, `type S struct{}`, the run
emits the two diagnostics of `S`. -/
theorem rejected_method_is_not_absence :
    emitted (run rejectedWithLocalPass id) =
      [⟨17, validateMessage "S"⟩, ⟨17, resourceMappingsMessage "S"⟩,
       ⟨63, validateMessage "tmp"⟩, ⟨63, resourceMappingsMessage "tmp"⟩] ∧
    run resultlessOwnMappingsPass id = .error .nilPointerDereference ∧
    emitted (run resultlessOwnMappingsPass id) = [] ∧
    emitted (run structOnlyPass id) =
      [⟨17, validateMessage "S"⟩, ⟨17, resourceMappingsMessage "S"⟩] ∧
    emitted (run rejectedWithLocalPass id) ≠ emitted (run structOnlyPass id) ∧
    emitted (run resultlessOwnMappingsPass id) ≠ emitted (run structOnlyPass id) :=
  ⟨rfl, rfl, rfl, rfl, by decide, by decide⟩

/-- C13 (amended). A method whose name is `Validate` and whose declared result list Matcher
A rejects, or whose name is `GetResourceMappings` and whose declared result list Matcher B
rejects, and whose body declares nothing, is the same as absence: the run on the input with
the method declaration gives exactly the result (diagnostics, registry, or panic) of the run
on the same input with that declaration removed. -/
theorem rejected_method_same_as_absent (fs1 fs2 : List Node) (k : NodeKind)
    (ds1 ds2 : List Node) (d : FuncDecl) (body : List Node) (ti : types.Info)
    (range : RangeOrder)
    (hrej : (d.Name = "Validate" ∧ ∃ rs, d.Type_.Results = some rs ∧
          isValidValidateSignature rs = false) ∨
      (d.Name = "GetResourceMappings" ∧ ∃ rs, d.Type_.Results = some rs ∧
          isValidResourceMappingsSignature rs = false))
    (hbody : InertBody body) :
    run ⟨fs1 ++ Node.mk k (ds1 ++ [Node.mk (.FuncDecl d) body] ++ ds2) :: fs2, ti⟩ range =
      run ⟨fs1 ++ Node.mk k (ds1 ++ ds2) :: fs2, ti⟩ range ∧
    emitted (run ⟨fs1 ++ Node.mk k (ds1 ++ [Node.mk (.FuncDecl d) body] ++ ds2) :: fs2, ti⟩
      range) = emitted (run ⟨fs1 ++ Node.mk k (ds1 ++ ds2) :: fs2, ti⟩ range) := by
  obtain ⟨hf, hv, hg⟩ := predicates_of_rejected ti d body hrej
  have key : ∀ (p : Node → Bool), (∀ x, (∀ d, x.kind ≠ .FuncDecl d) → p x = false) →
      p (.mk (.FuncDecl d) body) = false →
      (preorderList [Node.mk (.FuncDecl d) body]).any p = false := by
    intro p hp h0
    rw [preorderList_singleton, Node.preorder, List.any_cons, any_inert p body hbody hp, h0]
    rfl
  have hrun : run ⟨fs1 ++ Node.mk k (ds1 ++ [Node.mk (.FuncDecl d) body] ++ ds2) :: fs2, ti⟩
      range = run ⟨fs1 ++ Node.mk k (ds1 ++ ds2) :: fs2, ti⟩ range := by
    apply run_remove
    · rw [preorderList_singleton, Node.preorder]
      have h2 : structDecls (Node.mk (.FuncDecl d) body :: preorderList body) =
          structDeclsOfNode (Node.mk (.FuncDecl d) body) ++ structDecls (preorderList body) := by
        simp [structDecls]
      rw [h2, structDecls_of_inert body hbody]
      rfl
    · intro keys h
      rw [key _ (faultsAt_of_not_funcDecl ti keys) (hf keys)] at h; cases h
    · intro S h
      rw [key _ (providesValidate_of_not_funcDecl ti S) (hv S)] at h; cases h
    · intro S h
      rw [key _ (providesResourceMappings_of_not_funcDecl ti S) (hg S)] at h; cases h
  exact ⟨hrun, by rw [hrun]⟩

/-- Witness of C13 (amended): `func (s S) Validate() bool { return true }` on `S` against
the input without it. -/
theorem rejected_method_same_as_absent_witness :
    run boolValidatePass id = run structOnlyPass id ∧
    emitted (run boolValidatePass id) =
      [⟨17, validateMessage "S"⟩, ⟨17, resourceMappingsMessage "S"⟩] :=
  ⟨(rejected_method_same_as_absent [] [] (.Other "File") [structDecl 17 "S" []] []
      ⟨some [.mk ["s"] (.Ident 37 "S")], "Validate", ⟨[], some [.mk [] (.Ident 51 "bool")]⟩⟩
      [.mk (.Other "BlockStmt") [.mk (.Other "ReturnStmt") []]]
      (packageTypes ["S", "error"]) id
      (Or.inl ⟨rfl, _, rfl, rfl⟩) inertBody_return).1,
    rfl⟩

/-! ## Inputs with the same declarations. -/

theorem any_eq_of_perm {α : Type} (p : α → Bool) (l1 l2 : List α) (h : l1.Perm l2) :
    l1.any p = l2.any p := by
  rw [Bool.eq_iff_iff, List.any_eq_true, List.any_eq_true]
  constructor
  · rintro ⟨x, hx, hp⟩; exact ⟨x, h.mem_iff.mp hx, hp⟩
  · rintro ⟨x, hx, hp⟩; exact ⟨x, h.mem_iff.mpr hx, hp⟩

theorem any_eq_any_kinds (p : Node → Bool)
    (hp : ∀ k cs cs2, p (Node.mk k cs) = p (Node.mk k cs2)) (ns : List Node) :
    ns.any p = (ns.map Node.kind).any (fun k => p (Node.mk k [])) := by
  induction ns with
  | nil => rfl
  | cons n ns ih =>
    obtain ⟨k, cs⟩ := n
    simp only [List.any_cons, List.map_cons, Node.kind, ih, hp k cs []]

theorem structDecls_eq_kinds (ns : List Node) :
    structDecls ns = (ns.map Node.kind).flatMap (fun k => structDeclsOfNode (Node.mk k [])) := by
  induction ns with
  | nil => rfl
  | cons n ns ih =>
    obtain ⟨k, cs⟩ := n
    simp only [structDecls] at ih
    simp only [structDecls, List.flatMap_cons, List.map_cons, Node.kind, ih]
    rfl

theorem any_eq_of_sameDeclarations (p : Node → Bool)
    (hp : ∀ k cs cs2, p (Node.mk k cs) = p (Node.mk k cs2)) (files1 files2 : List Node)
    (h : SameDeclarations files1 files2) :
    (allNodes files1).any p = (allNodes files2).any p := by
  rw [any_eq_any_kinds p hp, any_eq_any_kinds p hp]
  exact any_eq_of_perm _ _ _ h

theorem structDecls_perm_of_sameDeclarations (files1 files2 : List Node)
    (h : SameDeclarations files1 files2) :
    (structDecls (allNodes files1)).Perm (structDecls (allNodes files2)) := by
  rw [structDecls_eq_kinds, structDecls_eq_kinds]
  exact h.flatMap_right _

theorem StructMap.set_of_not_mem (m : StructMap) (k : String) (v : TokenInfo)
    (hk : k ∉ m.keys) : m.set k v = m ++ [(k, v)] := by
  induction m with
  | nil => rfl
  | cons e rest ih =>
    obtain ⟨k1, v1⟩ := e
    have h : k1 ≠ k := by
      intro h; apply hk; simp [StructMap.keys, h]
    have hk2 : k ∉ StructMap.keys rest := by
      intro h2; apply hk; simp only [StructMap.keys] at h2; simp [StructMap.keys, h2]
    simp [StructMap.set, h, ih hk2]

/-- With distinct names, the collection pass records the declared structs in order. -/
theorem foldl_declare_of_nodup (ds : List (String × token.Pos)) (m : StructMap)
    (h : (m.keys ++ ds.map Prod.fst).Nodup) :
    ds.foldl declare m = m ++ ds.map (fun d => (d.1, (⟨d.2, false, false⟩ : TokenInfo))) := by
  induction ds generalizing m with
  | nil => simp
  | cons d ds ih =>
    have hd : d.1 ∉ m.keys := by
      intro hmem
      rw [List.nodup_append] at h
      exact h.2.2 hmem (by simp)
    rw [List.foldl_cons, declare, StructMap.set_of_not_mem m _ _ hd, ih]
    · simp
    · have : StructMap.keys (m ++ [(d.1, (⟨d.2, false, false⟩ : TokenInfo))]) = m.keys ++ [d.1] := by
        simp [StructMap.keys]
      rw [this]
      simpa [List.append_assoc] using h

theorem collected_perm_of_sameDeclarations (files1 files2 : List Node)
    (h : SameDeclarations files1 files2)
    (hnd : ((structDecls (allNodes files1)).map Prod.fst).Nodup) :
    (collected files1).Perm (collected files2) := by
  have hp := structDecls_perm_of_sameDeclarations files1 files2 h
  have hnd2 : ((structDecls (allNodes files2)).map Prod.fst).Nodup :=
    (hp.map Prod.fst).nodup_iff.mp hnd
  rw [collected, collected, foldl_declare_of_nodup _ [] (by simpa [StructMap.keys] using hnd),
    foldl_declare_of_nodup _ [] (by simpa [StructMap.keys] using hnd2)]
  simpa using hp.map _

/-! ## Declaration order. -/

theorem sameDeclarations_of_perm (files1 files2 : List Node) (h : files1.Perm files2) :
    SameDeclarations files1 files2 := by
  unfold SameDeclarations allNodes
  rw [preorderList_eq_flatMap, preorderList_eq_flatMap]
  exact (h.flatMap_right _).map _

theorem sameDeclarations_of_perm_decls (fs1 fs2 : List Node) (k : NodeKind)
    (ds1 ds2 : List Node) (h : ds1.Perm ds2) :
    SameDeclarations (fs1 ++ Node.mk k ds1 :: fs2) (fs1 ++ Node.mk k ds2 :: fs2) := by
  unfold SameDeclarations
  rw [allNodes_file, allNodes_file]
  simp only [List.map_append, List.map_cons, Node.kind]
  have hp : (preorderList ds1).Perm (preorderList ds2) := by
    rw [preorderList_eq_flatMap, preorderList_eq_flatMap]
    exact h.flatMap_right _
  exact ((List.Perm.refl _).append (((hp.map Node.kind).cons k))).append (List.Perm.refl _)

theorem run_error_iff (pass : analysis.Pass) (range : RangeOrder) (e : Fault) :
    run pass range = .error e ↔
      visitAll (inspectFunc pass.TypesInfo) (allNodes pass.Files) (collected pass.Files) =
        .error e := by
  rw [run_eq]
  cases visitAll (inspectFunc pass.TypesInfo) (allNodes pass.Files) (collected pass.Files) with
  | error e2 => simp
  | ok s => simp

theorem run_ok_scanned (pass : analysis.Pass) (range : RangeOrder) (res : RunResult)
    (h : run pass range = .ok res) :
    visitAll (inspectFunc pass.TypesInfo) (allNodes pass.Files) (collected pass.Files) =
      .ok res.structMap ∧
    res.Diagnostics = (range res.structMap).flatMap entryDiagnostics := by
  rw [run_eq] at h
  cases hs : visitAll (inspectFunc pass.TypesInfo) (allNodes pass.Files)
      (collected pass.Files) with
  | error e => rw [hs] at h; cases h
  | ok scanned =>
    rw [hs] at h
    simp only [Except.ok.injEq] at h
    subst h
    exact ⟨rfl, rfl⟩

/-- C17. Declaration order does not matter.  Reordering the files, or the declarations
within a file, gives an input with the same declarations (`SameDeclarations`); and for two
inputs with the same declarations and the same type information, the struct names being
distinct, whatever the enumeration orders: both runs panic or neither does, the final
registries read the same under every name (same flags, same positions) and hold the same
records, and the emitted diagnostics are the same up to order.  So a method declared
before the type declaration of its struct, as `CreateEtcdCluster.Validate` in the test
data, is attributed to that struct. -/
theorem declaration_order_irrelevant :
    (∀ files1 files2 : List Node, files1.Perm files2 → SameDeclarations files1 files2) ∧
    (∀ (fs1 fs2 : List Node) (k : NodeKind) (ds1 ds2 : List Node), ds1.Perm ds2 →
      SameDeclarations (fs1 ++ Node.mk k ds1 :: fs2) (fs1 ++ Node.mk k ds2 :: fs2)) ∧
    (∀ files1 files2 files3 : List Node, SameDeclarations files1 files2 →
      SameDeclarations files2 files3 → SameDeclarations files1 files3) ∧
    (∀ (files1 files2 : List Node) (ti : types.Info) (range1 range2 : RangeOrder),
      SameDeclarations files1 files2 →
      ((structDecls (allNodes files1)).map Prod.fst).Nodup →
      range1.Valid → range2.Valid →
      (∀ e, run ⟨files1, ti⟩ range1 = .error e ↔ run ⟨files2, ti⟩ range2 = .error e) ∧
      (∀ res1 res2, run ⟨files1, ti⟩ range1 = .ok res1 → run ⟨files2, ti⟩ range2 = .ok res2 →
        (∀ S, res1.structMap.get S = res2.structMap.get S) ∧
        res1.structMap.Perm res2.structMap ∧
        res1.Diagnostics.Perm res2.Diagnostics) ∧
      (emitted (run ⟨files1, ti⟩ range1)).Perm (emitted (run ⟨files2, ti⟩ range2))) ∧
    run examplePass id =
      .ok ⟨[("CreateEtcdCluster", ⟨198, true, true⟩),
          ("TruncateTableRequest", ⟨535, true, false⟩),
          ("MigrateDatabaseRequest", ⟨637, true, false⟩),
          ("ResetPasswordRequest", ⟨677, true, false⟩)],
        [⟨535, resourceMappingsMessage "TruncateTableRequest"⟩,
         ⟨637, resourceMappingsMessage "MigrateDatabaseRequest"⟩,
         ⟨677, resourceMappingsMessage "ResetPasswordRequest"⟩], none, none⟩ := by
  refine ⟨sameDeclarations_of_perm, sameDeclarations_of_perm_decls,
    fun _ _ _ h1 h2 => h1.trans h2, ?_, rfl⟩
  intro files1 files2 ti range1 range2 hsame hnd hr1 hr2
  have hcp := collected_perm_of_sameDeclarations files1 files2 hsame hnd
  obtain ⟨herr, hok⟩ := visitAll_inspectFunc_perm ti (allNodes files1) (allNodes files2)
    (collected files1) (collected files2) hcp (nodup_keys_collected files1)
    (any_eq_of_sameDeclarations _ (faultsAt_kind ti _) files1 files2 hsame)
    (fun S => any_eq_of_sameDeclarations _ (providesValidate_kind ti S) files1 files2 hsame)
    (fun S => any_eq_of_sameDeclarations _ (providesResourceMappings_kind ti S)
      files1 files2 hsame)
  have hres : ∀ res1 res2, run ⟨files1, ti⟩ range1 = .ok res1 →
      run ⟨files2, ti⟩ range2 = .ok res2 →
      (∀ S, res1.structMap.get S = res2.structMap.get S) ∧
      res1.structMap.Perm res2.structMap ∧
      res1.Diagnostics.Perm res2.Diagnostics := by
    intro res1 res2 h1 h2
    obtain ⟨hs1, hd1⟩ := run_ok_scanned _ range1 res1 h1
    obtain ⟨hs2, hd2⟩ := run_ok_scanned _ range2 res2 h2
    obtain ⟨hget, hperm, _, _⟩ := hok _ _ hs1 hs2
    refine ⟨hget, hperm, ?_⟩
    rw [hd1, hd2]
    exact (((hr1 _).trans hperm).trans (hr2 _).symm).flatMap_right _
  have herr2 : ∀ e, run ⟨files1, ti⟩ range1 = .error e ↔ run ⟨files2, ti⟩ range2 = .error e := by
    intro e
    rw [run_error_iff, run_error_iff]
    exact herr e
  refine ⟨herr2, hres, ?_⟩
  cases h1 : run ⟨files1, ti⟩ range1 with
  | error e =>
    rw [(herr2 e).mp h1]
  | ok res1 =>
    cases h2 : run ⟨files2, ti⟩ range2 with
    | error e => rw [(herr2 e).mpr h2] at h1; cases h1
    | ok res2 => exact (hres res1 res2 h1 h2).2.2

/-- Witness of C17: `func (s S) Validate() error` written before `type S struct{}`, against
the same two declarations in the other order; both runs attribute the method to `S`. -/
theorem declaration_order_irrelevant_witness :
    SameDeclarations methodFirstPass.Files structFirstPass.Files ∧
    (emitted (run methodFirstPass id)).Perm (emitted (run structFirstPass List.reverse)) ∧
    run methodFirstPass id =
      .ok ⟨[("S", ⟨61, true, false⟩)], [⟨61, resourceMappingsMessage "S"⟩], none, none⟩ :=
  ⟨declaration_order_irrelevant.2.1 [] [] (.Other "File")
      [ method "s" 20 "S" "Validate" [] (some [.mk [] (.Ident 34 "error")])
          [.mk (.Other "ReturnStmt") []],
        structDecl 61 "S" [] ]
      [ structDecl 61 "S" [],
        method "s" 20 "S" "Validate" [] (some [.mk [] (.Ident 34 "error")])
          [.mk (.Other "ReturnStmt") []] ]
      (List.Perm.swap _ _ _),
    (declaration_order_irrelevant.2.2.2.1 methodFirstPass.Files structFirstPass.Files
      (packageTypes ["S", "error"]) id List.reverse
      (declaration_order_irrelevant.2.1 [] [] (.Other "File")
        [ method "s" 20 "S" "Validate" [] (some [.mk [] (.Ident 34 "error")])
            [.mk (.Other "ReturnStmt") []],
          structDecl 61 "S" [] ]
        [ structDecl 61 "S" [],
          method "s" 20 "S" "Validate" [] (some [.mk [] (.Ident 34 "error")])
            [.mk (.Other "ReturnStmt") []] ]
        (List.Perm.swap _ _ _))
      (by decide) (fun m => List.Perm.refl m) (fun m => List.reverse_perm m)).2.2,
    rfl⟩

/-! ## Parameter lists. -/

theorem structDecls_cons (n : Node) (l : List Node) :
    structDecls (n :: l) = structDeclsOfNode n ++ structDecls l := by
  simp [structDecls]

theorem structDecls_preorder_of_sameButParams (n1 n2 : Node) (h : SameButParams n1 n2) :
    structDecls n1.preorder = structDecls n2.preorder := by
  rcases h with rfl | ⟨Recv, Name, P1, P2, R, pre, pn1, pn2, post, h1, h2, rfl, rfl⟩
  · rfl
  · simp only [Node.preorder, structDecls_cons, preorderList_append, structDecls_append,
      structDecls_of_inert pn1 h1, structDecls_of_inert pn2 h2]
    rfl

theorem any_preorder_of_sameButParams (p : Node → Bool)
    (hp : ∀ x, (∀ d, x.kind ≠ .FuncDecl d) → p x = false)
    (hk : ∀ (Recv : Option FieldList) (Name : String) (P1 P2 : FieldList)
      (R : Option FieldList) (cs1 cs2 : List Node),
      p (.mk (.FuncDecl ⟨Recv, Name, ⟨P1, R⟩⟩) cs1) = p (.mk (.FuncDecl ⟨Recv, Name, ⟨P2, R⟩⟩) cs2))
    (n1 n2 : Node) (h : SameButParams n1 n2) : n1.preorder.any p = n2.preorder.any p := by
  rcases h with rfl | ⟨Recv, Name, P1, P2, R, pre, pn1, pn2, post, h1, h2, rfl, rfl⟩
  · rfl
  · simp only [Node.preorder, List.any_cons, preorderList_append, List.any_append,
      any_inert p pn1 h1 hp, any_inert p pn2 h2 hp]
    rw [hk Recv Name P1 P2 R (pre ++ pn1 ++ post) (pre ++ pn2 ++ post)]

theorem structDecls_preorderList_of_sameButParams (ds1 ds2 : List Node)
    (h : List.Forall₂ SameButParams ds1 ds2) :
    structDecls (preorderList ds1) = structDecls (preorderList ds2) := by
  induction h with
  | nil => rfl
  | cons hab _ ih =>
    simp only [preorderList, structDecls_append, structDecls_preorder_of_sameButParams _ _ hab, ih]

theorem any_preorderList_of_sameButParams (p : Node → Bool)
    (hp : ∀ x, (∀ d, x.kind ≠ .FuncDecl d) → p x = false)
    (hk : ∀ (Recv : Option FieldList) (Name : String) (P1 P2 : FieldList)
      (R : Option FieldList) (cs1 cs2 : List Node),
      p (.mk (.FuncDecl ⟨Recv, Name, ⟨P1, R⟩⟩) cs1) = p (.mk (.FuncDecl ⟨Recv, Name, ⟨P2, R⟩⟩) cs2))
    (ds1 ds2 : List Node) (h : List.Forall₂ SameButParams ds1 ds2) :
    (preorderList ds1).any p = (preorderList ds2).any p := by
  induction h with
  | nil => rfl
  | cons hab _ ih =>
    simp only [preorderList, List.any_append, any_preorder_of_sameButParams p hp hk _ _ hab, ih]

theorem structDecls_allNodes_of_differOnlyInParams (files1 files2 : List Node)
    (h : DifferOnlyInParams files1 files2) :
    structDecls (allNodes files1) = structDecls (allNodes files2) := by
  unfold allNodes
  induction h with
  | nil => rfl
  | cons hab _ ih =>
    obtain ⟨k, ds1, ds2, rfl, rfl, hds⟩ := hab
    simp only [preorderList, Node.preorder, structDecls_append, structDecls_cons,
      structDecls_preorderList_of_sameButParams ds1 ds2 hds, ih]
    rfl

theorem any_allNodes_of_differOnlyInParams (p : Node → Bool)
    (hp : ∀ x, (∀ d, x.kind ≠ .FuncDecl d) → p x = false)
    (hk : ∀ (Recv : Option FieldList) (Name : String) (P1 P2 : FieldList)
      (R : Option FieldList) (cs1 cs2 : List Node),
      p (.mk (.FuncDecl ⟨Recv, Name, ⟨P1, R⟩⟩) cs1) = p (.mk (.FuncDecl ⟨Recv, Name, ⟨P2, R⟩⟩) cs2))
    (hkind : ∀ k cs cs2, p (Node.mk k cs) = p (Node.mk k cs2))
    (files1 files2 : List Node) (h : DifferOnlyInParams files1 files2) :
    (allNodes files1).any p = (allNodes files2).any p := by
  unfold allNodes
  induction h with
  | nil => rfl
  | cons hab _ ih =>
    obtain ⟨k, ds1, ds2, rfl, rfl, hds⟩ := hab
    simp only [preorderList, Node.preorder, List.any_append, List.any_cons,
      any_preorderList_of_sameButParams p hp hk ds1 ds2 hds, ih, hkind k ds1 ds2]

/-- C7 (amended). The scanner does not inspect parameters: `inspectFunc` returns the same
for two method declarations that differ only in the parameter list, whatever the parameter
lists hold, so `Validate(x int) error` sets `hasValidate` as `Validate() error` does.  Two
inputs with the same type information that differ only in the parameter lists of function
declarations (same receivers, names, result lists, bodies and positions), no parameter list
holding a declaration, give the same result of `run`: the same diagnostics, or the same
panic. -/
theorem run_ignores_inert_params (files1 files2 : List Node) (ti : types.Info)
    (range : RangeOrder) (h : DifferOnlyInParams files1 files2) :
    run ⟨files1, ti⟩ range = run ⟨files2, ti⟩ range ∧
    emitted (run ⟨files1, ti⟩ range) = emitted (run ⟨files2, ti⟩ range) ∧
    (∀ (Recv : Option FieldList) (Name : String) (Params1 Params2 : FieldList)
      (Results : Option FieldList) (cs1 cs2 : List Node) (m : StructMap),
      inspectFunc ti (some (.mk (.FuncDecl ⟨Recv, Name, ⟨Params1, Results⟩⟩) cs1)) m =
      inspectFunc ti (some (.mk (.FuncDecl ⟨Recv, Name, ⟨Params2, Results⟩⟩) cs2)) m) := by
  have h1 : run ⟨files1, ti⟩ range = run ⟨files2, ti⟩ range := by
    apply run_congr
    · exact structDecls_allNodes_of_differOnlyInParams files1 files2 h
    · intro keys
      exact any_allNodes_of_differOnlyInParams _ (faultsAt_of_not_funcDecl ti keys)
        (fun _ _ _ _ _ _ _ => rfl) (faultsAt_kind ti keys) files1 files2 h
    · intro S
      exact any_allNodes_of_differOnlyInParams _ (providesValidate_of_not_funcDecl ti S)
        (fun _ _ _ _ _ _ _ => rfl) (providesValidate_kind ti S) files1 files2 h
    · intro S
      exact any_allNodes_of_differOnlyInParams _ (providesResourceMappings_of_not_funcDecl ti S)
        (fun _ _ _ _ _ _ _ => rfl) (providesResourceMappings_kind ti S) files1 files2 h
  exact ⟨h1, by rw [h1], fun _ _ _ _ _ _ _ _ => rfl⟩

theorem inertBody_nil : InertBody [] := by
  intro x hx
  simp [preorderList] at hx

theorem inertBody_emptyLiteral :
    InertBody [.mk (.Other "CallExpr") [.mk (.Other "FuncLit") [.mk (.Other "BlockStmt") []]]] := by
  intro x hx
  simp [preorderList, Node.preorder] at hx
  rcases hx with rfl | rfl | rfl
  · exact ⟨rfl, fun d h => by cases h⟩
  · exact ⟨rfl, fun d h => by cases h⟩
  · exact ⟨rfl, fun d h => by cases h⟩

/-- Witness of C7 (amended): `func (s S) Validate(x int) error` against the same declaration
with the parameter blanked out, and a parameter whose array length holds a function literal
with an empty body against the same parameter without the function literal; in each pair
both runs set `hasValidate` of `S` and report only the missing `GetResourceMappings`. -/
theorem run_ignores_inert_params_witness :
    DifferOnlyInParams paramValidatePass.Files noParamValidatePass.Files ∧
    run paramValidatePass id = run noParamValidatePass id ∧
    run paramValidatePass id =
      .ok ⟨[("S", ⟨17, true, false⟩)], [⟨17, resourceMappingsMessage "S"⟩], none, none⟩ ∧
    DifferOnlyInParams paramEmptyLiteralPass.Files paramNoLiteralPass.Files ∧
    run paramEmptyLiteralPass id = run paramNoLiteralPass id ∧
    run paramEmptyLiteralPass id =
      .ok ⟨[("S", ⟨34, true, false⟩)], [⟨34, resourceMappingsMessage "S"⟩], none, none⟩ :=
  have w1 : DifferOnlyInParams paramValidatePass.Files noParamValidatePass.Files :=
    List.Forall₂.cons
      ⟨_, _, _, rfl, rfl,
        List.Forall₂.cons (Or.inl rfl)
          (List.Forall₂.cons
            (Or.inr ⟨_, _, _, _, _, [], [], [],
              [.mk (.Other "BlockStmt") [.mk (.Other "ReturnStmt") []]],
              inertBody_nil, inertBody_nil, rfl, rfl⟩)
            List.Forall₂.nil)⟩
      List.Forall₂.nil
  have w2 : DifferOnlyInParams paramEmptyLiteralPass.Files paramNoLiteralPass.Files :=
    List.Forall₂.cons
      ⟨_, _, _, rfl, rfl,
        List.Forall₂.cons (Or.inl rfl)
          (List.Forall₂.cons (Or.inl rfl)
            (List.Forall₂.cons
              (Or.inr ⟨_, _, _, _, _, [],
                [.mk (.Other "CallExpr") [.mk (.Other "FuncLit") [.mk (.Other "BlockStmt") []]]],
                [], [.mk (.Other "BlockStmt") [.mk (.Other "ReturnStmt") []]],
                inertBody_emptyLiteral, inertBody_nil, rfl, rfl⟩)
              List.Forall₂.nil))⟩
      List.Forall₂.nil
  ⟨w1,
    (run_ignores_inert_params paramValidatePass.Files noParamValidatePass.Files
      (packageTypes ["S", "error"]) id w1).1, rfl,
    w2,
    (run_ignores_inert_params paramEmptyLiteralPass.Files paramNoLiteralPass.Files
      (packageTypes ["S", "error"]) id w2).1, rfl⟩

/-- C7 (counterexample). Two inputs that differ only in the parameter list of the method
`Validate` of `S`, on which `run` emits different diagnostics.  Both are
`type S struct{}; func (s S) Validate(x [unsafe.Sizeof(func() { ... })]int) error`, with the
same receiver, name, result list, body and positions; in the first the body of the function
literal in the parameter type is `type L struct{}`, in the second it is empty.  The collector
meets the declaration of `L` inside the parameter list, so the first run reports `L` twice
besides the missing `GetResourceMappings` of `S`, which is all the second run reports;
whatever the enumeration orders, the diagnostics of the two runs are not the same. -/
theorem param_declaration_changes_diagnostics :
    paramDeclaresPass = literalParamPass [.mk (.Other "DeclStmt") [structDecl 97 "L" []]] ∧
    paramEmptyLiteralPass = literalParamPass [] ∧
    collectPass paramDeclaresPass.Files [] =
      .ok [("S", ⟨34, false, false⟩), ("L", ⟨97, false, false⟩)] ∧
    run paramDeclaresPass id =
      .ok ⟨[("S", ⟨34, true, false⟩), ("L", ⟨97, false, false⟩)],
        [⟨34, resourceMappingsMessage "S"⟩, ⟨97, validateMessage "L"⟩,
          ⟨97, resourceMappingsMessage "L"⟩], none, none⟩ ∧
    run paramEmptyLiteralPass id =
      .ok ⟨[("S", ⟨34, true, false⟩)], [⟨34, resourceMappingsMessage "S"⟩], none, none⟩ ∧
    emitted (run paramDeclaresPass id) ≠ emitted (run paramEmptyLiteralPass id) ∧
    (∀ range1 range2 : RangeOrder, range1.Valid → range2.Valid →
      ¬ (emitted (run paramDeclaresPass range1)).Perm
          (emitted (run paramEmptyLiteralPass range2))) := by
  refine ⟨rfl, rfl, rfl, rfl, rfl, by decide, ?_⟩
  intro range1 range2 h1 h2 hperm
  have hid : RangeOrder.Valid id := fun m => List.Perm.refl m
  have ha := emitted_perm paramDeclaresPass id range1 hid h1
  have hb := emitted_perm paramEmptyLiteralPass range2 id h2 hid
  have hl := ((ha.trans hperm).trans hb).length_eq
  revert hl
  decide

end Linters
